import Mathlib

/-!
nextcloudClient: a shallow embedding of the OCS client, and the properties proved of it.

The Go package `nextcloudClient` is translated function by function.

Conventions of the embedding

* A Go `string` is a Lean `String`, a Go `int` is an `Int`, a Go `[]string` is a
  `List String`.  Every `[]string` this package produces is `nil` exactly when it
  is empty, so the empty list stands for the `nil` slice.
* A Go `error` is an `Option Err`; `none` is the `nil` error.
* A Go function with results `(T, error)` that may also end in a run-time panic
  returns an `Outcome T`.
* A method receiver or parameter of pointer type (`*Client`, `*UserData`) is given
  by the value it points to; `*url.Values`, which the package passes as nil, and the
  pointer fields `HTTPClient`, `RequestMeta` and `Quota` are an `Option`.
* Calls into the Go standard library whose code is not part of the package
  (`http.NewRequest`, the XML tokenizer, `strconv.ParseFloat`) are fields of `Lib`,
  and the HTTP transport is a field of `Client`.
-/

namespace nextcloudClient

/-! ## Go values: errors, panics and results -/

/-- Which standard-library call handed back an error value. -/
inductive Origin where
  | newRequest
  | clientDo
  | readAll
  | xmlUnmarshal
  deriving DecidableEq, Repr

/-- A Go error value: one returned by the standard library, one built with
`errors.New`, or one built with `fmt.Errorf`. -/
inductive Err where
  | library (origin : Origin) (msg : String)
  | errorsNew (msg : String)
  | fmtErrorf (msg : String)
  deriving DecidableEq, Repr

/-- The text returned by the `Error()` method. -/
def Err.Error : Err → String
  | .library _ msg => msg
  | .errorsNew msg => msg
  | .fmtErrorf msg => msg

/-- Run-time panics the package can raise. -/
inductive Panic where
  | nilDereference
  deriving DecidableEq, Repr

/-- How a call of a Go function with results `(T, error)` ends. -/
inductive Outcome (α : Type) where
  | returned (value : α) (err : Option Err)
  | panicked (p : Panic)
  deriving DecidableEq, Repr

/-- The verb `%d` of package `fmt` applied to an `int`. -/
def fmtInt (n : Int) : String := toString n

/-- Go `strings.Join`. -/
def stringsJoin (elems : List String) (sep : String) : String :=
  String.intercalate sep elems

/-! ## users.go: constants, `UserData`, `Validate` -/

def StatusSuccess : Int := 100
def InvalidRequest : Int := 999
def NotAuthorized : Int := 997

def QuotaUnlimited : String := "none"

structure UserData where
  UserId : String
  Password : String
  DisplayName : String
  Email : String
  GroupIds : List String
  SubadminGroupIds : List String
  Quota : String
  Language : String
  deriving DecidableEq, Repr

/-- Method `Validate` of `UserData`: the two checks run one after the other, each one
appending its problem and clearing the result. -/
def UserData.Validate (userData : UserData) : Bool × List String :=
  let problems : List String := []
  let result := true
  let (problems, result) :=
    if userData.UserId = "" then
      (problems ++ ["UserId must not be empty"], false)
    else (problems, result)
  let (problems, result) :=
    if userData.Email = "" ∧ userData.Password = "" then
      (problems ++ ["Either Password or Email must be set"], false)
    else (problems, result)
  (result, problems)

/-! ## Standard-library values the package builds: form values, headers, requests -/

/-- The bytes of the UTF-8 encoding of one character. -/
def utf8EncodeChar (c : Char) : List Nat :=
  let v := c.toNat
  if v ≤ 0x7f then [v]
  else if v ≤ 0x7ff then [0xc0 + v / 64, 0x80 + v % 64]
  else if v ≤ 0xffff then [0xe0 + v / 4096, 0x80 + v / 64 % 64, 0x80 + v % 64]
  else [0xf0 + v / 262144, 0x80 + v / 4096 % 64, 0x80 + v / 64 % 64, 0x80 + v % 64]

/-- The bytes of a Go string. -/
def bytesOf (s : String) : List Nat := s.data.flatMap utf8EncodeChar

/-- Go `len(s)` for a string: its number of bytes. -/
def byteLen (s : String) : Nat := (bytesOf s).length

/-- Upper-case hexadecimal digit of a value below 16. -/
def upperHexDigit (n : Nat) : Char := "0123456789ABCDEF".data.getD n '0'

/-- Whether `url.QueryEscape` leaves a byte as it is: letters, digits and `-_.~`. -/
def queryUnreserved (b : Nat) : Bool :=
  (97 ≤ b && b ≤ 122) || (65 ≤ b && b ≤ 90) || (48 ≤ b && b ≤ 57) ||
    b == 45 || b == 95 || b == 46 || b == 126

/-- One byte as written by `url.QueryEscape`. -/
def queryEscapeByte (b : Nat) : List Char :=
  if queryUnreserved b then [Char.ofNat b]
  else if b = 32 then ['+']
  else ['%', upperHexDigit (b / 16), upperHexDigit (b % 16)]

/-- Go `url.QueryEscape`. -/
def QueryEscape (s : String) : String := ⟨(bytesOf s).flatMap queryEscapeByte⟩

/-- Byte-wise lexicographic order on byte strings, the order of Go string comparison. -/
def bytesLE : List Nat → List Nat → Bool
  | [], _ => true
  | _ :: _, [] => false
  | a :: as, b :: bs => a < b || (a == b && bytesLE as bs)

/-- Insert a key into a list of keys sorted by Go string order. -/
def insertKey (k : String) : List String → List String
  | [] => [k]
  | x :: xs => if bytesLE (bytesOf k) (bytesOf x) then k :: x :: xs else x :: insertKey k xs

/-- Go `slices.Sort` on a list of strings. -/
def sortKeys (ks : List String) : List String := ks.foldr insertKey []

/-- A Go `map[string][]string` (the type behind `url.Values` and `http.Header`):
an association list in which every key occurs once. -/
abbrev StringsMap := List (String × List String)

/-- Index expression `m[key]`; a missing key gives the nil slice. -/
def StringsMap.get (m : StringsMap) (key : String) : List String :=
  match m.find? (fun kv => kv.1 == key) with
  | some kv => kv.2
  | none => []

/-- Assignment `m[key] = vs`. -/
def StringsMap.put (m : StringsMap) (key : String) (vs : List String) : StringsMap :=
  if m.any (fun kv => kv.1 == key) then
    m.map (fun kv => if kv.1 == key then (key, vs) else kv)
  else m ++ [(key, vs)]

/-- Go `url.Values`. -/
abbrev Values := StringsMap

/-- Method `Set` of `url.Values`. -/
def Values.Set (v : Values) (key value : String) : Values := StringsMap.put v key [value]

/-- Method `Add` of `url.Values`. -/
def Values.Add (v : Values) (key value : String) : Values :=
  StringsMap.put v key (StringsMap.get v key ++ [value])

/-- The inner loop of `Encode`: the entries of one key appended to the buffer. -/
def encodeKey (keyEscaped : String) (vs : List String) (buf : String) : String :=
  vs.foldl
    (fun buf v => (if buf.length > 0 then buf ++ "&" else buf) ++ keyEscaped ++ "=" ++ QueryEscape v)
    buf

/-- Method `Encode` of `url.Values`: keys in sorted order, each value as
`key=value`, entries separated by `&`. -/
def Values.Encode (v : Values) : String :=
  if v.length = 0 then ""
  else
    (sortKeys (v.map Prod.fst)).foldl
      (fun buf k => encodeKey (QueryEscape k) (StringsMap.get v k) buf) ""

/-- The alphabet of `base64.StdEncoding`. -/
def base64Digit (n : Nat) : Char :=
  "ABCDEFGHIJKLMNOPQRSTUVWXYZabcdefghijklmnopqrstuvwxyz0123456789+/".data.getD n 'A'

/-- Standard base64 with padding, over a list of bytes. -/
def base64Encode : List Nat → List Char
  | [] => []
  | [a] => [base64Digit (a / 4), base64Digit (a % 4 * 16), '=', '=']
  | [a, b] =>
    [base64Digit (a / 4), base64Digit (a % 4 * 16 + b / 16), base64Digit (b % 16 * 4), '=']
  | a :: b :: c :: rest =>
    base64Digit (a / 4) :: base64Digit (a % 4 * 16 + b / 16) ::
      base64Digit (b % 16 * 4 + c / 64) :: base64Digit (c % 64) :: base64Encode rest

/-- Go `base64.StdEncoding.EncodeToString([]byte(s))`. -/
def base64StdEncodeToString (s : String) : String := ⟨base64Encode (bytesOf s)⟩

/-- Whether a byte may occur in a header field name (an RFC 7230 token character). -/
def validHeaderFieldByte (b : Nat) : Bool :=
  (97 ≤ b && b ≤ 122) || (65 ≤ b && b ≤ 90) || (48 ≤ b && b ≤ 57) ||
    [33, 35, 36, 37, 38, 39, 42, 43, 45, 46, 94, 95, 96, 124, 126].contains b

/-- The loop of `textproto.CanonicalMIMEHeaderKey`: the first letter and every letter
after a hyphen in upper case, the other letters in lower case. -/
def canonicalLoop : Bool → List Char → List Char
  | _, [] => []
  | upper, c :: cs =>
    let c1 :=
      if upper && decide ('a' ≤ c ∧ c ≤ 'z') then Char.ofNat (c.toNat - 32)
      else if !upper && decide ('A' ≤ c ∧ c ≤ 'Z') then Char.ofNat (c.toNat + 32)
      else c
    c1 :: canonicalLoop (c == '-') cs

/-- Go `textproto.CanonicalMIMEHeaderKey`; a key that is not a token stays as it is. -/
def CanonicalMIMEHeaderKey (s : String) : String :=
  if (bytesOf s).all validHeaderFieldByte then ⟨canonicalLoop true s.data⟩ else s

/-- Go `http.Header`. -/
abbrev Header := StringsMap

/-- Method `Set` of `http.Header`. -/
def Header.Set (h : Header) (key value : String) : Header :=
  StringsMap.put h (CanonicalMIMEHeaderKey key) [value]

/-- Method `Get` of `http.Header`: the first value of the key, or the empty string. -/
def Header.Get (h : Header) (key : String) : String :=
  (StringsMap.get h (CanonicalMIMEHeaderKey key)).headD ""

/-- The part of an `http.Request` the package sets: `Body` is `none` for a nil
body reader and the text to be sent otherwise. -/
structure Request where
  Method : String
  URL : String
  Header : Header
  Body : Option String
  deriving DecidableEq, Repr

/-- Method `SetBasicAuth` of `http.Request`. -/
def Request.SetBasicAuth (r : Request) (username password : String) : Request :=
  let auth := username ++ ":" ++ password
  { r with Header := Header.Set r.Header "Authorization" ("Basic " ++ base64StdEncodeToString auth) }

/-! ## The transport and the standard-library calls taken as given -/

/-- What `HTTPClient.Do` followed by `ioutil.ReadAll` of the response body gives:
an error from `Do`, or a response with its status code whose body reads as a
text or fails to read. -/
inductive DoResult where
  | error (msg : String)
  | response (StatusCode : Int) (Body : Except String String)

/-- The `http.Client` of a `Client`: its timeout in seconds and its behaviour. -/
structure HTTPClient where
  Timeout : Nat
  Do : Request → DoResult

/-- A node of a parsed XML element: a child element with its local name, or a
run of character data. -/
inductive Node where
  | element (name : String) (children : List Node)
  | charData (text : String)

/-- Go `xml.Name`. -/
structure Name where
  Space : String
  Local : String
  deriving DecidableEq, Repr

/-- The first element of a document as the tokenizer of `encoding/xml` reads it. -/
structure Root where
  Name : Name
  children : List Node

/-- A 32-bit floating-point value, by its bit pattern. -/
structure Float32 where
  bits : Nat
  deriving DecidableEq, Repr

/-- The standard-library calls whose code is outside the package.

* `newRequestError method url` is the error `http.NewRequest` reports for a method
  and URL, if it rejects them.
* `xmlRoot body` is the first element of the document `body`, or `none` when the
  tokenizer meets a syntax error (or the end of the input) before that element is
  closed.
* `xmlErrorText target body` is the text of the error `xml.Unmarshal` reports when
  decoding `body` into the type named `target` fails.
* `parseFloat32 s` is `strconv.ParseFloat(s, 32)`, `none` when it fails. -/
structure Lib where
  newRequestError : String → String → Option String
  xmlRoot : String → Option Root
  xmlErrorText : String → String → String
  parseFloat32 : String → Option Float32

/-- Go `http.NewRequest`: the request with the method, URL and body given, or the
error of the library. -/
def Lib.NewRequest (lib : Lib) (method url : String) (body : Option String) :
    Except Err Request :=
  match lib.newRequestError method url with
  | some msg => .error (.library .newRequest msg)
  | none => .ok { Method := method, URL := url, Header := [], Body := body }

/-- A call of an operation: the requests it handed to the transport, in order,
and how it ended. -/
structure Call (α : Type) where
  sent : List Request
  outcome : Outcome α

/-! ## client.go -/

structure Client where
  HostURL : String
  HTTPClient : Option HTTPClient
  username : String
  password : String

/-- Function `NewClient`; `transport` is the network reached by the default
transport of the new `http.Client`. -/
def NewClient (transport : Request → DoResult) (host username password : String) : Client :=
  { HostURL := host ++ "/ocs/v1.php"
    username := username
    password := password
    HTTPClient := some { Timeout := 10, Do := transport } }

/-- Method `addHeadersForBody`. -/
def Client.addHeadersForBody (_c : Client) (req : Request) (contentLength : Int) : Request :=
  let req := { req with Header := Header.Set req.Header "Content-Type" "application/x-www-form-urlencoded" }
  { req with Header := Header.Set req.Header "Content-Length" (fmtInt contentLength) }

/-- Method `doRequest`: sets the two headers, sends the request, reads the body and
turns any status other than 200 into an error. -/
def Client.doRequest (c : Client) (req : Request) : Call (Option String) :=
  let req := { req with Header := Header.Set req.Header "OCS-APIRequest" "true" }
  let req := req.SetBasicAuth c.username c.password
  match c.HTTPClient with
  | none => ⟨[], .panicked .nilDereference⟩
  | some httpClient =>
    match httpClient.Do req with
    | .error msg => ⟨[req], .returned none (some (.library .clientDo msg))⟩
    | .response _ (.error msg) =>
      ⟨[req], .returned none (some (.library .readAll msg))⟩
    | .response StatusCode (.ok body) =>
      if StatusCode ≠ 200 then
        ⟨[req], .returned none
          (some (.fmtErrorf ("status: " ++ fmtInt StatusCode ++ ", body: " ++ body)))⟩
      else ⟨[req], .returned (some body) none⟩

/-! ## Decoding: the part of `xml.Unmarshal` the response types use -/

/-- Go `unicode.IsSpace`. -/
def isSpace (c : Char) : Bool :=
  let v := c.toNat
  (9 ≤ v && v ≤ 13) || v == 0x20 || v == 0x85 || v == 0xA0 || v == 0x1680 ||
    (0x2000 ≤ v && v ≤ 0x200a) || v == 0x2028 || v == 0x2029 || v == 0x202f ||
    v == 0x205f || v == 0x3000

/-- Go `strings.TrimSpace`. -/
def TrimSpace (s : String) : String :=
  ⟨((s.data.dropWhile isSpace).reverse.dropWhile isSpace).reverse⟩

/-- The value of a non-empty run of decimal digits, most significant first, added to
`acc`; `none` when a character is not a digit. -/
def digitsValue : Nat → List Char → Option Nat
  | acc, [] => some acc
  | acc, c :: cs =>
    if '0' ≤ c ∧ c ≤ '9' then digitsValue (acc * 10 + (c.toNat - 48)) cs else none

/-- Go `strconv.ParseInt(s, 10, 64)`: an optional sign, then decimal digits, with
the value inside the range of `int64`; `none` stands for its error. -/
def ParseInt (s : String) : Option Int :=
  match s.data with
  | [] => none
  | c :: cs =>
    let neg := c == '-'
    let ds := if c == '+' || c == '-' then cs else c :: cs
    if ds.isEmpty then none
    else
      match digitsValue 0 ds with
      | none => none
      | some un =>
        if !neg && un ≥ 2 ^ 63 then none
        else if neg && un > 2 ^ 63 then none
        else some (if neg then -(un : Int) else (un : Int))

/-- Go `strconv.ParseBool`. -/
def ParseBool (s : String) : Option Bool :=
  if s ∈ ["1", "t", "T", "TRUE", "true", "True"] then some true
  else if s ∈ ["0", "f", "F", "FALSE", "false", "False"] then some false
  else none

/-- The character data lying directly inside an element, concatenated: what
`Unmarshal` saves for a field of a simple type. -/
def charDataOf (children : List Node) : String :=
  children.foldl
    (fun data n => match n with
      | .charData text => data ++ text
      | .element _ _ => data)
    ""

/-- Case `reflect.Int` of `copyValue`: empty data gives 0, other data is trimmed
and parsed. -/
def copyInt (src : String) : Option Int :=
  if byteLen src = 0 then some 0 else ParseInt (TrimSpace src)

/-- Case `reflect.Bool` of `copyValue`. -/
def copyBool (src : String) : Option Bool :=
  if byteLen src = 0 then some false else ParseBool (TrimSpace src)

/-- Case `reflect.Float32` of `copyValue`. -/
def Lib.copyFloat32 (lib : Lib) (src : String) : Option Float32 :=
  if byteLen src = 0 then some ⟨0⟩ else lib.parseFloat32 (TrimSpace src)

/-! ## responses.go -/

structure MetaFragment where
  StatusCode : Int
  Status : String
  Message : String
  TotalItems : Int
  ItemsPerPage : Int
  deriving DecidableEq, Repr

structure SimpleResponse where
  XMLName : Name
  RequestMeta : Option MetaFragment
  deriving DecidableEq, Repr

structure GetUsersResponse where
  XMLName : Name
  RequestMeta : Option MetaFragment
  UserNames : List String
  deriving DecidableEq, Repr

structure UserGroupsResponse where
  XMLName : Name
  RequestMeta : Option MetaFragment
  GroupNames : List String
  deriving DecidableEq, Repr

structure UserSubadminGroupsResponse where
  XMLName : Name
  RequestMeta : Option MetaFragment
  GroupNames : List String
  deriving DecidableEq, Repr

structure GetGroupsResponse where
  XMLName : Name
  RequestMeta : Option MetaFragment
  GroupNames : List String
  deriving DecidableEq, Repr

structure GetGroupMembersResponse where
  XMLName : Name
  RequestMeta : Option MetaFragment
  UserNames : List String
  deriving DecidableEq, Repr

structure GetGroupSubadminsResponse where
  XMLName : Name
  RequestMeta : Option MetaFragment
  UserNames : List String
  deriving DecidableEq, Repr

/-- The zero value of `MetaFragment`, which a nil `RequestMeta` is set to when the
first `meta` element is met. -/
def MetaFragment.zero : MetaFragment :=
  { StatusCode := 0, Status := "", Message := "", TotalItems := 0, ItemsPerPage := 0 }

/-- One child of a `meta` element decoded into a `MetaFragment`: an element named
after a field overwrites that field, any other node is skipped; `none` when the
text of an integer field does not convert. -/
def MetaFragment.unmarshalChild (m : MetaFragment) : Node → Option MetaFragment
  | .charData _ => some m
  | .element name children =>
    if name = "statuscode" then
      (copyInt (charDataOf children)).map fun v => { m with StatusCode := v }
    else if name = "status" then some { m with Status := charDataOf children }
    else if name = "message" then some { m with Message := charDataOf children }
    else if name = "totalitems" then
      (copyInt (charDataOf children)).map fun v => { m with TotalItems := v }
    else if name = "itemsperpage" then
      (copyInt (charDataOf children)).map fun v => { m with ItemsPerPage := v }
    else some m

/-- A `meta` element decoded into the field `RequestMeta`: a nil pointer is first
set to a new zero record, then the children are decoded in document order. -/
def unmarshalMeta (RequestMeta : Option MetaFragment) (children : List Node) :
    Option (Option MetaFragment) :=
  (children.foldlM MetaFragment.unmarshalChild (RequestMeta.getD MetaFragment.zero)).map some

/-- The walk of `unmarshalPath` for a field of type `[]string`: `path` is the part
of the field path (parent names, then the element name) still to be matched by
the node.  An element matching the last name appends its character data to the
slice; an element matching a parent name has its children walked in document order;
any other node leaves the slice as it is. -/
def unmarshalPathStrings : List String → List String → Node → List String
  | [], slice, _ => slice
  | _ :: _, slice, .charData _ => slice
  | [name], slice, .element n children =>
    if n = name then slice ++ [charDataOf children] else slice
  | parent :: next :: rest, slice, .element n children =>
    if n = parent then children.foldl (unmarshalPathStrings (next :: rest)) slice else slice

/-- The fields shared by the six list responses while a document is decoded. -/
structure ListFields where
  RequestMeta : Option MetaFragment
  items : List String
  deriving DecidableEq, Repr

/-- One child of the root element decoded into a response with the fields
`RequestMeta` (tag `meta`) and a `[]string` with tag path `path`. -/
def ListFields.unmarshalChild (path : List String) (r : ListFields) : Node → Option ListFields
  | .charData _ => some r
  | .element name children =>
    if name = "meta" then
      (unmarshalMeta r.RequestMeta children).map fun m => { r with RequestMeta := m }
    else some { r with items := unmarshalPathStrings path r.items (.element name children) }

/-- The text of the error `xml.Unmarshal` returns for a body decoded into `target`. -/
def Lib.unmarshalError (lib : Lib) (target body : String) : Err :=
  .library .xmlUnmarshal (lib.xmlErrorText target body)

/-- Go `xml.Unmarshal(body, &response)` for a zero response with the fields `XMLName`
(tag `ocs`), `RequestMeta` and a `[]string` with tag path `path`: the document
must be well formed up to the end of its first element, that element must be
named `ocs`, and every integer field met must convert. -/
def Lib.unmarshalList (lib : Lib) (target : String) (path : List String) (body : String) :
    Except Err (Name × ListFields) :=
  match lib.xmlRoot body with
  | none => .error (lib.unmarshalError target body)
  | some root =>
    if root.Name.Local ≠ "ocs" then .error (lib.unmarshalError target body)
    else
      match root.children.foldlM (ListFields.unmarshalChild path) ⟨none, []⟩ with
      | none => .error (lib.unmarshalError target body)
      | some r => .ok (root.Name, r)

/-- Go `xml.Unmarshal` into a zero `SimpleResponse`. -/
def Lib.UnmarshalSimpleResponse (lib : Lib) (body : String) : Except Err SimpleResponse :=
  (lib.unmarshalList "SimpleResponse" [] body).map
    fun r => { XMLName := r.1, RequestMeta := r.2.RequestMeta }

/-- Go `xml.Unmarshal` into a zero `GetUsersResponse`. -/
def Lib.UnmarshalGetUsersResponse (lib : Lib) (body : String) : Except Err GetUsersResponse :=
  (lib.unmarshalList "GetUsersResponse" ["data", "users", "element"] body).map
    fun r => { XMLName := r.1, RequestMeta := r.2.RequestMeta, UserNames := r.2.items }

/-- Go `xml.Unmarshal` into a zero `UserGroupsResponse`. -/
def Lib.UnmarshalUserGroupsResponse (lib : Lib) (body : String) :
    Except Err UserGroupsResponse :=
  (lib.unmarshalList "UserGroupsResponse" ["data", "groups", "element"] body).map
    fun r => { XMLName := r.1, RequestMeta := r.2.RequestMeta, GroupNames := r.2.items }

/-- Go `xml.Unmarshal` into a zero `UserSubadminGroupsResponse`. -/
def Lib.UnmarshalUserSubadminGroupsResponse (lib : Lib) (body : String) :
    Except Err UserSubadminGroupsResponse :=
  (lib.unmarshalList "UserSubadminGroupsResponse" ["data", "element"] body).map
    fun r => { XMLName := r.1, RequestMeta := r.2.RequestMeta, GroupNames := r.2.items }

/-- Go `xml.Unmarshal` into a zero `GetGroupsResponse`. -/
def Lib.UnmarshalGetGroupsResponse (lib : Lib) (body : String) : Except Err GetGroupsResponse :=
  (lib.unmarshalList "GetGroupsResponse" ["data", "groups", "element"] body).map
    fun r => { XMLName := r.1, RequestMeta := r.2.RequestMeta, GroupNames := r.2.items }

/-- Go `xml.Unmarshal` into a zero `GetGroupMembersResponse`. -/
def Lib.UnmarshalGetGroupMembersResponse (lib : Lib) (body : String) :
    Except Err GetGroupMembersResponse :=
  (lib.unmarshalList "GetGroupMembersResponse" ["data", "users", "element"] body).map
    fun r => { XMLName := r.1, RequestMeta := r.2.RequestMeta, UserNames := r.2.items }

/-- Go `xml.Unmarshal` into a zero `GetGroupSubadminsResponse`. -/
def Lib.UnmarshalGetGroupSubadminsResponse (lib : Lib) (body : String) :
    Except Err GetGroupSubadminsResponse :=
  (lib.unmarshalList "GetGroupSubadminsResponse" ["data", "element"] body).map
    fun r => { XMLName := r.1, RequestMeta := r.2.RequestMeta, UserNames := r.2.items }

structure UserQuota where
  Free : Int
  Used : Int
  Total : Int
  Relative : Float32
  Quota : String
  deriving DecidableEq, Repr

structure UserDetailsBackendCapabilities where
  SetDisplayName : Bool
  SetPassword : Bool
  deriving DecidableEq, Repr

structure UserDetailsResponse where
  XMLName : Name
  RequestMeta : Option MetaFragment
  Enabled : Bool
  StorageLocation : String
  Id : String
  LastLogin : String
  Backend : String
  SubadminGroups : List String
  Quota : Option UserQuota
  Email : String
  DisplayName : String
  Phone : String
  Address : String
  Website : String
  Twitter : String
  Groups : List String
  Language : String
  Locale : String
  BackendCapabilities : UserDetailsBackendCapabilities
  deriving DecidableEq, Repr

/-- The zero value of `UserQuota`. -/
def UserQuota.zero : UserQuota := { Free := 0, Used := 0, Total := 0, Relative := ⟨0⟩, Quota := "" }

/-- The zero value of `UserDetailsResponse`. -/
def UserDetailsResponse.zero : UserDetailsResponse :=
  { XMLName := ⟨"", ""⟩, RequestMeta := none, Enabled := false, StorageLocation := "", Id := "",
    LastLogin := "", Backend := "", SubadminGroups := [], Quota := none, Email := "",
    DisplayName := "", Phone := "", Address := "", Website := "", Twitter := "", Groups := [],
    Language := "", Locale := "", BackendCapabilities := ⟨false, false⟩ }

/-- One child of a `quota` element decoded into a `UserQuota`. -/
def UserQuota.unmarshalChild (lib : Lib) (q : UserQuota) : Node → Option UserQuota
  | .charData _ => some q
  | .element name children =>
    if name = "free" then (copyInt (charDataOf children)).map fun v => { q with Free := v }
    else if name = "used" then (copyInt (charDataOf children)).map fun v => { q with Used := v }
    else if name = "total" then (copyInt (charDataOf children)).map fun v => { q with Total := v }
    else if name = "relative" then
      (lib.copyFloat32 (charDataOf children)).map fun v => { q with Relative := v }
    else if name = "quota" then some { q with Quota := charDataOf children }
    else some q

/-- One child of a `backendCapabilities` element decoded into the capability flags. -/
def UserDetailsBackendCapabilities.unmarshalChild (b : UserDetailsBackendCapabilities) :
    Node → Option UserDetailsBackendCapabilities
  | .charData _ => some b
  | .element name children =>
    if name = "setDisplayName" then
      (copyBool (charDataOf children)).map fun v => { b with SetDisplayName := v }
    else if name = "setPassword" then
      (copyBool (charDataOf children)).map fun v => { b with SetPassword := v }
    else some b

/-- One child of a `data` element decoded into a `UserDetailsResponse`: the fields
whose tag path starts with `data`. -/
def UserDetailsResponse.unmarshalDataChild (lib : Lib) (r : UserDetailsResponse) :
    Node → Option UserDetailsResponse
  | .charData _ => some r
  | .element name children =>
    if name = "enabled" then (copyBool (charDataOf children)).map fun v => { r with Enabled := v }
    else if name = "storageLocation" then some { r with StorageLocation := charDataOf children }
    else if name = "id" then some { r with Id := charDataOf children }
    else if name = "last_login" then some { r with LastLogin := charDataOf children }
    else if name = "backend" then some { r with Backend := charDataOf children }
    else if name = "quota" then
      (children.foldlM (UserQuota.unmarshalChild lib) (r.Quota.getD UserQuota.zero)).map
        fun q => { r with Quota := some q }
    else if name = "email" then some { r with Email := charDataOf children }
    else if name = "displayname" then some { r with DisplayName := charDataOf children }
    else if name = "phone" then some { r with Phone := charDataOf children }
    else if name = "address" then some { r with Address := charDataOf children }
    else if name = "website" then some { r with Website := charDataOf children }
    else if name = "twitter" then some { r with Twitter := charDataOf children }
    else if name = "groups" then
      some { r with Groups := children.foldl (unmarshalPathStrings ["element"]) r.Groups }
    else if name = "language" then some { r with Language := charDataOf children }
    else if name = "locale" then some { r with Locale := charDataOf children }
    else if name = "backendCapabilities" then
      (children.foldlM UserDetailsBackendCapabilities.unmarshalChild r.BackendCapabilities).map
        fun b => { r with BackendCapabilities := b }
    else some r

/-- One child of the root element decoded into a `UserDetailsResponse`. -/
def UserDetailsResponse.unmarshalChild (lib : Lib) (r : UserDetailsResponse) :
    Node → Option UserDetailsResponse
  | .charData _ => some r
  | .element name children =>
    if name = "meta" then
      (unmarshalMeta r.RequestMeta children).map fun m => { r with RequestMeta := m }
    else if name = "data" then children.foldlM (UserDetailsResponse.unmarshalDataChild lib) r
    else if name = "subadmin" then
      some { r with
        SubadminGroups := children.foldl (unmarshalPathStrings ["element"]) r.SubadminGroups }
    else some r

/-- Go `xml.Unmarshal` into a zero `UserDetailsResponse`. -/
def Lib.UnmarshalUserDetailsResponse (lib : Lib) (body : String) :
    Except Err UserDetailsResponse :=
  match lib.xmlRoot body with
  | none => .error (lib.unmarshalError "UserDetailsResponse" body)
  | some root =>
    if root.Name.Local ≠ "ocs" then .error (lib.unmarshalError "UserDetailsResponse" body)
    else
      match root.children.foldlM (UserDetailsResponse.unmarshalChild lib)
          { UserDetailsResponse.zero with XMLName := root.Name } with
      | none => .error (lib.unmarshalError "UserDetailsResponse" body)
      | some r => .ok r

/-! ## The operations of client.go, groups.go and users.go

Each operation returns, next to its Go results, the requests it handed to the
transport.  Reading a field of `RequestMeta` while that pointer is nil is the
panic `nilDereference`, and so is calling `Encode` through a nil `*url.Values`. -/

/-- The error built by
`errors.New(fmt.Sprintf("Api returned a status code %d indicating failure", code))`. -/
def apiFailure (code : Int) : Err :=
  .errorsNew ("Api returned a status code " ++ fmtInt code ++ " indicating failure")

/-- Function `doSimpleRequest`.  The body reader is built from `bodyData.Encode()`
before `bodyData` is compared with nil. -/
def doSimpleRequest (lib : Lib) (c : Client) (method endpoint : String)
    (bodyData : Option Values) : Call Bool :=
  match bodyData with
  | none => ⟨[], .panicked .nilDereference⟩
  | some values =>
    match lib.NewRequest method endpoint (some (Values.Encode values)) with
    | .error err => ⟨[], .returned false (some err)⟩
    | .ok req =>
      let req :=
        match bodyData with
        | some values => c.addHeadersForBody req (byteLen (Values.Encode values))
        | none => c.addHeadersForBody req 0
      let call := c.doRequest req
      match call.outcome with
      | .panicked p => ⟨call.sent, .panicked p⟩
      | .returned _ (some err) => ⟨call.sent, .returned false (some err)⟩
      | .returned body none =>
        match lib.UnmarshalSimpleResponse (body.getD "") with
        | .error err => ⟨call.sent, .returned false (some err)⟩
        | .ok response =>
          match response.RequestMeta with
          | none => ⟨call.sent, .panicked .nilDereference⟩
          | some RequestMeta =>
            if RequestMeta.StatusCode ≠ StatusSuccess then
              ⟨call.sent, .returned false
                (some (.errorsNew ("Api returned a status code " ++ fmtInt RequestMeta.StatusCode
                  ++ " indicating failure. Message: " ++ RequestMeta.Status)))⟩
            else ⟨call.sent, .returned true none⟩

/-- Method `GetGroups` (groups.go). -/
def Client.GetGroups (c : Client) (lib : Lib) : Call (List String) :=
  match lib.NewRequest "GET" (c.HostURL ++ "/cloud/groups") none with
  | .error err => ⟨[], .returned [] (some err)⟩
  | .ok req =>
    let call := c.doRequest req
    match call.outcome with
    | .panicked p => ⟨call.sent, .panicked p⟩
    | .returned _ (some err) => ⟨call.sent, .returned [] (some err)⟩
    | .returned body none =>
      match lib.UnmarshalGetGroupsResponse (body.getD "") with
      | .error err => ⟨call.sent, .returned [] (some err)⟩
      | .ok response =>
        match response.RequestMeta with
        | none => ⟨call.sent, .panicked .nilDereference⟩
        | some RequestMeta =>
          if RequestMeta.StatusCode ≠ StatusSuccess then
            ⟨call.sent, .returned [] (some (apiFailure RequestMeta.StatusCode))⟩
          else ⟨call.sent, .returned response.GroupNames none⟩

/-- Method `GetGroup` (groups.go): the listing is searched for an element equal to
`groupId`. -/
def Client.GetGroup (c : Client) (lib : Lib) (groupId : String) : Call String :=
  match lib.NewRequest "GET" (c.HostURL ++ "/cloud/groups?search=" ++ groupId) none with
  | .error err => ⟨[], .returned "" (some err)⟩
  | .ok req =>
    let call := c.doRequest req
    match call.outcome with
    | .panicked p => ⟨call.sent, .panicked p⟩
    | .returned _ (some err) => ⟨call.sent, .returned "" (some err)⟩
    | .returned body none =>
      match lib.UnmarshalGetGroupsResponse (body.getD "") with
      | .error err => ⟨call.sent, .returned "" (some err)⟩
      | .ok response =>
        match response.RequestMeta with
        | none => ⟨call.sent, .panicked .nilDereference⟩
        | some RequestMeta =>
          if RequestMeta.StatusCode ≠ StatusSuccess then
            ⟨call.sent, .returned "" (some (apiFailure RequestMeta.StatusCode))⟩
          else
            match response.GroupNames.find? (fun name => name == groupId) with
            | some _ => ⟨call.sent, .returned groupId none⟩
            | none =>
              ⟨call.sent, .returned ""
                (some (.errorsNew ("No group with the id " ++ groupId ++ " was found")))⟩

/-- Method `CreateGroup` (groups.go). -/
def Client.CreateGroup (c : Client) (lib : Lib) (groupId : String) : Call Bool :=
  let bodyData : Values := []
  let bodyData := Values.Set bodyData "groupid" groupId
  doSimpleRequest lib c "POST" (c.HostURL ++ "/cloud/groups") (some bodyData)

/-- Method `DeleteGroup` (groups.go). -/
def Client.DeleteGroup (c : Client) (lib : Lib) (groupId : String) : Call Bool :=
  doSimpleRequest lib c "DELETE" (c.HostURL ++ "/cloud/groups/" ++ groupId) none

/-- Method `GetGroupMembers` (groups.go). -/
def Client.GetGroupMembers (c : Client) (lib : Lib) (groupId : String) : Call (List String) :=
  match lib.NewRequest "GET" (c.HostURL ++ "/cloud/groups/" ++ groupId) none with
  | .error err => ⟨[], .returned [] (some err)⟩
  | .ok req =>
    let call := c.doRequest req
    match call.outcome with
    | .panicked p => ⟨call.sent, .panicked p⟩
    | .returned _ (some err) => ⟨call.sent, .returned [] (some err)⟩
    | .returned body none =>
      match lib.UnmarshalGetGroupMembersResponse (body.getD "") with
      | .error err => ⟨call.sent, .returned [] (some err)⟩
      | .ok response =>
        match response.RequestMeta with
        | none => ⟨call.sent, .panicked .nilDereference⟩
        | some RequestMeta =>
          if RequestMeta.StatusCode ≠ StatusSuccess then
            ⟨call.sent, .returned [] (some (apiFailure RequestMeta.StatusCode))⟩
          else ⟨call.sent, .returned response.UserNames none⟩

/-- Method `GetGroupSubadmins` (groups.go). -/
def Client.GetGroupSubadmins (c : Client) (lib : Lib) (groupId : String) : Call (List String) :=
  match lib.NewRequest "GET" (c.HostURL ++ "/cloud/groups/" ++ groupId ++ "/subadmins") none with
  | .error err => ⟨[], .returned [] (some err)⟩
  | .ok req =>
    let call := c.doRequest req
    match call.outcome with
    | .panicked p => ⟨call.sent, .panicked p⟩
    | .returned _ (some err) => ⟨call.sent, .returned [] (some err)⟩
    | .returned body none =>
      match lib.UnmarshalGetGroupSubadminsResponse (body.getD "") with
      | .error err => ⟨call.sent, .returned [] (some err)⟩
      | .ok response =>
        match response.RequestMeta with
        | none => ⟨call.sent, .panicked .nilDereference⟩
        | some RequestMeta =>
          if RequestMeta.StatusCode ≠ StatusSuccess then
            ⟨call.sent, .returned [] (some (apiFailure RequestMeta.StatusCode))⟩
          else ⟨call.sent, .returned response.UserNames none⟩

/-- Method `GetUsers` (users.go). -/
def Client.GetUsers (c : Client) (lib : Lib) : Call (List String) :=
  match lib.NewRequest "GET" (c.HostURL ++ "/cloud/users") none with
  | .error err => ⟨[], .returned [] (some err)⟩
  | .ok req =>
    let call := c.doRequest req
    match call.outcome with
    | .panicked p => ⟨call.sent, .panicked p⟩
    | .returned _ (some err) => ⟨call.sent, .returned [] (some err)⟩
    | .returned body none =>
      match lib.UnmarshalGetUsersResponse (body.getD "") with
      | .error err => ⟨call.sent, .returned [] (some err)⟩
      | .ok response =>
        match response.RequestMeta with
        | none => ⟨call.sent, .panicked .nilDereference⟩
        | some RequestMeta =>
          if RequestMeta.StatusCode ≠ StatusSuccess then
            ⟨call.sent, .returned [] (some (apiFailure RequestMeta.StatusCode))⟩
          else ⟨call.sent, .returned response.UserNames none⟩

/-- The statements of `CreateUser` that fill the form values of a valid `UserData`. -/
def createUserBody (userData : UserData) : Values :=
  let bodyData : Values := []
  let bodyData := Values.Set bodyData "userid" userData.UserId
  let bodyData :=
    if userData.Password ≠ "" then Values.Set bodyData "password" userData.Password else bodyData
  let bodyData :=
    if userData.DisplayName ≠ "" then Values.Set bodyData "displayName" userData.DisplayName
    else bodyData
  let bodyData :=
    if userData.Email ≠ "" then Values.Set bodyData "email" userData.Email else bodyData
  let bodyData :=
    if userData.GroupIds.length > 0 then
      userData.GroupIds.foldl (fun bodyData groupId => Values.Add bodyData "groups[]" groupId)
        bodyData
    else bodyData
  let bodyData :=
    if userData.SubadminGroupIds.length > 0 then
      userData.SubadminGroupIds.foldl
        (fun bodyData subadminGroupId => Values.Add bodyData "subadmin[]" subadminGroupId) bodyData
    else bodyData
  let bodyData :=
    if userData.Quota ≠ "" then Values.Set bodyData "quota" userData.Quota else bodyData
  let bodyData :=
    if userData.Language ≠ "" then Values.Set bodyData "language" userData.Language
    else bodyData
  bodyData

/-- Method `CreateUser` (users.go): the data is validated first, and a failed
validation returns before anything else is done. -/
def Client.CreateUser (c : Client) (lib : Lib) (userData : UserData) : Call Bool :=
  let (result, problems) := userData.Validate
  if result = false then
    ⟨[], .returned false (some (.errorsNew (stringsJoin problems "\n")))⟩
  else
    doSimpleRequest lib c "POST" (c.HostURL ++ "/cloud/users") (some (createUserBody userData))

/-- Method `GetUserDetails` (users.go); the result is a pointer to the decoded
response, `none` for nil. -/
def Client.GetUserDetails (c : Client) (lib : Lib) (userId : String) :
    Call (Option UserDetailsResponse) :=
  match lib.NewRequest "GET" (c.HostURL ++ "/cloud/users/" ++ userId) none with
  | .error err => ⟨[], .returned none (some err)⟩
  | .ok req =>
    let call := c.doRequest req
    match call.outcome with
    | .panicked p => ⟨call.sent, .panicked p⟩
    | .returned _ (some err) => ⟨call.sent, .returned none (some err)⟩
    | .returned body none =>
      match lib.UnmarshalUserDetailsResponse (body.getD "") with
      | .error err => ⟨call.sent, .returned none (some err)⟩
      | .ok response =>
        match response.RequestMeta with
        | none => ⟨call.sent, .panicked .nilDereference⟩
        | some RequestMeta =>
          if RequestMeta.StatusCode ≠ StatusSuccess then
            ⟨call.sent, .returned none (some (apiFailure RequestMeta.StatusCode))⟩
          else ⟨call.sent, .returned (some response) none⟩

/-- Method `UpdateUserDetail` (users.go); `attr` is the parameter the source calls
by the Lean keyword for attributes. -/
def Client.UpdateUserDetail (c : Client) (lib : Lib) (userId attr value : String) :
    Call Bool :=
  let bodyData : Values := []
  let bodyData := Values.Set bodyData "key" attr
  let bodyData := Values.Set bodyData "value" value
  match lib.NewRequest "PUT" (c.HostURL ++ "/cloud/users/" ++ userId)
      (some (Values.Encode bodyData)) with
  | .error err => ⟨[], .returned false (some err)⟩
  | .ok req =>
    let req := c.addHeadersForBody req (byteLen (Values.Encode bodyData))
    let call := c.doRequest req
    match call.outcome with
    | .panicked p => ⟨call.sent, .panicked p⟩
    | .returned _ (some err) => ⟨call.sent, .returned false (some err)⟩
    | .returned body none =>
      match lib.UnmarshalSimpleResponse (body.getD "") with
      | .error err => ⟨call.sent, .returned false (some err)⟩
      | .ok response =>
        match response.RequestMeta with
        | none => ⟨call.sent, .panicked .nilDereference⟩
        | some RequestMeta =>
          if RequestMeta.StatusCode ≠ StatusSuccess then
            ⟨call.sent, .returned false (some (apiFailure RequestMeta.StatusCode))⟩
          else ⟨call.sent, .returned true none⟩

/-- Method `DisableUser` (users.go). -/
def Client.DisableUser (c : Client) (lib : Lib) (userId : String) : Call Bool :=
  doSimpleRequest lib c "PUT" (c.HostURL ++ "/cloud/users/" ++ userId ++ "/disable") none

/-- Method `EnableUser` (users.go). -/
def Client.EnableUser (c : Client) (lib : Lib) (userId : String) : Call Bool :=
  doSimpleRequest lib c "PUT" (c.HostURL ++ "/cloud/users/" ++ userId ++ "/enable") none

/-- Method `DeleteUser` (users.go). -/
def Client.DeleteUser (c : Client) (lib : Lib) (userId : String) : Call Bool :=
  doSimpleRequest lib c "DELETE" (c.HostURL ++ "/cloud/users/" ++ userId) none

/-- Method `GetUserGroups` (users.go). -/
def Client.GetUserGroups (c : Client) (lib : Lib) (userId : String) : Call (List String) :=
  match lib.NewRequest "GET" (c.HostURL ++ "/cloud/users/" ++ userId ++ "/groups") none with
  | .error err => ⟨[], .returned [] (some err)⟩
  | .ok req =>
    let call := c.doRequest req
    match call.outcome with
    | .panicked p => ⟨call.sent, .panicked p⟩
    | .returned _ (some err) => ⟨call.sent, .returned [] (some err)⟩
    | .returned body none =>
      match lib.UnmarshalUserGroupsResponse (body.getD "") with
      | .error err => ⟨call.sent, .returned [] (some err)⟩
      | .ok response =>
        match response.RequestMeta with
        | none => ⟨call.sent, .panicked .nilDereference⟩
        | some RequestMeta =>
          if RequestMeta.StatusCode ≠ StatusSuccess then
            ⟨call.sent, .returned [] (some (apiFailure RequestMeta.StatusCode))⟩
          else ⟨call.sent, .returned response.GroupNames none⟩

/-- Method `AddUserToGroup` (users.go). -/
def Client.AddUserToGroup (c : Client) (lib : Lib) (userId groupId : String) : Call Bool :=
  let bodyData : Values := []
  let bodyData := Values.Set bodyData "groupid" groupId
  doSimpleRequest lib c "POST" (c.HostURL ++ "/cloud/users/" ++ userId ++ "/groups") (some bodyData)

/-- Method `RemoveUserFromGroup` (users.go). -/
def Client.RemoveUserFromGroup (c : Client) (lib : Lib) (userId groupId : String) : Call Bool :=
  let bodyData : Values := []
  let bodyData := Values.Set bodyData "groupid" groupId
  doSimpleRequest lib c "DELETE" (c.HostURL ++ "/cloud/users/" ++ userId ++ "/groups") (some bodyData)

/-- Method `PromoteToSubadmin` (users.go). -/
def Client.PromoteToSubadmin (c : Client) (lib : Lib) (userId groupId : String) : Call Bool :=
  let bodyData : Values := []
  let bodyData := Values.Set bodyData "groupid" groupId
  doSimpleRequest lib c "POST" (c.HostURL ++ "/cloud/users/" ++ userId ++ "/subadmins") (some bodyData)

/-- Method `DemoteFromSubadmin` (users.go). -/
def Client.DemoteFromSubadmin (c : Client) (lib : Lib) (userId groupId : String) : Call Bool :=
  let bodyData : Values := []
  let bodyData := Values.Set bodyData "groupid" groupId
  doSimpleRequest lib c "DELETE" (c.HostURL ++ "/cloud/users/" ++ userId ++ "/subadmins") (some bodyData)

/-- Method `GetSubadminGroups` (users.go). -/
def Client.GetSubadminGroups (c : Client) (lib : Lib) (userId : String) : Call (List String) :=
  match lib.NewRequest "GET" (c.HostURL ++ "/cloud/users/" ++ userId ++ "/subadmins") none with
  | .error err => ⟨[], .returned [] (some err)⟩
  | .ok req =>
    let call := c.doRequest req
    match call.outcome with
    | .panicked p => ⟨call.sent, .panicked p⟩
    | .returned _ (some err) => ⟨call.sent, .returned [] (some err)⟩
    | .returned body none =>
      match lib.UnmarshalUserSubadminGroupsResponse (body.getD "") with
      | .error err => ⟨call.sent, .returned [] (some err)⟩
      | .ok response =>
        match response.RequestMeta with
        | none => ⟨call.sent, .panicked .nilDereference⟩
        | some RequestMeta =>
          if RequestMeta.StatusCode ≠ StatusSuccess then
            ⟨call.sent, .returned [] (some (apiFailure RequestMeta.StatusCode))⟩
          else ⟨call.sent, .returned response.GroupNames none⟩

/-- Method `ResendWelcomeMail` (users.go). -/
def Client.ResendWelcomeMail (c : Client) (lib : Lib) (userId : String) : Call Bool :=
  doSimpleRequest lib c "POST" (c.HostURL ++ "/cloud/users/" ++ userId ++ "/welcome") none

/-! ## Vocabulary of the statements -/

/-- The six operations that return a list of names, with their arguments. -/
inductive ListOp where
  | GetUsers
  | GetGroups
  | GetUserGroups (userId : String)
  | GetSubadminGroups (userId : String)
  | GetGroupMembers (groupId : String)
  | GetGroupSubadmins (groupId : String)
  deriving DecidableEq, Repr

/-- The call of a list operation. -/
def ListOp.call (c : Client) (lib : Lib) : ListOp → Call (List String)
  | .GetUsers => c.GetUsers lib
  | .GetGroups => c.GetGroups lib
  | .GetUserGroups userId => c.GetUserGroups lib userId
  | .GetSubadminGroups userId => c.GetSubadminGroups lib userId
  | .GetGroupMembers groupId => c.GetGroupMembers lib groupId
  | .GetGroupSubadmins groupId => c.GetGroupSubadmins lib groupId

/-- The envelope a list operation decodes a body into, reduced to its meta
record and its list field. -/
def ListOp.decode (lib : Lib) (body : String) :
    ListOp → Except Err (Option MetaFragment × List String)
  | .GetUsers => (lib.UnmarshalGetUsersResponse body).map fun r => (r.RequestMeta, r.UserNames)
  | .GetGroups => (lib.UnmarshalGetGroupsResponse body).map fun r => (r.RequestMeta, r.GroupNames)
  | .GetUserGroups _ =>
    (lib.UnmarshalUserGroupsResponse body).map fun r => (r.RequestMeta, r.GroupNames)
  | .GetSubadminGroups _ =>
    (lib.UnmarshalUserSubadminGroupsResponse body).map fun r => (r.RequestMeta, r.GroupNames)
  | .GetGroupMembers _ =>
    (lib.UnmarshalGetGroupMembersResponse body).map fun r => (r.RequestMeta, r.UserNames)
  | .GetGroupSubadmins _ =>
    (lib.UnmarshalGetGroupSubadminsResponse body).map fun r => (r.RequestMeta, r.UserNames)

/-- The operations with a boolean result that send a form body: the six that go
through `doSimpleRequest` with form values, and `UpdateUserDetail`. -/
inductive FormOp where
  | CreateUser (userData : UserData)
  | CreateGroup (groupId : String)
  | AddUserToGroup (userId groupId : String)
  | RemoveUserFromGroup (userId groupId : String)
  | PromoteToSubadmin (userId groupId : String)
  | DemoteFromSubadmin (userId groupId : String)
  | UpdateUserDetail (userId attr value : String)
  deriving DecidableEq, Repr

/-- The call of a form operation. -/
def FormOp.call (c : Client) (lib : Lib) : FormOp → Call Bool
  | .CreateUser userData => c.CreateUser lib userData
  | .CreateGroup groupId => c.CreateGroup lib groupId
  | .AddUserToGroup userId groupId => c.AddUserToGroup lib userId groupId
  | .RemoveUserFromGroup userId groupId => c.RemoveUserFromGroup lib userId groupId
  | .PromoteToSubadmin userId groupId => c.PromoteToSubadmin lib userId groupId
  | .DemoteFromSubadmin userId groupId => c.DemoteFromSubadmin lib userId groupId
  | .UpdateUserDetail userId attr value => c.UpdateUserDetail lib userId attr value

/-- A result value of any of the operations. -/
inductive Value where
  | names (list : List String)
  | group (id : String)
  | success (ok : Bool)
  | details (response : Option UserDetailsResponse)
  deriving DecidableEq, Repr

/-- Whether a result is the zero value of its Go type: the nil slice, the empty
string, `false`, the nil pointer. -/
def Value.isZero : Value → Bool
  | .names list => list.isEmpty
  | .group id => id == ""
  | .success ok => !ok
  | .details response => response.isNone

/-- A call with its result value wrapped. -/
def Call.wrap {α : Type} (f : α → Value) (call : Call α) : Call Value :=
  { sent := call.sent
    outcome :=
      match call.outcome with
      | .returned value err => .returned (f value) err
      | .panicked p => .panicked p }

/-- Every exported operation of the package, with its arguments. -/
inductive Operation where
  | GetUsers
  | CreateUser (userData : UserData)
  | GetUserDetails (userId : String)
  | UpdateUserDetail (userId attr value : String)
  | DisableUser (userId : String)
  | EnableUser (userId : String)
  | DeleteUser (userId : String)
  | GetUserGroups (userId : String)
  | AddUserToGroup (userId groupId : String)
  | RemoveUserFromGroup (userId groupId : String)
  | PromoteToSubadmin (userId groupId : String)
  | DemoteFromSubadmin (userId groupId : String)
  | GetSubadminGroups (userId : String)
  | ResendWelcomeMail (userId : String)
  | GetGroups
  | GetGroup (groupId : String)
  | CreateGroup (groupId : String)
  | DeleteGroup (groupId : String)
  | GetGroupMembers (groupId : String)
  | GetGroupSubadmins (groupId : String)
  deriving DecidableEq, Repr

/-- The call of an operation, its result wrapped as a `Value`. -/
def Operation.call (c : Client) (lib : Lib) : Operation → Call Value
  | .GetUsers => (c.GetUsers lib).wrap .names
  | .CreateUser userData => (c.CreateUser lib userData).wrap .success
  | .GetUserDetails userId => (c.GetUserDetails lib userId).wrap .details
  | .UpdateUserDetail userId attr value => (c.UpdateUserDetail lib userId attr value).wrap .success
  | .DisableUser userId => (c.DisableUser lib userId).wrap .success
  | .EnableUser userId => (c.EnableUser lib userId).wrap .success
  | .DeleteUser userId => (c.DeleteUser lib userId).wrap .success
  | .GetUserGroups userId => (c.GetUserGroups lib userId).wrap .names
  | .AddUserToGroup userId groupId => (c.AddUserToGroup lib userId groupId).wrap .success
  | .RemoveUserFromGroup userId groupId =>
    (c.RemoveUserFromGroup lib userId groupId).wrap .success
  | .PromoteToSubadmin userId groupId => (c.PromoteToSubadmin lib userId groupId).wrap .success
  | .DemoteFromSubadmin userId groupId => (c.DemoteFromSubadmin lib userId groupId).wrap .success
  | .GetSubadminGroups userId => (c.GetSubadminGroups lib userId).wrap .names
  | .ResendWelcomeMail userId => (c.ResendWelcomeMail lib userId).wrap .success
  | .GetGroups => (c.GetGroups lib).wrap .names
  | .GetGroup groupId => (c.GetGroup lib groupId).wrap .group
  | .CreateGroup groupId => (c.CreateGroup lib groupId).wrap .success
  | .DeleteGroup groupId => (c.DeleteGroup lib groupId).wrap .success
  | .GetGroupMembers groupId => (c.GetGroupMembers lib groupId).wrap .names
  | .GetGroupSubadmins groupId => (c.GetGroupSubadmins lib groupId).wrap .names

/-- The lists of children of the elements called `name` among `nodes`, in document
order. -/
def childrenNamed (name : String) (nodes : List Node) : List (List Node) :=
  nodes.filterMap fun n =>
    match n with
    | .element m children => if m = name then some children else none
    | .charData _ => none

/-- The reading of a tag path by the words of the specification: the texts of the
elements found by following `path` from `nodes`, one name per level, in document
order and with repetitions kept.  The text of an element is the character data
directly inside it. -/
def textsAtPath : List String → List Node → List String
  | [], _ => []
  | [name], nodes => (childrenNamed name nodes).map charDataOf
  | parent :: next :: rest, nodes =>
    (childrenNamed parent nodes).flatMap (textsAtPath (next :: rest))

/-- The document of `TestGetGroups` as the tokenizer reads it:
`<ocs><meta><statuscode>100</statuscode><status>ok</status></meta><data><groups>`
`<element>admin</element><element>testGroup</element></groups></data></ocs>`. -/
def testGetGroupsDocument : Root :=
  { Name := ⟨"", "ocs"⟩
    children :=
      [ .element "meta"
          [.element "statuscode" [.charData "100"], .element "status" [.charData "ok"]],
        .element "data"
          [.element "groups"
            [.element "element" [.charData "admin"],
             .element "element" [.charData "testGroup"]]] ] }

/-- The request as `doRequest` hands it to the transport: the request it was given
with the API marker header and the basic-authentication header set. -/
def Client.outgoing (c : Client) (req : Request) : Request :=
  Request.SetBasicAuth { req with Header := Header.Set req.Header "OCS-APIRequest" "true" }
    c.username c.password

/-- The steps every operation shares, written once: build the request, add the
body headers if any, run `doRequest`, decode the body, read the status code of
the meta record and either fail or finish.  The operations are shown equal to
instances of it. -/
def pipeline {ρ α : Type} (c : Client) (lib : Lib) (method url : String) (body : Option String)
    (addHeaders : Request → Request) (decode : String → Except Err ρ)
    (metaOf : ρ → Option MetaFragment) (zero : α) (failure : MetaFragment → Err)
    (finish : ρ → α × Option Err) : Call α :=
  match lib.NewRequest method url body with
  | .error err => ⟨[], .returned zero (some err)⟩
  | .ok req =>
    let call := c.doRequest (addHeaders req)
    match call.outcome with
    | .panicked p => ⟨call.sent, .panicked p⟩
    | .returned _ (some err) => ⟨call.sent, .returned zero (some err)⟩
    | .returned body none =>
      match decode (body.getD "") with
      | .error err => ⟨call.sent, .returned zero (some err)⟩
      | .ok response =>
        match metaOf response with
        | none => ⟨call.sent, .panicked .nilDereference⟩
        | some RequestMeta =>
          if RequestMeta.StatusCode ≠ StatusSuccess then
            ⟨call.sent, .returned zero (some (failure RequestMeta))⟩
          else ⟨call.sent, .returned (finish response).1 (finish response).2⟩

/-- How an operation ends as a function of what the transport answered to its
request. -/
def interpret {ρ α : Type} (decode : String → Except Err ρ) (metaOf : ρ → Option MetaFragment)
    (zero : α) (failure : MetaFragment → Err) (finish : ρ → α × Option Err) :
    DoResult → Outcome α
  | .error msg => .returned zero (some (.library .clientDo msg))
  | .response _ (.error msg) => .returned zero (some (.library .readAll msg))
  | .response StatusCode (.ok body) =>
    if StatusCode ≠ 200 then
      .returned zero (some (.fmtErrorf ("status: " ++ fmtInt StatusCode ++ ", body: " ++ body)))
    else
      match decode body with
      | .error err => .returned zero (some err)
      | .ok response =>
        match metaOf response with
        | none => .panicked .nilDereference
        | some RequestMeta =>
          if RequestMeta.StatusCode ≠ StatusSuccess then .returned zero (some (failure RequestMeta))
          else .returned (finish response).1 (finish response).2

/-- The URL a list operation requests. -/
def ListOp.url (c : Client) : ListOp → String
  | .GetUsers => c.HostURL ++ "/cloud/users"
  | .GetGroups => c.HostURL ++ "/cloud/groups"
  | .GetUserGroups userId => c.HostURL ++ "/cloud/users/" ++ userId ++ "/groups"
  | .GetSubadminGroups userId => c.HostURL ++ "/cloud/users/" ++ userId ++ "/subadmins"
  | .GetGroupMembers groupId => c.HostURL ++ "/cloud/groups/" ++ groupId
  | .GetGroupSubadmins groupId => c.HostURL ++ "/cloud/groups/" ++ groupId ++ "/subadmins"

/-- The error `doSimpleRequest` builds for a status code other than 100. -/
def simpleFailure (m : MetaFragment) : Err :=
  .errorsNew ("Api returned a status code " ++ fmtInt m.StatusCode
    ++ " indicating failure. Message: " ++ m.Status)

/-- The last statements of `GetGroup`: the scan of the names for `groupId`. -/
def findGroup (groupId : String) (response : GetGroupsResponse) : String × Option Err :=
  match response.GroupNames.find? (fun name => name == groupId) with
  | some _ => (groupId, none)
  | none => ("", some (.errorsNew ("No group with the id " ++ groupId ++ " was found")))

/-- A client as the tests build it, for host `http://example.local`, whose
transport gives the same answer to every request. -/
def testClient (answer : DoResult) : Client :=
  NewClient (fun _ => answer) "http://example.local" "the-user" "the-secret-password"

/-- A library whose `http.NewRequest` accepts every request and whose tokenizer
reads `body` as `root` and rejects every other text. -/
def testLib (body : String) (root : Root) : Lib :=
  { newRequestError := fun _ _ => none
    xmlRoot := fun b => if b = body then some root else none
    xmlErrorText := fun _ _ => "XML syntax error"
    parseFloat32 := fun _ => none }

/-- An envelope with the status code `code`, the status text `status`, and the
children `data` in its data section. -/
def envelope (code status : String) (data : List Node) : Root :=
  { Name := ⟨"", "ocs"⟩
    children :=
      [ .element "meta"
          [.element "status" [.charData status], .element "statuscode" [.charData code],
           .element "message" []],
        .element "data" data ] }

/-- The error a form operation builds for a status code other than 100: the six
operations behind `doSimpleRequest` add the status text, `UpdateUserDetail` does
not. -/
def FormOp.failure : FormOp → MetaFragment → Err
  | .UpdateUserDetail _ _ _ => fun m => apiFailure m.StatusCode
  | _ => simpleFailure

/-- The text of the document that `envelope code status data` is the reading of,
`dataText` being the text of the children `data`. -/
def envelopeText (code status dataText : String) : String :=
  "<ocs><meta><status>" ++ status ++ "</status><statuscode>" ++ code
    ++ "</statuscode><message/></meta><data>" ++ dataText ++ "</data></ocs>"

/-- The response body of `TestGetGroups`. -/
def testGetGroupsBody : String :=
  "<?xml version=\"1.0\"?><ocs><meta><statuscode>100</statuscode><status>ok</status></meta>"
    ++ "<data><groups><element>admin</element><element>testGroup</element></groups></data></ocs>"

/-- A server of the tests: the status it answers with, the body it sends, and the
document the tokenizer reads that body as. -/
structure Scenario where
  StatusCode : Int
  body : String
  document : Root

/-- The client of a scenario. -/
def Scenario.client (s : Scenario) : Client := testClient (.response s.StatusCode (.ok s.body))

/-- The library of a scenario. -/
def Scenario.lib (s : Scenario) : Lib := testLib s.body s.document

/-- Status 200 and an empty envelope with the status code 100. -/
def simpleOk : Scenario := ⟨200, envelopeText "100" "ok" "", envelope "100" "ok" []⟩

/-- Status 401 and an envelope that by itself reports success. -/
def unauthorized : Scenario := ⟨401, envelopeText "100" "ok" "", envelope "100" "ok" []⟩

/-- Status 200 and an envelope with the status code 998. -/
def unknownUser : Scenario :=
  ⟨200, envelopeText "998" "failure" "", envelope "998" "failure" []⟩

/-- Status 200 and an envelope with the status code 101. -/
def unknownMember : Scenario :=
  ⟨200, envelopeText "101" "failure" "", envelope "101" "failure" []⟩

/-- Status 200 and a listing of two users. -/
def usersListing : Scenario :=
  ⟨200,
    envelopeText "100" "ok"
      "<users><element>john.doe</element><element>jane.doe</element></users>",
    envelope "100" "ok"
      [.element "users"
        [.element "element" [.charData "john.doe"], .element "element" [.charData "jane.doe"]]]⟩

/-- Status 200 and a group listing with the one group `admin`. -/
def adminListing : Scenario :=
  ⟨200, envelopeText "100" "ok" "<groups><element>admin</element></groups>",
    envelope "100" "ok" [.element "groups" [.element "element" [.charData "admin"]]]⟩

/-- Status 200 and an empty group listing. -/
def emptyListing : Scenario :=
  ⟨200, envelopeText "100" "ok" "<groups/>", envelope "100" "ok" [.element "groups" []]⟩

/-- The server of `TestGetGroups`. -/
def testGetGroups : Scenario := ⟨200, testGetGroupsBody, testGetGroupsDocument⟩

/-- Status 200 and a data section with two `groups` elements, a repeated name and
an `element` that lies outside `groups`. -/
def repeatedListing : Scenario :=
  ⟨200,
    envelopeText "100" "ok"
      ("<groups><element>b</element><element>a</element></groups>"
        ++ "<element>skipped</element><groups><element>b</element></groups>"),
    envelope "100" "ok"
      [.element "groups"
        [.element "element" [.charData "b"], .element "element" [.charData "a"]],
       .element "element" [.charData "skipped"],
       .element "groups" [.element "element" [.charData "b"]]]⟩

/-- The meta record of the response an operation decodes a body into. -/
def Operation.decodeMeta (lib : Lib) (body : String) :
    Operation → Except Err (Option MetaFragment)
  | .GetUsers => (lib.UnmarshalGetUsersResponse body).map fun r => r.RequestMeta
  | .GetUserDetails _ => (lib.UnmarshalUserDetailsResponse body).map fun r => r.RequestMeta
  | .GetUserGroups _ => (lib.UnmarshalUserGroupsResponse body).map fun r => r.RequestMeta
  | .GetSubadminGroups _ =>
    (lib.UnmarshalUserSubadminGroupsResponse body).map fun r => r.RequestMeta
  | .GetGroups => (lib.UnmarshalGetGroupsResponse body).map fun r => r.RequestMeta
  | .GetGroup _ => (lib.UnmarshalGetGroupsResponse body).map fun r => r.RequestMeta
  | .GetGroupMembers _ => (lib.UnmarshalGetGroupMembersResponse body).map fun r => r.RequestMeta
  | .GetGroupSubadmins _ =>
    (lib.UnmarshalGetGroupSubadminsResponse body).map fun r => r.RequestMeta
  | _ => (lib.UnmarshalSimpleResponse body).map fun r => r.RequestMeta

/-- Whether an operation goes through `doSimpleRequest`. -/
def Operation.viaSimpleRequest : Operation → Bool
  | .CreateUser _ | .DisableUser _ | .EnableUser _ | .DeleteUser _ | .AddUserToGroup _ _
  | .RemoveUserFromGroup _ _ | .PromoteToSubadmin _ _ | .DemoteFromSubadmin _ _
  | .ResendWelcomeMail _ | .CreateGroup _ | .DeleteGroup _ => true
  | _ => false

/-- The error an operation builds for a status code other than 100. -/
def Operation.failure (op : Operation) (m : MetaFragment) : Err :=
  if op.viaSimpleRequest then simpleFailure m else apiFailure m.StatusCode

/-- The form values a form operation encodes as its body. -/
def FormOp.values : FormOp → Values
  | .CreateUser userData => createUserBody userData
  | .CreateGroup groupId => Values.Set [] "groupid" groupId
  | .AddUserToGroup _ groupId => Values.Set [] "groupid" groupId
  | .RemoveUserFromGroup _ groupId => Values.Set [] "groupid" groupId
  | .PromoteToSubadmin _ groupId => Values.Set [] "groupid" groupId
  | .DemoteFromSubadmin _ groupId => Values.Set [] "groupid" groupId
  | .UpdateUserDetail _ attr value => Values.Set (Values.Set [] "key" attr) "value" value

/-- The group id a form operation sends as its only form value, for the five
operations that send one. -/
def FormOp.groupId : FormOp → Option String
  | .CreateGroup groupId => some groupId
  | .AddUserToGroup _ groupId => some groupId
  | .RemoveUserFromGroup _ groupId => some groupId
  | .PromoteToSubadmin _ groupId => some groupId
  | .DemoteFromSubadmin _ groupId => some groupId
  | _ => none

/-- Status 200 and a well-formed document with the root `ocs` and no meta
section: `<ocs><data/></ocs>`. -/
def missingMeta : Scenario :=
  ⟨200, "<ocs><data/></ocs>", ⟨⟨"", "ocs"⟩, [.element "data" []]⟩⟩

/-- The tag path of the list field of the response a list operation decodes. -/
def ListOp.path : ListOp → List String
  | .GetUsers => ["data", "users", "element"]
  | .GetGroups => ["data", "groups", "element"]
  | .GetUserGroups _ => ["data", "groups", "element"]
  | .GetSubadminGroups _ => ["data", "element"]
  | .GetGroupMembers _ => ["data", "users", "element"]
  | .GetGroupSubadmins _ => ["data", "element"]

/-- Whether a node is an element with the given name. -/
def Node.isNamed (name : String) : Node → Bool
  | .element n _ => n == name
  | .charData _ => false

/-- The children of a node; character data has none. -/
def Node.childNodes : Node → List Node
  | .element _ children => children
  | .charData _ => []

/-- An empty payload in the words of the specification: no `data` element of the
document holds an entry, that is an element named `element`, either directly or
inside one of its children.  Both `<data/>` and `<data><groups/></data>` are
empty in this sense. -/
def emptyPayload (root : Root) : Prop :=
  ∀ d ∈ root.children, d.isNamed "data" = true →
    ∀ x ∈ d.childNodes, x.isNamed "element" = false ∧
      ∀ y ∈ x.childNodes, y.isNamed "element" = false

/-- The response body of the case "Successful request" of `TestClient_GetUserDetails`. -/
def testUserDetailsBody : String :=
  "<?xmlversion=\"1.0\"?><ocs><meta><status>ok</status><statuscode>100</statuscode>"
    ++ "<message>OK</message><totalitems></totalitems><itemsperpage></itemsperpage></meta>"
    ++ "<data><enabled>1</enabled>"
    ++ "<storageLocation>/var/www/html/data/john.doe</storageLocation><id>john.doe</id>"
    ++ "<lastLogin>1618156321000</lastLogin><backend>Database</backend>"
    ++ "<subadmin><element>employees</element></subadmin>"
    ++ "<quota><free>549184147456</free><used>16792345</used><total>549200939801</total>"
    ++ "<relative>0</relative><quota>-3</quota></quota>"
    ++ "<email>john.doe@example.local</email><displayname>John Doe</displayname>"
    ++ "<phone>+1555123</phone><address></address><website>example.local</website>"
    ++ "<twitter></twitter>"
    ++ "<groups><element>developers</element><element>employees</element></groups>"
    ++ "<language>en</language><locale></locale><backendCapabilities>"
    ++ "<setDisplayName>1</setDisplayName><setPassword>1</setPassword>"
    ++ "</backendCapabilities></data></ocs>"

/-- The document of `testUserDetailsBody` as the tokenizer reads it. -/
def testUserDetailsDocument : Root :=
  { Name := ⟨"", "ocs"⟩
    children :=
      [ .element "meta"
          [ .element "status" [.charData "ok"], .element "statuscode" [.charData "100"],
            .element "message" [.charData "OK"], .element "totalitems" [],
            .element "itemsperpage" [] ],
        .element "data"
          [ .element "enabled" [.charData "1"],
            .element "storageLocation" [.charData "/var/www/html/data/john.doe"],
            .element "id" [.charData "john.doe"],
            .element "lastLogin" [.charData "1618156321000"],
            .element "backend" [.charData "Database"],
            .element "subadmin" [.element "element" [.charData "employees"]],
            .element "quota"
              [ .element "free" [.charData "549184147456"],
                .element "used" [.charData "16792345"],
                .element "total" [.charData "549200939801"],
                .element "relative" [.charData "0"],
                .element "quota" [.charData "-3"] ],
            .element "email" [.charData "john.doe@example.local"],
            .element "displayname" [.charData "John Doe"],
            .element "phone" [.charData "+1555123"],
            .element "address" [],
            .element "website" [.charData "example.local"],
            .element "twitter" [],
            .element "groups"
              [ .element "element" [.charData "developers"],
                .element "element" [.charData "employees"] ],
            .element "language" [.charData "en"],
            .element "locale" [],
            .element "backendCapabilities"
              [ .element "setDisplayName" [.charData "1"],
                .element "setPassword" [.charData "1"] ] ] ] }

/-- The server of the case "Successful request" of `TestClient_GetUserDetails`. -/
def testUserDetails : Scenario := ⟨200, testUserDetailsBody, testUserDetailsDocument⟩

/-- The library of `testUserDetails`, with a `strconv.ParseFloat` that reads "0". -/
def testUserDetailsLib : Lib :=
  { testUserDetails.lib with
    parseFloat32 := fun s => if s = "0" then some ⟨0⟩ else none }

/-- The record the code returns for the test envelope of `GetUserDetails`. -/
def testUserDetailsDecoded : UserDetailsResponse :=
  { XMLName := ⟨"", "ocs"⟩
    RequestMeta := some ⟨100, "ok", "OK", 0, 0⟩
    Enabled := true
    StorageLocation := "/var/www/html/data/john.doe"
    Id := "john.doe"
    LastLogin := ""
    Backend := "Database"
    SubadminGroups := []
    Quota := some ⟨549184147456, 16792345, 549200939801, ⟨0⟩, "-3"⟩
    Email := "john.doe@example.local"
    DisplayName := "John Doe"
    Phone := "+1555123"
    Address := ""
    Website := "example.local"
    Twitter := ""
    Groups := ["developers", "employees"]
    Language := "en"
    Locale := ""
    BackendCapabilities := ⟨true, true⟩ }

/-- One entry of a form body: the URL-encoded key, `=`, the URL-encoded value. -/
def formPair (p : String × String) : String := QueryEscape p.1 ++ "=" ++ QueryEscape p.2

/-- A form body in the words of the specification: the entries joined by `&`. -/
def formEncode (pairs : List (String × String)) : String :=
  String.intercalate "&" (pairs.map formPair)

/-- The entries of form values in the order `Encode` writes them: the keys in
sorted order, and under each key its values in the order they were added. -/
def Values.entries (v : Values) : List (String × String) :=
  (sortKeys (v.map Prod.fst)).flatMap fun k => (StringsMap.get v k).map fun value => (k, value)

/-- The entries of the `CreateUser` form in the words of the specification: the
keys in ascending order, an optional key present when its field is not empty, and
one `groups[]` or `subadmin[]` entry for each element of the list, in the order
of the list. -/
def createUserPairs (userData : UserData) : List (String × String) :=
  (if userData.DisplayName ≠ "" then [("displayName", userData.DisplayName)] else [])
    ++ (if userData.Email ≠ "" then [("email", userData.Email)] else [])
    ++ userData.GroupIds.map (fun groupId => ("groups[]", groupId))
    ++ (if userData.Language ≠ "" then [("language", userData.Language)] else [])
    ++ (if userData.Password ≠ "" then [("password", userData.Password)] else [])
    ++ (if userData.Quota ≠ "" then [("quota", userData.Quota)] else [])
    ++ userData.SubadminGroupIds.map (fun groupId => ("subadmin[]", groupId))
    ++ [("userid", userData.UserId)]

/-- The `UserData` of the case "Successful creation" of `TestClient_CreateUser`. -/
def testUserData : UserData :=
  { UserId := "john.doe"
    Password := "johnsPassword"
    DisplayName := "John Doe"
    Email := "john.doe@example.local"
    GroupIds := ["employees", "development"]
    SubadminGroupIds := ["employees", "development", "accounting"]
    Quota := QuotaUnlimited
    Language := "en" }

/-- The keys of the `CreateUser` form in the order the source sets them, each
optional key under a flag. -/
def createUserKeys (password displayName email groups subadmin quota language : Bool) :
    List String :=
  ["userid"] ++ (if password then ["password"] else [])
    ++ (if displayName then ["displayName"] else [])
    ++ (if email then ["email"] else [])
    ++ (if groups then ["groups[]"] else [])
    ++ (if subadmin then ["subadmin[]"] else [])
    ++ (if quota then ["quota"] else [])
    ++ (if language then ["language"] else [])

/-- The same keys in ascending order. -/
def createUserKeysSorted (password displayName email groups subadmin quota language : Bool) :
    List String :=
  (if displayName then ["displayName"] else [])
    ++ (if email then ["email"] else [])
    ++ (if groups then ["groups[]"] else [])
    ++ (if language then ["language"] else [])
    ++ (if password then ["password"] else [])
    ++ (if quota then ["quota"] else [])
    ++ (if subadmin then ["subadmin[]"] else [])
    ++ ["userid"]

/-- What is known of form values while they are filled: their keys in the order
they were set, and the values under every key. -/
def HasEntries (v : Values) (keys : List String) (valuesOf : String → List String) : Prop :=
  v.map Prod.fst = keys ∧ ∀ key, StringsMap.get v key = valuesOf key

/-- The value of a hexadecimal digit; 0 for any other character. -/
def hexValue (c : Char) : Nat :=
  if '0' ≤ c ∧ c ≤ '9' then c.toNat - 48
  else if 'A' ≤ c ∧ c ≤ 'F' then c.toNat - 55
  else if 'a' ≤ c ∧ c ≤ 'f' then c.toNat - 87
  else 0

/-- The bytes a receiver of a form body reads out of an encoded text: `%XX` is the
byte with the hexadecimal value `XX`, `+` is a space, any other character stands
for itself. -/
def queryUnescapeBytes : List Char → List Nat
  | [] => []
  | c :: rest =>
    if c = '%' then
      match rest with
      | high :: low :: rest2 => (hexValue high * 16 + hexValue low) :: queryUnescapeBytes rest2
      | _ => []
    else if c = '+' then 32 :: queryUnescapeBytes rest
    else utf8EncodeChar c ++ queryUnescapeBytes rest

/-- The characters of a UTF-8 byte sequence; decoding stops at a truncated
sequence. -/
def utf8Decode : List Nat → List Char
  | [] => []
  | b0 :: rest =>
    if b0 < 0x80 then Char.ofNat b0 :: utf8Decode rest
    else
      match rest with
      | [] => []
      | b1 :: rest1 =>
        if b0 < 0xe0 then Char.ofNat ((b0 - 0xc0) * 64 + (b1 - 0x80)) :: utf8Decode rest1
        else
          match rest1 with
          | [] => []
          | b2 :: rest2 =>
            if b0 < 0xf0 then
              Char.ofNat ((b0 - 0xe0) * 4096 + (b1 - 0x80) * 64 + (b2 - 0x80)) :: utf8Decode rest2
            else
              match rest2 with
              | [] => []
              | b3 :: rest3 =>
                Char.ofNat ((b0 - 0xf0) * 262144 + (b1 - 0x80) * 4096 + (b2 - 0x80) * 64
                  + (b3 - 0x80)) :: utf8Decode rest3

/-- The inverse of `QueryEscape` a receiver applies to a key or a value. -/
def QueryUnescape (s : String) : String := ⟨utf8Decode (queryUnescapeBytes s.data)⟩

/-- The pieces of a text between the occurrences of a separator. -/
def splitAll (sep : Char) : List Char → List (List Char)
  | [] => [[]]
  | c :: rest =>
    if c = sep then [] :: splitAll sep rest
    else
      match splitAll sep rest with
      | [] => [[c]]
      | part :: parts => (c :: part) :: parts

/-- The text before and the text after the first occurrence of a separator. -/
def cutAt (sep : Char) : List Char → List Char × List Char
  | [] => ([], [])
  | c :: rest => if c = sep then ([], rest) else ((c :: (cutAt sep rest).1), (cutAt sep rest).2)

/-- The entries a receiver reads out of a form body: the body is split at `&`,
empty pieces are skipped, each piece is cut at its first `=`, and key and value
are unescaped. -/
def parseQuery (query : String) : List (String × String) :=
  (splitAll '&' query.data).filterMap fun part =>
    if part = [] then none
    else some (QueryUnescape ⟨(cutAt '=' part).1⟩, QueryUnescape ⟨(cutAt '=' part).2⟩)

/-- The values a receiver reads under one key of a form body, in the order of the
body. -/
def formValues (query key : String) : List String :=
  (parseQuery query).filterMap fun p => if p.1 = key then some p.2 else none

/-- Valid data of a new user with the group ids `a` and `b`. -/
def twoGroupsUser : UserData :=
  { UserId := "john.doe", Password := "secret", DisplayName := "", Email := "",
    GroupIds := ["a", "b"], SubadminGroupIds := [], Quota := "", Language := "" }

/-- Status 200 and a group listing that echoes the group ids `a` and `b`. -/
def echoListing : Scenario :=
  ⟨200, envelopeText "100" "ok" "<groups><element>a</element><element>b</element></groups>",
    envelope "100" "ok"
      [.element "groups" [.element "element" [.charData "a"], .element "element" [.charData "b"]]]⟩

/-- Status 200 and the envelope of the case "Bad value for quota" of
`TestClient_UpdateUserDetail`: status code 103. -/
def badQuotaValue : Scenario :=
  ⟨200,
    "<?xml version=\"1.0\"?><ocs><meta><status>failure</status><statuscode>103</statuscode>"
      ++ "<message>Invalid quota value lizard</message><totalitems></totalitems>"
      ++ "<itemsperpage></itemsperpage></meta><data/></ocs>",
    ⟨⟨"", "ocs"⟩,
      [ .element "meta"
          [.element "status" [.charData "failure"], .element "statuscode" [.charData "103"],
           .element "message" [.charData "Invalid quota value lizard"],
           .element "totalitems" [], .element "itemsperpage" []],
        .element "data" [] ]⟩⟩

/-- Status 200 and a document with `element` entries at four places: directly
under `data`, under `data>users`, under `data>groups`, and next to `data` under
the root. -/
def mixedPaths : Scenario :=
  ⟨200,
    "<ocs><meta><status>ok</status><statuscode>100</statuscode></meta>"
      ++ "<data><element>direct</element>"
      ++ "<users><element>john.doe</element><element>jane.doe</element></users>"
      ++ "<groups><element>admin</element></groups></data>"
      ++ "<element>outside</element></ocs>",
    ⟨⟨"", "ocs"⟩,
      [ .element "meta"
          [.element "status" [.charData "ok"], .element "statuscode" [.charData "100"]],
        .element "data"
          [ .element "element" [.charData "direct"],
            .element "users"
              [.element "element" [.charData "john.doe"],
               .element "element" [.charData "jane.doe"]],
            .element "groups" [.element "element" [.charData "admin"]] ],
        .element "element" [.charData "outside"] ]⟩⟩

/-- Status 200 and an envelope with the status code 998 whose data section lists
the group `admin`. -/
def failedSearch : Scenario :=
  ⟨200, envelopeText "998" "failure" "<groups><element>admin</element></groups>",
    envelope "998" "failure" [.element "groups" [.element "element" [.charData "admin"]]]⟩

/-- The method of each operation in the words of the specification: GET for the
reads, POST for create and add, PUT for update, enable and disable, DELETE for
remove. -/
def Operation.method : Operation → String
  | .GetUsers | .GetUserDetails _ | .GetUserGroups _ | .GetSubadminGroups _ | .GetGroups
  | .GetGroup _ | .GetGroupMembers _ | .GetGroupSubadmins _ => "GET"
  | .CreateUser _ | .CreateGroup _ | .AddUserToGroup _ _ | .PromoteToSubadmin _ _
  | .ResendWelcomeMail _ => "POST"
  | .UpdateUserDetail _ _ _ | .EnableUser _ | .DisableUser _ => "PUT"
  | .DeleteUser _ | .DeleteGroup _ | .RemoveUserFromGroup _ _ | .DemoteFromSubadmin _ _ =>
    "DELETE"

/-- The path of each operation below the base URL, in the words of the
specification; `GetGroup` reads `/cloud/groups` with the query `search`. -/
def Operation.path : Operation → String
  | .GetUsers => "/cloud/users"
  | .CreateUser _ => "/cloud/users"
  | .GetUserDetails userId => "/cloud/users/" ++ userId
  | .UpdateUserDetail userId _ _ => "/cloud/users/" ++ userId
  | .DisableUser userId => "/cloud/users/" ++ userId ++ "/disable"
  | .EnableUser userId => "/cloud/users/" ++ userId ++ "/enable"
  | .DeleteUser userId => "/cloud/users/" ++ userId
  | .GetUserGroups userId => "/cloud/users/" ++ userId ++ "/groups"
  | .AddUserToGroup userId _ => "/cloud/users/" ++ userId ++ "/groups"
  | .RemoveUserFromGroup userId _ => "/cloud/users/" ++ userId ++ "/groups"
  | .PromoteToSubadmin userId _ => "/cloud/users/" ++ userId ++ "/subadmins"
  | .DemoteFromSubadmin userId _ => "/cloud/users/" ++ userId ++ "/subadmins"
  | .GetSubadminGroups userId => "/cloud/users/" ++ userId ++ "/subadmins"
  | .ResendWelcomeMail userId => "/cloud/users/" ++ userId ++ "/welcome"
  | .GetGroups => "/cloud/groups"
  | .GetGroup groupId => "/cloud/groups?search=" ++ groupId
  | .CreateGroup _ => "/cloud/groups"
  | .DeleteGroup groupId => "/cloud/groups/" ++ groupId
  | .GetGroupMembers groupId => "/cloud/groups/" ++ groupId
  | .GetGroupSubadmins groupId => "/cloud/groups/" ++ groupId ++ "/subadmins"

/-- The five operations that pass a nil `*url.Values` to `doSimpleRequest`. -/
def Operation.bodyless : Operation → Bool
  | .DisableUser _ | .EnableUser _ | .DeleteUser _ | .ResendWelcomeMail _ | .DeleteGroup _ => true
  | _ => false

/-- Whether the arguments of an operation pass its validation: the `UserData` of
`CreateUser` validates; the other operations validate nothing. -/
def Operation.validates : Operation → Bool
  | .CreateUser userData => userData.Validate.1
  | _ => true

/-- The `UserData` of the case "Bad credentials" of `TestClient_CreateUser`: a user
id and an e-mail address, every other field empty. -/
def mailOnlyUserData : UserData :=
  { UserId := "john.doe", Password := "", DisplayName := "", Email := "john.doe@example.local",
    GroupIds := [], SubadminGroupIds := [], Quota := "", Language := "" }

/-- A field of the meta section is absent or empty: every element called `name`
in a `meta` element of the document has empty character data. -/
def metaFieldEmpty (name : String) (root : Root) : Prop :=
  ∀ kids cs, Node.element "meta" kids ∈ root.children → Node.element name cs ∈ kids →
    charDataOf cs = ""

/-- The response type an operation decodes the body into, as `xml.Unmarshal` is
given it. -/
def Operation.target : Operation → String
  | .GetUsers => "GetUsersResponse"
  | .GetUserDetails _ => "UserDetailsResponse"
  | .GetUserGroups _ => "UserGroupsResponse"
  | .GetSubadminGroups _ => "UserSubadminGroupsResponse"
  | .GetGroups => "GetGroupsResponse"
  | .GetGroup _ => "GetGroupsResponse"
  | .GetGroupMembers _ => "GetGroupMembersResponse"
  | .GetGroupSubadmins _ => "GetGroupSubadminsResponse"
  | _ => "SimpleResponse"

/-- A library whose `http.NewRequest` rejects every request. -/
def rejectingLib : Lib :=
  { newRequestError := fun _ _ => some "net/http: invalid method"
    xmlRoot := fun _ => none
    xmlErrorText := fun _ _ => "XML syntax error"
    parseFloat32 := fun _ => none }

/-- The text of an integer field converts: it is empty, or `strconv.ParseInt`
reads the trimmed text. -/
def intConverts (text : String) : Prop := text = "" ∨ ∃ v, ParseInt (TrimSpace text) = some v

/-- The text of a boolean field converts. -/
def boolConverts (text : String) : Prop := text = "" ∨ ∃ v, ParseBool (TrimSpace text) = some v

/-- The text of a floating-point field converts. -/
def Lib.floatConverts (lib : Lib) (text : String) : Prop :=
  text = "" ∨ ∃ v, lib.parseFloat32 (TrimSpace text) = some v

/-- Every integer field present in a meta section of the document converts. -/
def metaConverts (root : Root) : Prop :=
  ∀ kids name cs, Node.element "meta" kids ∈ root.children → Node.element name cs ∈ kids →
    name = "statuscode" ∨ name = "totalitems" ∨ name = "itemsperpage" →
    intConverts (charDataOf cs)

/-- Every boolean, integer and floating-point field of the user details present in
a data section of the document converts. -/
def Lib.dataConverts (lib : Lib) (root : Root) : Prop :=
  ∀ kids, Node.element "data" kids ∈ root.children →
    (∀ cs, Node.element "enabled" cs ∈ kids → boolConverts (charDataOf cs)) ∧
      (∀ quota name cs, Node.element "quota" quota ∈ kids → Node.element name cs ∈ quota →
        (name = "free" ∨ name = "used" ∨ name = "total" → intConverts (charDataOf cs)) ∧
          (name = "relative" → lib.floatConverts (charDataOf cs))) ∧
      (∀ caps name cs, Node.element "backendCapabilities" caps ∈ kids →
        Node.element name cs ∈ caps → name = "setDisplayName" ∨ name = "setPassword" →
        boolConverts (charDataOf cs))

/-- Status 200 and an envelope with an empty `message`, an empty `totalitems`, no
`itemsperpage` and an empty data section:
`<ocs><meta><status>ok</status><statuscode>100</statuscode><message></message>`
`<totalitems></totalitems></meta><data></data></ocs>`. -/
def sparseEnvelope : Scenario :=
  ⟨200,
    "<ocs><meta><status>ok</status><statuscode>100</statuscode><message></message>"
      ++ "<totalitems></totalitems></meta><data></data></ocs>",
    ⟨⟨"", "ocs"⟩,
      [ .element "meta"
          [.element "status" [.charData "ok"], .element "statuscode" [.charData "100"],
           .element "message" [], .element "totalitems" []],
        .element "data" [] ]⟩⟩

/-! ## Validation (users.go) -/

/-- C1: a `UserData` with a non-empty `UserId` and a non-empty `Password` or `Email`
validates: the result is `true` and the problem list is nil. -/
theorem validate_accepts (userData : UserData) (hid : userData.UserId ≠ "")
    (hcred : userData.Password ≠ "" ∨ userData.Email ≠ "") :
    userData.Validate = (true, []) := by
  unfold UserData.Validate
  rcases hcred with h | h <;> simp [hid, h]

theorem validate_accepts_witness :
    ("john.doe" ≠ "" ∧ ("" ≠ "" ∨ "john.doe@example.local" ≠ "")) ∧
      UserData.Validate ⟨"john.doe", "", "", "john.doe@example.local", [], [], "", ""⟩
        = (true, []) :=
  ⟨by decide, validate_accepts ⟨"john.doe", "", "", "john.doe@example.local", [], [], "", ""⟩
    (by decide) (by decide)⟩

/-- C2: with an empty `UserId`, `Validate` returns `false` and lists
"UserId must not be empty"; when `Password` or `Email` is set this is the only
problem. -/
theorem validate_missing_userId (userData : UserData) (hid : userData.UserId = "") :
    userData.Validate.1 = false ∧
      "UserId must not be empty" ∈ userData.Validate.2 ∧
      (userData.Password ≠ "" ∨ userData.Email ≠ "" →
        userData.Validate.2 = ["UserId must not be empty"]) := by
  unfold UserData.Validate
  refine ⟨?_, ?_, ?_⟩
  · by_cases h : userData.Email = "" ∧ userData.Password = "" <;> simp [hid, h]
  · by_cases h : userData.Email = "" ∧ userData.Password = "" <;> simp [hid, h]
  · intro hcred
    rcases hcred with h | h <;> simp [hid, h]

theorem validate_missing_userId_witness :
    UserData.Validate ⟨"", "secret", "", "test@example.local", [], [], "", ""⟩
      = (false, ["UserId must not be empty"]) := by
  have h := validate_missing_userId ⟨"", "secret", "", "test@example.local", [], [], "", ""⟩ rfl
  exact Prod.ext h.1 (h.2.2 (Or.inl (by decide)))

/-- C3: with a non-empty `UserId` and both `Password` and `Email` empty, `Validate`
returns `false` with the single problem "Either Password or Email must be set"; and
for every `UserData` that problem is listed exactly when both are empty. -/
theorem validate_missing_credentials (userData : UserData) :
    (userData.UserId ≠ "" ∧ userData.Password = "" ∧ userData.Email = "" →
        userData.Validate = (false, ["Either Password or Email must be set"])) ∧
      ("Either Password or Email must be set" ∈ userData.Validate.2 ↔
        userData.Password = "" ∧ userData.Email = "") := by
  unfold UserData.Validate
  constructor
  · rintro ⟨hid, hp, he⟩
    simp [hid, hp, he]
  · by_cases hid : userData.UserId = "" <;>
      by_cases h : userData.Email = "" ∧ userData.Password = "" <;>
      simp [hid, h] <;> tauto

theorem validate_missing_credentials_witness :
    UserData.Validate ⟨"john.doe", "", "", "", [], [], "", ""⟩
      = (false, ["Either Password or Email must be set"]) :=
  (validate_missing_credentials ⟨"john.doe", "", "", "", [], [], "", ""⟩).1
    ⟨by decide, rfl, rfl⟩

/-- C4: problems accumulate: with `UserId`, `Password` and `Email` all empty,
`Validate` returns `false` and both problems, the one about `UserId` first. -/
theorem validate_accumulates (userData : UserData) (hid : userData.UserId = "")
    (hp : userData.Password = "") (he : userData.Email = "") :
    userData.Validate =
      (false, ["UserId must not be empty", "Either Password or Email must be set"]) := by
  unfold UserData.Validate
  simp [hid, hp, he]

theorem validate_accumulates_witness :
    UserData.Validate ⟨"", "", "John Doe", "", ["employees"], [], "none", "en"⟩ =
      (false, ["UserId must not be empty", "Either Password or Email must be set"]) :=
  validate_accumulates ⟨"", "", "John Doe", "", ["employees"], [], "none", "en"⟩ rfl rfl rfl

/-! ## The transport layer (client.go) -/

theorem doRequest_sent (c : Client) (h : HTTPClient) (req : Request)
    (hc : c.HTTPClient = some h) : (c.doRequest req).sent = [c.outgoing req] := by
  unfold Client.doRequest Client.outgoing
  simp only [hc]
  split
  · rfl
  · rfl
  · split <;> rfl

theorem doRequest_response (c : Client) (h : HTTPClient) (req : Request) (n : Int)
    (body : String) (hc : c.HTTPClient = some h)
    (hdo : h.Do (c.outgoing req) = .response n (.ok body)) :
    c.doRequest req =
      if n ≠ 200 then
        ⟨[c.outgoing req], .returned none
          (some (.fmtErrorf ("status: " ++ fmtInt n ++ ", body: " ++ body)))⟩
      else ⟨[c.outgoing req], .returned (some body) none⟩ := by
  unfold Client.outgoing at hdo
  unfold Client.doRequest Client.outgoing
  simp only [hc, hdo]

theorem doRequest_outcome (c : Client) (h : HTTPClient) (req : Request)
    (hc : c.HTTPClient = some h) :
    (c.doRequest req).outcome =
      match h.Do (c.outgoing req) with
      | .error msg => .returned none (some (.library .clientDo msg))
      | .response _ (.error msg) => .returned none (some (.library .readAll msg))
      | .response n (.ok body) =>
        if n ≠ 200 then
          .returned none (some (.fmtErrorf ("status: " ++ fmtInt n ++ ", body: " ++ body)))
        else .returned (some body) none := by
  unfold Client.doRequest Client.outgoing
  simp only [hc]
  split
  · rfl
  · rfl
  · split <;> rfl

/-- The shared steps end as `interpret` says, for the answer the transport gave to
the one request that was sent. -/
theorem pipeline_outcome {ρ α : Type} (c : Client) (lib : Lib) (method url : String)
    (body : Option String) (addHeaders : Request → Request) (decode : String → Except Err ρ)
    (metaOf : ρ → Option MetaFragment) (zero : α) (failure : MetaFragment → Err)
    (finish : ρ → α × Option Err) (h : HTTPClient) (req : Request)
    (hc : c.HTTPClient = some h)
    (hsent : (pipeline c lib method url body addHeaders decode metaOf zero failure finish).sent
      = [req]) :
    (pipeline c lib method url body addHeaders decode metaOf zero failure finish).outcome
      = interpret decode metaOf zero failure finish (h.Do req) := by
  unfold pipeline at hsent ⊢
  cases hnr : lib.NewRequest method url body with
  | error e => simp [hnr] at hsent
  | ok r =>
    simp only [hnr] at hsent ⊢
    have hs := doRequest_sent c h (addHeaders r) hc
    have ho := doRequest_outcome c h (addHeaders r) hc
    rcases hcall : c.doRequest (addHeaders r) with ⟨snt, out⟩
    rw [hcall] at hs ho hsent
    simp only at hs ho hsent ⊢
    subst hs
    have hreq : req = c.outgoing (addHeaders r) := by
      revert hsent
      cases out with
      | panicked p => simp; intro h; exact h.symm
      | returned v e =>
        cases e with
        | some e => simp; intro h; exact h.symm
        | none =>
          simp only
          cases decode (v.getD "") with
          | error e => simp; intro h; exact h.symm
          | ok resp =>
            simp only
            cases metaOf resp with
            | none => simp; intro h; exact h.symm
            | some m =>
              simp only
              split <;> (simp; intro h; exact h.symm)
    subst hreq
    subst ho
    cases hd : h.Do (c.outgoing (addHeaders r)) with
    | error msg => simp [interpret]
    | response n b =>
      cases b with
      | error msg => simp [interpret]
      | ok b =>
        simp only [interpret]
        by_cases hn : n = 200
        · simp only [hn, ne_eq, not_true_eq_false, if_false, Option.getD_some]
          cases decode b with
          | error e => rfl
          | ok resp =>
            simp only
            cases metaOf resp with
            | none => rfl
            | some m =>
              simp only
              split <;> rfl
        · simp [hn]

theorem listOp_pipeline (c : Client) (lib : Lib) (op : ListOp) :
    op.call c lib = pipeline c lib "GET" (op.url c) none id (op.decode lib) Prod.fst []
      (fun m => apiFailure m.StatusCode) (fun r => (r.2, none)) := by
  cases op <;>
    simp only [ListOp.call, ListOp.url, ListOp.decode, Client.GetUsers, Client.GetGroups,
      Client.GetUserGroups, Client.GetSubadminGroups, Client.GetGroupMembers,
      Client.GetGroupSubadmins, pipeline, id] <;>
    (split
     · rfl
     · split
       · rfl
       · rfl
       · simp only [Lib.UnmarshalGetUsersResponse, Lib.UnmarshalGetGroupsResponse,
           Lib.UnmarshalUserGroupsResponse, Lib.UnmarshalUserSubadminGroupsResponse,
           Lib.UnmarshalGetGroupMembersResponse, Lib.UnmarshalGetGroupSubadminsResponse]
         generalize lib.unmarshalList _ _ _ = u
         cases u <;> rfl)

theorem doSimpleRequest_pipeline (c : Client) (lib : Lib) (method endpoint : String)
    (values : Values) :
    doSimpleRequest lib c method endpoint (some values) =
      pipeline c lib method endpoint (some (Values.Encode values))
        (fun req => c.addHeadersForBody req (byteLen (Values.Encode values)))
        lib.UnmarshalSimpleResponse (fun r => r.RequestMeta) false simpleFailure
        (fun _ => (true, none)) := by
  simp only [doSimpleRequest, pipeline, simpleFailure]
  split
  · rfl
  · split
    · rfl
    · rfl
    · generalize lib.UnmarshalSimpleResponse _ = u
      cases u <;> rfl

theorem updateUserDetail_pipeline (c : Client) (lib : Lib) (userId attr value : String) :
    c.UpdateUserDetail lib userId attr value =
      pipeline c lib "PUT" (c.HostURL ++ "/cloud/users/" ++ userId)
        (some (Values.Encode (Values.Set (Values.Set [] "key" attr) "value" value)))
        (fun req => c.addHeadersForBody req
          (byteLen (Values.Encode (Values.Set (Values.Set [] "key" attr) "value" value))))
        lib.UnmarshalSimpleResponse (fun r => r.RequestMeta) false
        (fun m => apiFailure m.StatusCode) (fun _ => (true, none)) := by
  simp only [Client.UpdateUserDetail, pipeline]
  split
  · rfl
  · split
    · rfl
    · rfl
    · generalize lib.UnmarshalSimpleResponse _ = u
      cases u <;> rfl

theorem getGroup_pipeline (c : Client) (lib : Lib) (groupId : String) :
    c.GetGroup lib groupId =
      pipeline c lib "GET" (c.HostURL ++ "/cloud/groups?search=" ++ groupId) none id
        lib.UnmarshalGetGroupsResponse (fun r => r.RequestMeta) ""
        (fun m => apiFailure m.StatusCode) (findGroup groupId) := by
  simp only [Client.GetGroup, pipeline, findGroup, id]
  split
  · rfl
  · split
    · rfl
    · rfl
    · generalize lib.UnmarshalGetGroupsResponse _ = u
      cases u with
      | error e => rfl
      | ok response =>
        simp only
        split
        · rfl
        · split
          · rfl
          · split <;> rfl

theorem getUserDetails_pipeline (c : Client) (lib : Lib) (userId : String) :
    c.GetUserDetails lib userId =
      pipeline c lib "GET" (c.HostURL ++ "/cloud/users/" ++ userId) none id
        lib.UnmarshalUserDetailsResponse (fun r => r.RequestMeta) none
        (fun m => apiFailure m.StatusCode) (fun r => (some r, none)) := by
  simp only [Client.GetUserDetails, pipeline, id]
  split
  · rfl
  · split
    · rfl
    · rfl
    · generalize lib.UnmarshalUserDetailsResponse _ = u
      cases u <;> rfl

/-- The three ways the shared steps can go: the request is rejected before it is
sent, the client has no `http.Client`, or one request is sent and the answer is
interpreted. -/
theorem pipeline_cases {ρ α : Type} (c : Client) (lib : Lib) (method url : String)
    (body : Option String) (addHeaders : Request → Request) (decode : String → Except Err ρ)
    (metaOf : ρ → Option MetaFragment) (zero : α) (failure : MetaFragment → Err)
    (finish : ρ → α × Option Err) :
    (∃ e, pipeline c lib method url body addHeaders decode metaOf zero failure finish
        = ⟨[], .returned zero (some e)⟩) ∨
      (c.HTTPClient = none ∧
        pipeline c lib method url body addHeaders decode metaOf zero failure finish
          = ⟨[], .panicked .nilDereference⟩) ∨
      (∃ h req, c.HTTPClient = some h ∧
        (pipeline c lib method url body addHeaders decode metaOf zero failure finish).sent
          = [req] ∧
        (pipeline c lib method url body addHeaders decode metaOf zero failure finish).outcome
          = interpret decode metaOf zero failure finish (h.Do req)) := by
  cases hnr : lib.NewRequest method url body with
  | error e =>
    left
    exact ⟨e, by simp only [pipeline, hnr]⟩
  | ok r =>
    right
    cases hc : c.HTTPClient with
    | none =>
      left
      refine ⟨rfl, ?_⟩
      simp only [pipeline, hnr, Client.doRequest, hc]
    | some h =>
      right
      have hs : (pipeline c lib method url body addHeaders decode metaOf zero failure finish).sent
          = [c.outgoing (addHeaders r)] := by
        have hs := doRequest_sent c h (addHeaders r) hc
        simp only [pipeline, hnr]
        split
        · exact hs
        · exact hs
        · split
          · exact hs
          · split
            · exact hs
            · split <;> exact hs
      exact ⟨h, _, rfl, hs, pipeline_outcome c lib _ _ _ _ _ _ _ _ _ h _ hc hs⟩

theorem interpret_bool {ρ : Type} (decode : String → Except Err ρ)
    (metaOf : ρ → Option MetaFragment) (failure : MetaFragment → Err) (r : DoResult)
    (b : Bool) (e : Option Err)
    (hr : interpret decode metaOf false failure (fun _ => (true, none)) r = .returned b e) :
    (b = true ↔ e = none) := by
  unfold interpret at hr
  split at hr
  · cases hr; simp
  · cases hr; simp
  · split at hr
    · cases hr; simp
    · split at hr
      · cases hr; simp
      · split at hr
        · cases hr
        · split at hr
          · cases hr; simp
          · cases hr; simp

theorem interpret_success_iff {ρ : Type} (decode : String → Except Err ρ)
    (metaOf : ρ → Option MetaFragment) (failure : MetaFragment → Err) (r : DoResult) :
    interpret decode metaOf false failure (fun _ => (true, none)) r = .returned true none ↔
      ∃ body response m, r = .response 200 (.ok body) ∧ decode body = .ok response ∧
        metaOf response = some m ∧ m.StatusCode = 100 := by
  constructor
  · intro hr
    unfold interpret at hr
    split at hr
    · cases hr
    · cases hr
    · rename_i n body
      split at hr
      · cases hr
      · rename_i hn
        split at hr
        · cases hr
        · rename_i response hdec
          split at hr
          · cases hr
          · rename_i m hm
            split at hr
            · cases hr
            · rename_i hs
              simp only [ne_eq, not_not] at hn hs
              exact ⟨body, response, m, by rw [hn], hdec, hm, hs⟩
  · rintro ⟨body, response, m, rfl, hdec, hm, hs⟩
    simp [interpret, hdec, hm, hs, StatusSuccess]

theorem interpret_returns_or_no_meta {ρ α : Type} (decode : String → Except Err ρ)
    (metaOf : ρ → Option MetaFragment) (zero : α) (failure : MetaFragment → Err)
    (finish : ρ → α × Option Err) (r : DoResult) :
    (∃ v e, interpret decode metaOf zero failure finish r = .returned v e) ∨
      ∃ body response, r = .response 200 (.ok body) ∧ decode body = .ok response ∧
        metaOf response = none := by
  unfold interpret
  split
  · exact .inl ⟨_, _, rfl⟩
  · exact .inl ⟨_, _, rfl⟩
  · rename_i n body
    split
    · exact .inl ⟨_, _, rfl⟩
    · rename_i hn
      split
      · exact .inl ⟨_, _, rfl⟩
      · rename_i response hdec
        split
        · rename_i hm
          simp only [ne_eq, not_not] at hn
          exact .inr ⟨body, response, by rw [hn], hdec, hm⟩
        · split
          · exact .inl ⟨_, _, rfl⟩
          · exact .inl ⟨_, _, rfl⟩

/-- A form operation either stops at the validation of `CreateUser`, or runs the
shared steps with `SimpleResponse` and the result `true`. -/
theorem formOp_pipeline (c : Client) (lib : Lib) (op : FormOp) :
    (∃ e, op.call c lib = ⟨[], .returned false (some e)⟩) ∨
      ∃ method url body addHeaders,
        op.call c lib = pipeline c lib method url body addHeaders lib.UnmarshalSimpleResponse
          (fun r => r.RequestMeta) false op.failure (fun _ => (true, none)) := by
  cases op with
  | CreateUser userData =>
    simp only [FormOp.call, FormOp.failure, Client.CreateUser]
    rcases userData.Validate with ⟨result, problems⟩
    cases result with
    | false => exact .inl ⟨_, rfl⟩
    | true => exact .inr ⟨_, _, _, _, doSimpleRequest_pipeline c lib _ _ _⟩
  | UpdateUserDetail userId attr value =>
    exact .inr ⟨_, _, _, _, updateUserDetail_pipeline c lib userId attr value⟩
  | CreateGroup groupId => exact .inr ⟨_, _, _, _, doSimpleRequest_pipeline c lib _ _ _⟩
  | AddUserToGroup userId groupId =>
    exact .inr ⟨_, _, _, _, doSimpleRequest_pipeline c lib _ _ _⟩
  | RemoveUserFromGroup userId groupId =>
    exact .inr ⟨_, _, _, _, doSimpleRequest_pipeline c lib _ _ _⟩
  | PromoteToSubadmin userId groupId =>
    exact .inr ⟨_, _, _, _, doSimpleRequest_pipeline c lib _ _ _⟩
  | DemoteFromSubadmin userId groupId =>
    exact .inr ⟨_, _, _, _, doSimpleRequest_pipeline c lib _ _ _⟩

/-! ## Validation before the request (users.go, `CreateUser`) -/

theorem createUser_invalid (c : Client) (lib : Lib) (userData : UserData)
    (hv : userData.Validate.1 = false) :
    c.CreateUser lib userData =
      ⟨[], .returned false (some (.errorsNew (stringsJoin userData.Validate.2 "\n")))⟩ := by
  unfold Client.CreateUser
  rcases hval : userData.Validate with ⟨result, problems⟩
  rw [hval] at hv
  simp only at hv
  subst hv
  rfl

/-- C5: when `Validate` fails, `CreateUser` returns `false` and an error whose text
is the problems joined by a newline, hands no request to the transport, and gives
the same call for every client and library. -/
theorem createUser_validation_short_circuit (c : Client) (lib : Lib) (userData : UserData)
    (hv : userData.Validate.1 = false) :
    (c.CreateUser lib userData).sent = [] ∧
      (c.CreateUser lib userData).outcome =
        .returned false (some (.errorsNew (stringsJoin userData.Validate.2 "\n"))) ∧
      (Err.errorsNew (stringsJoin userData.Validate.2 "\n")).Error =
        String.intercalate "\n" userData.Validate.2 ∧
      ∀ (c2 : Client) (lib2 : Lib), c2.CreateUser lib2 userData = c.CreateUser lib userData := by
  have hcall : ∀ (c2 : Client) (lib2 : Lib), c2.CreateUser lib2 userData =
      ⟨[], .returned false (some (.errorsNew (stringsJoin userData.Validate.2 "\n")))⟩ :=
    fun c2 lib2 => createUser_invalid c2 lib2 userData hv
  refine ⟨?_, ?_, rfl, ?_⟩
  · rw [hcall]
  · rw [hcall]
  · intro c2 lib2
    rw [hcall, hcall]

theorem createUser_validation_short_circuit_witness :
    (Client.CreateUser simpleOk.client simpleOk.lib ⟨"", "", "", "", [], [], "", ""⟩).outcome =
      .returned false (some (.errorsNew
        "UserId must not be empty\nEither Password or Email must be set")) :=
  (createUser_validation_short_circuit simpleOk.client simpleOk.lib
    ⟨"", "", "", "", [], [], "", ""⟩ rfl).2.1

/-! ## Interpreting the envelope -/

theorem listOp_outcome (op : ListOp) (c : Client) (lib : Lib) (h : HTTPClient)
    (req : Request) (body : String) (m : MetaFragment) (L : List String)
    (hc : c.HTTPClient = some h) (hsent : (op.call c lib).sent = [req])
    (hdo : h.Do req = .response 200 (.ok body))
    (hdec : op.decode lib body = .ok (some m, L)) :
    (op.call c lib).outcome =
      if m.StatusCode = 100 then .returned L none
      else .returned [] (some (apiFailure m.StatusCode)) := by
  rw [listOp_pipeline] at hsent ⊢
  rw [pipeline_outcome c lib _ _ _ _ _ _ _ _ _ h req hc hsent, hdo]
  simp only [interpret, hdec, ne_eq, not_true_eq_false, if_false, StatusSuccess]
  by_cases hs : m.StatusCode = 100 <;> simp [hs]

/-- C6: a list operation whose request is answered with HTTP 200 and a body that
decodes to an envelope with status code `s` and list `L` returns `L` and no error
when `s` is 100, and otherwise the nil list and an error naming `s` in decimal. -/
theorem list_operations_interpret (op : ListOp) (c : Client) (lib : Lib) (h : HTTPClient)
    (req : Request) (body : String) (m : MetaFragment) (L : List String)
    (hc : c.HTTPClient = some h) (hsent : (op.call c lib).sent = [req])
    (hdo : h.Do req = .response 200 (.ok body))
    (hdec : op.decode lib body = .ok (some m, L)) :
    (m.StatusCode = 100 → (op.call c lib).outcome = .returned L none) ∧
      (m.StatusCode ≠ 100 →
        (op.call c lib).outcome = .returned []
          (some (.errorsNew
            ("Api returned a status code " ++ fmtInt m.StatusCode ++ " indicating failure")))) := by
  rw [listOp_outcome op c lib h req body m L hc hsent hdo hdec]
  constructor
  · intro hs
    simp [hs]
  · intro hs
    simp [hs, apiFailure]

theorem list_operations_interpret_witness :
    (ListOp.call unknownUser.client unknownUser.lib (.GetUserGroups "jack.nobody")).outcome =
        .returned [] (some (.errorsNew "Api returned a status code 998 indicating failure")) ∧
      (ListOp.call usersListing.client usersListing.lib .GetUsers).outcome =
        .returned ["john.doe", "jane.doe"] none :=
  ⟨(list_operations_interpret (.GetUserGroups "jack.nobody") unknownUser.client unknownUser.lib
      _ _ unknownUser.body ⟨998, "failure", "", 0, 0⟩ [] rfl rfl rfl rfl).2 (by decide),
   (list_operations_interpret .GetUsers usersListing.client usersListing.lib
      _ _ usersListing.body ⟨100, "ok", "", 0, 0⟩ ["john.doe", "jane.doe"]
      rfl rfl rfl rfl).1 rfl⟩

/-- C7: for the six form operations behind `doSimpleRequest` and for
`UpdateUserDetail`: a returned boolean is `true` exactly when the returned error is
nil, so `(false, nil)` and `(true, error)` never occur; when the request was
answered, the result is `(true, nil)` exactly when the answer has status 200, its
body decodes and the status code of the envelope is 100, and the operation
returns unless that body decodes to an envelope without a meta record; and
`(true, nil)` is only returned after a request was sent. -/
theorem form_operations_boolean (op : FormOp) (c : Client) (lib : Lib) :
    (∀ b e, (op.call c lib).outcome = .returned b e → (b = true ↔ e = none)) ∧
      (∀ h req, c.HTTPClient = some h → (op.call c lib).sent = [req] →
        ((op.call c lib).outcome = .returned true none ↔
            ∃ body response m, h.Do req = .response 200 (.ok body) ∧
              lib.UnmarshalSimpleResponse body = .ok response ∧
              response.RequestMeta = some m ∧ m.StatusCode = 100) ∧
          ((∃ b e, (op.call c lib).outcome = .returned b e) ∨
            ∃ body response, h.Do req = .response 200 (.ok body) ∧
              lib.UnmarshalSimpleResponse body = .ok response ∧
              response.RequestMeta = none)) ∧
      ((op.call c lib).outcome = .returned true none →
        ∃ h req, c.HTTPClient = some h ∧ (op.call c lib).sent = [req]) := by
  rcases formOp_pipeline c lib op with ⟨e0, hcall⟩ | ⟨method, url, body, addHeaders, hcall⟩
  · rw [hcall]
    refine ⟨?_, ?_, ?_⟩
    · intro b e hr
      cases hr
      simp
    · intro h req _ hsent
      simp at hsent
    · intro hr
      cases hr
  · rw [hcall]
    rcases pipeline_cases c lib method url body addHeaders lib.UnmarshalSimpleResponse
        (fun r => r.RequestMeta) false op.failure (fun _ => (true, none)) with
      ⟨e, hp⟩ | ⟨_, hp⟩ | ⟨h, req, hc, hsent, hout⟩
    · rw [hp]
      refine ⟨?_, ?_, ?_⟩
      · intro b e hr
        cases hr
        simp
      · intro h req _ hsent
        simp at hsent
      · intro hr
        cases hr
    · rw [hp]
      refine ⟨?_, ?_, ?_⟩
      · intro b e hr
        cases hr
      · intro h req _ hsent
        simp at hsent
      · intro hr
        cases hr
    · refine ⟨?_, ?_, ?_⟩
      · intro b e hr
        rw [hout] at hr
        exact interpret_bool _ _ _ _ b e hr
      · intro h2 req2 hc2 hsent2
        have hh : h2 = h := by
          rw [hc] at hc2
          exact (Option.some.inj hc2).symm
        have hreq : req2 = req := by
          rw [hsent] at hsent2
          exact (List.head_eq_of_cons_eq hsent2).symm
        subst hh hreq
        rw [hout]
        exact ⟨interpret_success_iff _ _ _ _, interpret_returns_or_no_meta _ _ _ _ _ _⟩
      · intro _
        exact ⟨h, req, hc, hsent⟩

theorem form_operations_boolean_witness :
    (FormOp.call simpleOk.client simpleOk.lib (.CreateGroup "testGroup01")).outcome =
        .returned true none ∧
      (FormOp.call unknownMember.client unknownMember.lib
        (.AddUserToGroup "jack.nobody" "employees")).outcome ≠ .returned true none :=
  ⟨(((form_operations_boolean (.CreateGroup "testGroup01") simpleOk.client simpleOk.lib).2.1
      _ _ rfl rfl).1).2
      ⟨simpleOk.body, ⟨⟨"", "ocs"⟩, some ⟨100, "ok", "", 0, 0⟩⟩, ⟨100, "ok", "", 0, 0⟩,
        rfl, rfl, rfl, rfl⟩,
   fun hr => by
    have hb := (form_operations_boolean (.AddUserToGroup "jack.nobody" "employees")
      unknownMember.client unknownMember.lib).2.1 _ _ rfl rfl
    obtain ⟨body, response, m, hdo, hdec, hm, hs⟩ := hb.1.1 hr
    simp only [DoResult.response.injEq, Except.ok.injEq] at hdo
    rw [← hdo.2] at hdec
    cases hdec
    cases hm
    exact absurd hs (by decide)⟩

/-! ## Statuses other than 200 -/

theorem wrap_pipeline_non200 {ρ α : Type} (f : α → Value) (c : Client) (lib : Lib)
    (method url : String) (body : Option String) (addHeaders : Request → Request)
    (decode : String → Except Err ρ) (metaOf : ρ → Option MetaFragment) (zero : α)
    (failure : MetaFragment → Err) (finish : ρ → α × Option Err) (h : HTTPClient)
    (req : Request) (n : Int) (b : String) (hc : c.HTTPClient = some h)
    (hsent : ((pipeline c lib method url body addHeaders decode metaOf zero failure
      finish).wrap f).sent = [req])
    (hdo : h.Do req = .response n (.ok b)) (hn : n ≠ 200) :
    ((pipeline c lib method url body addHeaders decode metaOf zero failure finish).wrap
      f).outcome =
      .returned (f zero) (some (.fmtErrorf ("status: " ++ fmtInt n ++ ", body: " ++ b))) := by
  simp only [Call.wrap] at hsent ⊢
  rw [pipeline_outcome c lib _ _ _ _ _ _ _ _ _ h req hc hsent, hdo]
  simp only [interpret, hn, ne_eq, not_false_eq_true, if_true]

/-! ## Finding a group by its id (groups.go, `GetGroup`) -/

/-- C9: when the request of `GetGroup` is answered with HTTP 200 and an envelope
with status code 100, the call returns `(groupId, nil)` exactly when some element
of the decoded group names equals `groupId`; when none does, it returns the empty
string and the error "No group with the id <groupId> was found". -/
theorem getGroup_exact_match (c : Client) (lib : Lib) (groupId : String) (h : HTTPClient)
    (req : Request) (body : String) (response : GetGroupsResponse) (m : MetaFragment)
    (hc : c.HTTPClient = some h) (hsent : (c.GetGroup lib groupId).sent = [req])
    (hdo : h.Do req = .response 200 (.ok body))
    (hdec : lib.UnmarshalGetGroupsResponse body = .ok response)
    (hm : response.RequestMeta = some m) (hs : m.StatusCode = 100) :
    ((c.GetGroup lib groupId).outcome = .returned groupId none ↔
        groupId ∈ response.GroupNames) ∧
      (groupId ∉ response.GroupNames →
        (c.GetGroup lib groupId).outcome = .returned ""
          (some (.errorsNew ("No group with the id " ++ groupId ++ " was found")))) := by
  rw [getGroup_pipeline] at hsent ⊢
  rw [pipeline_outcome c lib _ _ _ _ _ _ _ _ _ h req hc hsent, hdo]
  simp only [interpret, hdec, hm, hs, StatusSuccess, ne_eq, not_true_eq_false, if_false,
    findGroup]
  cases hfind : response.GroupNames.find? (fun name => name == groupId) with
  | some x =>
    have hx : x ∈ response.GroupNames := List.mem_of_find?_eq_some hfind
    have hxe : x = groupId := by
      have := List.find?_some hfind
      simpa using this
    subst hxe
    simp [hx]
  | none =>
    have hnot : groupId ∉ response.GroupNames := by
      intro hmem
      have := List.find?_eq_none.mp hfind groupId hmem
      simp at this
    simp [hnot]

theorem getGroup_exact_match_witness :
    (Client.GetGroup adminListing.client adminListing.lib "admin").outcome =
        .returned "admin" none ∧
      (Client.GetGroup emptyListing.client emptyListing.lib "unknownGroup").outcome =
        .returned "" (some (.errorsNew "No group with the id unknownGroup was found")) ∧
      (Client.GetGroup adminListing.client adminListing.lib "Admin").outcome =
        .returned "" (some (.errorsNew "No group with the id Admin was found")) ∧
      (Client.GetGroup adminListing.client adminListing.lib "adm").outcome =
        .returned "" (some (.errorsNew "No group with the id adm was found")) :=
  ⟨(getGroup_exact_match adminListing.client adminListing.lib "admin" _ _ adminListing.body
      ⟨⟨"", "ocs"⟩, some ⟨100, "ok", "", 0, 0⟩, ["admin"]⟩ ⟨100, "ok", "", 0, 0⟩
      rfl rfl rfl rfl rfl rfl).1.2 (by decide),
   (getGroup_exact_match emptyListing.client emptyListing.lib "unknownGroup" _ _
      emptyListing.body ⟨⟨"", "ocs"⟩, some ⟨100, "ok", "", 0, 0⟩, []⟩ ⟨100, "ok", "", 0, 0⟩
      rfl rfl rfl rfl rfl rfl).2 (by decide),
   (getGroup_exact_match adminListing.client adminListing.lib "Admin" _ _ adminListing.body
      ⟨⟨"", "ocs"⟩, some ⟨100, "ok", "", 0, 0⟩, ["admin"]⟩ ⟨100, "ok", "", 0, 0⟩
      rfl rfl rfl rfl rfl rfl).2 (by decide),
   (getGroup_exact_match adminListing.client adminListing.lib "adm" _ _ adminListing.body
      ⟨⟨"", "ocs"⟩, some ⟨100, "ok", "", 0, 0⟩, ["admin"]⟩ ⟨100, "ok", "", 0, 0⟩
      rfl rfl rfl rfl rfl rfl).2 (by decide)⟩

/-! ## The list of `GetGroups` and the tag path `data>groups>element` -/

theorem textsAtPath_cons (path : List String) (n : Node) (ns : List Node) :
    textsAtPath path (n :: ns) = textsAtPath path [n] ++ textsAtPath path ns := by
  match path with
  | [] => simp [textsAtPath]
  | [name] =>
    simp only [textsAtPath, childrenNamed, List.filterMap_cons, List.filterMap_nil]
    split <;> simp
  | parent :: next :: rest =>
    simp only [textsAtPath, childrenNamed, List.filterMap_cons, List.filterMap_nil]
    split <;> simp

theorem foldl_unmarshalPathStrings (path : List String)
    (ih : ∀ (slice : List String) (n : Node),
      unmarshalPathStrings path slice n = slice ++ textsAtPath path [n]) :
    ∀ (nodes : List Node) (slice : List String),
      nodes.foldl (unmarshalPathStrings path) slice = slice ++ textsAtPath path nodes := by
  intro nodes
  induction nodes with
  | nil =>
    intro slice
    cases path with
    | nil => simp [textsAtPath]
    | cons p ps => cases ps <;> simp [textsAtPath, childrenNamed]
  | cons n ns ihn =>
    intro slice
    rw [List.foldl_cons, ih, ihn, textsAtPath_cons path n ns, List.append_assoc]

theorem unmarshalPathStrings_eq : ∀ (path : List String) (slice : List String) (n : Node),
    unmarshalPathStrings path slice n = slice ++ textsAtPath path [n]
  | [], slice, n => by simp [unmarshalPathStrings, textsAtPath]
  | [name], slice, .charData _ => by simp [unmarshalPathStrings, textsAtPath, childrenNamed]
  | [name], slice, .element nm children => by
    by_cases hn : nm = name <;> simp [unmarshalPathStrings, textsAtPath, childrenNamed, hn]
  | parent :: next :: rest, slice, .charData _ => by
    simp [unmarshalPathStrings, textsAtPath, childrenNamed]
  | parent :: next :: rest, slice, .element nm children => by
    have ih := foldl_unmarshalPathStrings (next :: rest)
      (unmarshalPathStrings_eq (next :: rest)) children slice
    by_cases hn : nm = parent
    · simp [unmarshalPathStrings, textsAtPath, childrenNamed, hn, ih]
    · simp [unmarshalPathStrings, textsAtPath, childrenNamed, hn]

theorem textsAtPath_skips (path : List String) (name : String) (children : List Node)
    (hpath : path.head? ≠ some name) : textsAtPath path [.element name children] = [] := by
  match path with
  | [] => simp [textsAtPath]
  | [p] =>
    have hp : ¬ name = p := fun h => hpath (by simp [h])
    simp [textsAtPath, childrenNamed, hp]
  | p :: next :: rest =>
    have hp : ¬ name = p := fun h => hpath (by simp [h])
    simp [textsAtPath, childrenNamed, hp]

/-- The list field of a decoded list response holds the texts at its tag path, in
document order. -/
theorem listFields_items (path : List String) (hpath : path.head? ≠ some "meta") :
    ∀ (nodes : List Node) (init r : ListFields),
      nodes.foldlM (ListFields.unmarshalChild path) init = some r →
      r.items = init.items ++ textsAtPath path nodes := by
  intro nodes
  induction nodes with
  | nil =>
    intro init r hr
    simp only [List.foldlM_nil, pure, Option.some.injEq] at hr
    subst hr
    cases path with
    | nil => simp [textsAtPath]
    | cons p ps => cases ps <;> simp [textsAtPath, childrenNamed]
  | cons n ns ihn =>
    intro init r hr
    simp only [List.foldlM_cons, bind, Option.bind_eq_some] at hr
    obtain ⟨mid, hmid, hrest⟩ := hr
    have hitems : mid.items = init.items ++ textsAtPath path [n] := by
      cases n with
      | charData t =>
        simp only [ListFields.unmarshalChild, Option.some.injEq] at hmid
        subst hmid
        cases path with
        | nil => simp [textsAtPath]
        | cons p ps => cases ps <;> simp [textsAtPath, childrenNamed]
      | element name children =>
        simp only [ListFields.unmarshalChild] at hmid
        by_cases hname : name = "meta"
        · rw [hname, textsAtPath_skips path "meta" children hpath]
          simp only [hname, if_true] at hmid
          cases hum : unmarshalMeta init.RequestMeta children with
          | none => simp [hum] at hmid
          | some m =>
            simp only [hum, Option.map_some', Option.some.injEq] at hmid
            subst hmid
            simp
        · simp only [hname, if_false, Option.some.injEq] at hmid
          subst hmid
          exact unmarshalPathStrings_eq path init.items _
    rw [ihn mid r hrest, hitems, textsAtPath_cons path n ns, List.append_assoc]

/-- C10: when the request of `GetGroups` is answered with HTTP 200 and a body whose
envelope has status code 100, the call returns the texts of the elements at
`data>groups>element` under the root, in document order with repetitions kept;
for the document of `TestGetGroups` that is `["admin", "testGroup"]`. -/
theorem getGroups_document_order (c : Client) (lib : Lib) (h : HTTPClient) (req : Request)
    (body : String) (root : Root) (hc : c.HTTPClient = some h)
    (hsent : (c.GetGroups lib).sent = [req]) (hdo : h.Do req = .response 200 (.ok body))
    (hroot : lib.xmlRoot body = some root) :
    (∀ (response : GetGroupsResponse) (m : MetaFragment),
        lib.UnmarshalGetGroupsResponse body = .ok response → response.RequestMeta = some m →
        m.StatusCode = 100 →
        (c.GetGroups lib).outcome =
          .returned (textsAtPath ["data", "groups", "element"] root.children) none) ∧
      (root = testGetGroupsDocument →
        (c.GetGroups lib).outcome = .returned ["admin", "testGroup"] none) := by
  have general : ∀ (response : GetGroupsResponse) (m : MetaFragment),
      lib.UnmarshalGetGroupsResponse body = .ok response → response.RequestMeta = some m →
      m.StatusCode = 100 →
      (c.GetGroups lib).outcome =
        .returned (textsAtPath ["data", "groups", "element"] root.children) none := by
    intro response m hdec hm hs
    have hitems :
        response.GroupNames = textsAtPath ["data", "groups", "element"] root.children := by
      simp only [Lib.UnmarshalGetGroupsResponse, Lib.unmarshalList, hroot] at hdec
      split at hdec
      · cases hdec
      · cases hfold : root.children.foldlM
            (ListFields.unmarshalChild ["data", "groups", "element"]) ⟨none, []⟩ with
        | none => simp [hfold, Except.map] at hdec
        | some r =>
          simp only [hfold, Except.map, Except.ok.injEq] at hdec
          subst hdec
          have := listFields_items ["data", "groups", "element"] (by decide) root.children
            ⟨none, []⟩ r hfold
          simpa using this
    have hout := listOp_outcome .GetGroups c lib h req body m response.GroupNames hc hsent hdo
      (by simp only [ListOp.decode, hdec, Except.map, hm])
    simp only [ListOp.call] at hout
    rw [hout, hitems]
    simp [hs]
  refine ⟨general, ?_⟩
  intro hdoc
  subst hdoc
  exact general ⟨⟨"", "ocs"⟩, some ⟨100, "ok", "", 0, 0⟩, ["admin", "testGroup"]⟩
    ⟨100, "ok", "", 0, 0⟩
    (by simp only [Lib.UnmarshalGetGroupsResponse, Lib.unmarshalList, hroot]; rfl) rfl rfl

set_option maxRecDepth 8000 in
theorem getGroups_document_order_witness :
    (Client.GetGroups testGetGroups.client testGetGroups.lib).outcome =
        .returned ["admin", "testGroup"] none ∧
      (Client.GetGroups repeatedListing.client repeatedListing.lib).outcome =
        .returned ["b", "a", "b"] none :=
  ⟨(getGroups_document_order testGetGroups.client testGetGroups.lib _ _ testGetGroups.body
      testGetGroupsDocument rfl rfl rfl rfl).2 rfl,
   (getGroups_document_order repeatedListing.client repeatedListing.lib _ _
      repeatedListing.body repeatedListing.document rfl rfl rfl rfl).1
      ⟨⟨"", "ocs"⟩, some ⟨100, "ok", "", 0, 0⟩, ["b", "a", "b"]⟩ ⟨100, "ok", "", 0, 0⟩
      rfl rfl rfl⟩


/-! ## Every operation as an instance of the shared steps -/

theorem doRequest_sent_mem (c : Client) (r req : Request) (hmem : req ∈ (c.doRequest r).sent) :
    req = c.outgoing r := by
  cases hc : c.HTTPClient with
  | none => simp [Client.doRequest, hc] at hmem
  | some h =>
    rw [doRequest_sent c h r hc] at hmem
    simpa using hmem

/-- A request the shared steps send is the request built by `http.NewRequest`,
with the body headers added and then the headers of `doRequest`. -/
theorem pipeline_sent_mem {ρ α : Type} (c : Client) (lib : Lib) (method url : String)
    (body : Option String) (addHeaders : Request → Request) (decode : String → Except Err ρ)
    (metaOf : ρ → Option MetaFragment) (zero : α) (failure : MetaFragment → Err)
    (finish : ρ → α × Option Err) (req : Request)
    (hmem : req ∈
      (pipeline c lib method url body addHeaders decode metaOf zero failure finish).sent) :
    ∃ r, lib.NewRequest method url body = .ok r ∧ req = c.outgoing (addHeaders r) := by
  cases hnr : lib.NewRequest method url body with
  | error e => simp [pipeline, hnr] at hmem
  | ok r =>
    refine ⟨r, rfl, ?_⟩
    apply doRequest_sent_mem c (addHeaders r) req
    simp only [pipeline, hnr] at hmem
    split at hmem
    · exact hmem
    · exact hmem
    · split at hmem
      · exact hmem
      · split at hmem
        · exact hmem
        · split at hmem <;> exact hmem

/-- Every operation either never hands a request to the transport, or is the
shared steps with its own decoder and failure text. -/
theorem operation_pipeline (op : Operation) (c : Client) (lib : Lib) :
    (op.call c lib).sent = [] ∨
      ∃ (ρ α : Type) (f : α → Value) (method url : String) (body : Option String)
        (addHeaders : Request → Request) (decode : String → Except Err ρ)
        (metaOf : ρ → Option MetaFragment) (zero : α) (finish : ρ → α × Option Err),
        (f zero).isZero = true ∧
          (∀ b, (decode b).map metaOf = op.decodeMeta lib b) ∧
          op.call c lib =
            (pipeline c lib method url body addHeaders decode metaOf zero op.failure
              finish).wrap f := by
  have listKey : ∀ lop : ListOp, op.call c lib = (lop.call c lib).wrap .names →
      op.viaSimpleRequest = false →
      (∀ b, (lop.decode lib b).map Prod.fst = op.decodeMeta lib b) →
      ∃ (ρ α : Type) (f : α → Value) (method url : String) (body : Option String)
        (addHeaders : Request → Request) (decode : String → Except Err ρ)
        (metaOf : ρ → Option MetaFragment) (zero : α) (finish : ρ → α × Option Err),
        (f zero).isZero = true ∧
          (∀ b, (decode b).map metaOf = op.decodeMeta lib b) ∧
          op.call c lib =
            (pipeline c lib method url body addHeaders decode metaOf zero op.failure
              finish).wrap f := by
    intro lop hcall hvia hmeta
    rw [listOp_pipeline] at hcall
    have hfail : op.failure = fun m => apiFailure m.StatusCode := by
      funext m
      simp [Operation.failure, hvia]
    rw [hfail]
    refine ⟨_, _, Value.names, _, _, _, _, _, _, _, _, ?_, hmeta, hcall⟩
    rfl
  have simpleKey : ∀ (method endpoint : String) (values : Values),
      op.call c lib = (doSimpleRequest lib c method endpoint (some values)).wrap .success →
      op.viaSimpleRequest = true →
      (∀ b, (lib.UnmarshalSimpleResponse b).map (fun r => r.RequestMeta)
        = op.decodeMeta lib b) →
      ∃ (ρ α : Type) (f : α → Value) (method url : String) (body : Option String)
        (addHeaders : Request → Request) (decode : String → Except Err ρ)
        (metaOf : ρ → Option MetaFragment) (zero : α) (finish : ρ → α × Option Err),
        (f zero).isZero = true ∧
          (∀ b, (decode b).map metaOf = op.decodeMeta lib b) ∧
          op.call c lib =
            (pipeline c lib method url body addHeaders decode metaOf zero op.failure
              finish).wrap f := by
    intro method endpoint values hcall hvia hmeta
    rw [doSimpleRequest_pipeline] at hcall
    have hfail : op.failure = simpleFailure := by
      funext m
      simp [Operation.failure, hvia]
    rw [hfail]
    refine ⟨_, _, Value.success, _, _, _, _, _, _, _, _, ?_, hmeta, hcall⟩
    rfl
  have mapMap : ∀ {ρ : Type} (x : Except Err ρ) (g : ρ → Option MetaFragment × List String)
      (k : ρ → Option MetaFragment), (∀ r, (g r).1 = k r) →
      (x.map g).map Prod.fst = x.map k := by
    intro ρ x g k hk
    cases x with
    | error e => rfl
    | ok r => simp [Except.map, hk]
  cases op with
  | GetUsers => exact .inr (listKey .GetUsers rfl rfl fun b => mapMap _ _ _ fun _ => rfl)
  | GetGroups => exact .inr (listKey .GetGroups rfl rfl fun b => mapMap _ _ _ fun _ => rfl)
  | GetUserGroups userId =>
    exact .inr (listKey (.GetUserGroups userId) rfl rfl fun b => mapMap _ _ _ fun _ => rfl)
  | GetSubadminGroups userId =>
    exact .inr (listKey (.GetSubadminGroups userId) rfl rfl fun b => mapMap _ _ _ fun _ => rfl)
  | GetGroupMembers groupId =>
    exact .inr (listKey (.GetGroupMembers groupId) rfl rfl fun b => mapMap _ _ _ fun _ => rfl)
  | GetGroupSubadmins groupId =>
    exact .inr (listKey (.GetGroupSubadmins groupId) rfl rfl fun b => mapMap _ _ _ fun _ => rfl)
  | GetGroup groupId =>
    right
    refine ⟨_, _, Value.group, _, _, _, _, _, _, _, _, ?_, fun _ => rfl,
      congrArg (Call.wrap Value.group) (getGroup_pipeline c lib groupId)⟩
    rfl
  | GetUserDetails userId =>
    right
    refine ⟨_, _, Value.details, _, _, _, _, _, _, _, _, ?_, fun _ => rfl,
      congrArg (Call.wrap Value.details) (getUserDetails_pipeline c lib userId)⟩
    rfl
  | UpdateUserDetail userId attr value =>
    right
    refine ⟨_, _, Value.success, _, _, _, _, _, _, _, _, ?_, fun _ => rfl,
      congrArg (Call.wrap Value.success) (updateUserDetail_pipeline c lib userId attr value)⟩
    rfl
  | CreateGroup groupId => exact .inr (simpleKey _ _ _ rfl rfl fun _ => rfl)
  | AddUserToGroup userId groupId => exact .inr (simpleKey _ _ _ rfl rfl fun _ => rfl)
  | RemoveUserFromGroup userId groupId => exact .inr (simpleKey _ _ _ rfl rfl fun _ => rfl)
  | PromoteToSubadmin userId groupId => exact .inr (simpleKey _ _ _ rfl rfl fun _ => rfl)
  | DemoteFromSubadmin userId groupId => exact .inr (simpleKey _ _ _ rfl rfl fun _ => rfl)
  | CreateUser userData =>
    by_cases hv : userData.Validate.1 = false
    · left
      simp only [Operation.call, Call.wrap, createUser_invalid c lib userData hv]
    · right
      apply simpleKey "POST" (c.HostURL ++ "/cloud/users") (createUserBody userData) _ rfl
        fun _ => rfl
      simp only [Operation.call, Client.CreateUser]
      rcases hval : userData.Validate with ⟨result, problems⟩
      rw [hval] at hv
      cases result with
      | false => exact absurd rfl hv
      | true => rfl
  | DisableUser userId => exact .inl rfl
  | EnableUser userId => exact .inl rfl
  | DeleteUser userId => exact .inl rfl
  | ResendWelcomeMail userId => exact .inl rfl
  | DeleteGroup groupId => exact .inl rfl


/-- What the shared steps do with a body that was answered with status 200: a
decoded envelope without meta record is a nil dereference, and one with a status
code other than 100 is the failure error with the zero value. -/
theorem wrap_pipeline_meta {ρ α : Type} (f : α → Value) (c : Client) (lib : Lib)
    (method url : String) (body : Option String) (addHeaders : Request → Request)
    (decode : String → Except Err ρ) (metaOf : ρ → Option MetaFragment) (zero : α)
    (failure : MetaFragment → Err) (finish : ρ → α × Option Err) (h : HTTPClient)
    (req : Request) (b : String) (hc : c.HTTPClient = some h)
    (hsent : ((pipeline c lib method url body addHeaders decode metaOf zero failure
      finish).wrap f).sent = [req])
    (hdo : h.Do req = .response 200 (.ok b)) :
    ((decode b).map metaOf = .ok none →
        ((pipeline c lib method url body addHeaders decode metaOf zero failure finish).wrap
          f).outcome = .panicked .nilDereference) ∧
      (∀ m, (decode b).map metaOf = .ok (some m) → m.StatusCode ≠ 100 →
        ((pipeline c lib method url body addHeaders decode metaOf zero failure finish).wrap
          f).outcome = .returned (f zero) (some (failure m))) := by
  simp only [Call.wrap] at hsent ⊢
  rw [pipeline_outcome c lib _ _ _ _ _ _ _ _ _ h req hc hsent, hdo]
  simp only [interpret, ne_eq, not_true_eq_false, if_false]
  cases hd : decode b with
  | error e => simp [Except.map]
  | ok r =>
    simp only [Except.map, Except.ok.injEq]
    constructor
    · intro hm
      simp [hm]
    · intro m hm hs
      simp [hm, hs, StatusSuccess]

/-! ## The operations without a form body (client.go, `doSimpleRequest`) -/

/-- C12, as the code behaves: the five operations that pass a nil `*url.Values`
hand no request to the transport and end in a nil dereference, for every client,
library and identifier, because `doSimpleRequest` calls `bodyData.Encode()`
before it compares `bodyData` with nil. -/
theorem bodyless_operations_panic (c : Client) (lib : Lib) (id : String) :
    c.DeleteGroup lib id = ⟨[], .panicked .nilDereference⟩ ∧
      c.DeleteUser lib id = ⟨[], .panicked .nilDereference⟩ ∧
      c.DisableUser lib id = ⟨[], .panicked .nilDereference⟩ ∧
      c.EnableUser lib id = ⟨[], .panicked .nilDereference⟩ ∧
      c.ResendWelcomeMail lib id = ⟨[], .panicked .nilDereference⟩ :=
  ⟨rfl, rfl, rfl, rfl, rfl⟩

/-! ## A response without meta section -/

/-- C13, as the code behaves: when the request of an operation is answered with
status 200 and a body that decodes to an envelope without meta record, the
operation ends in a nil dereference instead of returning. -/
theorem missing_meta_panics (op : Operation) (c : Client) (lib : Lib) (h : HTTPClient)
    (req : Request) (body : String) (hc : c.HTTPClient = some h)
    (hsent : (op.call c lib).sent = [req]) (hdo : h.Do req = .response 200 (.ok body))
    (hdec : op.decodeMeta lib body = .ok none) :
    (op.call c lib).outcome = .panicked .nilDereference := by
  rcases operation_pipeline op c lib with hnone |
    ⟨ρ, α, f, method, url, b, addHeaders, decode, metaOf, zero, finish, _, hmeta, hcall⟩
  · rw [hnone] at hsent
    cases hsent
  · rw [hcall] at hsent ⊢
    exact (wrap_pipeline_meta f c lib _ _ _ _ _ _ _ _ _ h req body hc hsent hdo).1
      (by rw [hmeta, hdec])

theorem missing_meta_panics_witness :
    (Operation.call missingMeta.client missingMeta.lib .GetGroups).outcome =
        .panicked .nilDereference ∧
      (Operation.call missingMeta.client missingMeta.lib (.GetUserDetails "john.doe")).outcome =
        .panicked .nilDereference ∧
      (Operation.call missingMeta.client missingMeta.lib (.CreateGroup "testGroup01")).outcome =
        .panicked .nilDereference :=
  ⟨missing_meta_panics .GetGroups missingMeta.client missingMeta.lib _ _ missingMeta.body
      rfl rfl rfl rfl,
   missing_meta_panics (.GetUserDetails "john.doe") missingMeta.client missingMeta.lib _ _
      missingMeta.body rfl rfl rfl rfl,
   missing_meta_panics (.CreateGroup "testGroup01") missingMeta.client missingMeta.lib _ _
      missingMeta.body rfl rfl rfl rfl⟩


/-! ## The error for a status code other than 100 -/

theorem get_cons (kv : String × List String) (rest : StringsMap) (key : String) :
    StringsMap.get (kv :: rest) key = if kv.1 = key then kv.2 else StringsMap.get rest key := by
  unfold StringsMap.get
  by_cases h : kv.1 = key <;> simp [List.find?_cons, h]

theorem get_replace_same (m : StringsMap) (key : String) (vs : List String)
    (hany : m.any (fun kv => kv.1 == key) = true) :
    StringsMap.get (m.map fun kv => if kv.1 == key then (key, vs) else kv) key = vs := by
  induction m with
  | nil => simp at hany
  | cons kv rest ih =>
    by_cases hk : kv.1 = key
    · simp [get_cons, hk]
    · have hrest : rest.any (fun kv => kv.1 == key) = true := by
        simpa [hk] using hany
      have hb : (kv.1 == key) = false := by simp [hk]
      simp only [List.map_cons, get_cons, hb, hk, if_false, Bool.false_eq_true]
      exact ih hrest

theorem get_replace_other (m : StringsMap) (key other : String) (vs : List String)
    (hne : other ≠ key) :
    StringsMap.get (m.map fun kv => if kv.1 == key then (key, vs) else kv) other
      = StringsMap.get m other := by
  have hko : ¬ key = other := fun h => hne h.symm
  induction m with
  | nil => rfl
  | cons kv rest ih =>
    by_cases hk : kv.1 = key
    · have hkv : ¬ kv.1 = other := fun h => hne (h.symm.trans hk)
      have hb : (kv.1 == key) = true := by simp [hk]
      simp only [List.map_cons, get_cons, hb, if_true, hko, hkv, if_false]
      exact ih
    · have hb : (kv.1 == key) = false := by simp [hk]
      simp only [List.map_cons, get_cons, hb, if_false, Bool.false_eq_true]
      rw [ih]

theorem get_append_same (m : StringsMap) (key : String) (vs : List String)
    (hany : ¬ m.any (fun kv => kv.1 == key) = true) :
    StringsMap.get (m ++ [(key, vs)]) key = vs := by
  induction m with
  | nil => simp [get_cons]
  | cons kv rest ih =>
    have hk : ¬ kv.1 = key := by
      intro hk
      exact hany (by simp [hk])
    have hrest : ¬ rest.any (fun kv => kv.1 == key) = true := by
      intro hrest
      exact hany (by simp [hrest])
    simp only [List.cons_append, get_cons, hk, if_false]
    exact ih hrest

theorem get_append_other (m : StringsMap) (key other : String) (vs : List String)
    (hne : other ≠ key) :
    StringsMap.get (m ++ [(key, vs)]) other = StringsMap.get m other := by
  have hko : ¬ key = other := fun h => hne h.symm
  induction m with
  | nil => simp [get_cons, hko, StringsMap.get]
  | cons kv rest ih =>
    simp only [List.cons_append, get_cons]
    rw [ih]

theorem get_put_same (m : StringsMap) (key : String) (vs : List String) :
    StringsMap.get (StringsMap.put m key vs) key = vs := by
  unfold StringsMap.put
  split
  · rename_i hany
    exact get_replace_same m key vs hany
  · rename_i hany
    exact get_append_same m key vs hany

theorem get_put_other (m : StringsMap) (key other : String) (vs : List String)
    (hne : other ≠ key) :
    StringsMap.get (StringsMap.put m key vs) other = StringsMap.get m other := by
  unfold StringsMap.put
  split
  · exact get_replace_other m key other vs hne
  · exact get_append_other m key other vs hne


theorem header_get_set_same (h : Header) (key value : String) :
    Header.Get (Header.Set h key value) key = value := by
  simp [Header.Get, Header.Set, get_put_same]

theorem header_get_set_other (h : Header) (key other value : String)
    (hne : CanonicalMIMEHeaderKey other ≠ CanonicalMIMEHeaderKey key) :
    Header.Get (Header.Set h key value) other = Header.Get h other := by
  simp [Header.Get, Header.Set, get_put_other _ _ _ _ hne]

/-- The two headers `doRequest` sets are on the request it hands to the transport. -/
theorem outgoing_headers (c : Client) (r : Request) :
    Header.Get (c.outgoing r).Header "OCS-APIRequest" = "true" ∧
      Header.Get (c.outgoing r).Header "Authorization" =
        "Basic " ++ base64StdEncodeToString (c.username ++ ":" ++ c.password) := by
  simp only [Client.outgoing, Request.SetBasicAuth]
  constructor
  · rw [header_get_set_other _ _ _ _ (by decide), header_get_set_same]
  · rw [header_get_set_same]

/-- The headers of `doRequest` leave the method, the URL, the body and the other
headers of the request as they are. -/
theorem outgoing_keeps (c : Client) (r : Request) :
    (c.outgoing r).Method = r.Method ∧ (c.outgoing r).URL = r.URL ∧
      (c.outgoing r).Body = r.Body ∧
      ∀ key, CanonicalMIMEHeaderKey key ≠ "Ocs-Apirequest" →
        CanonicalMIMEHeaderKey key ≠ "Authorization" →
        Header.Get (c.outgoing r).Header key = Header.Get r.Header key := by
  refine ⟨rfl, rfl, rfl, ?_⟩
  intro key h1 h2
  simp only [Client.outgoing, Request.SetBasicAuth]
  rw [header_get_set_other _ _ _ _ (by simpa using h2),
    header_get_set_other _ _ _ _ (by simpa using h1)]

/-- C16: every request an operation hands to the transport, and every request
`doRequest` sends whatever its method, URL and body, has the header
`OCS-APIRequest` with the value "true" and the header `Authorization` with
"Basic " followed by the base64 text of `username:password`. -/
theorem requests_carry_headers :
    (∀ (c : Client) (r req : Request), req ∈ (c.doRequest r).sent →
        Header.Get req.Header "OCS-APIRequest" = "true" ∧
          Header.Get req.Header "Authorization" =
            "Basic " ++ base64StdEncodeToString (c.username ++ ":" ++ c.password)) ∧
      (∀ (op : Operation) (c : Client) (lib : Lib) (req : Request),
        req ∈ (op.call c lib).sent →
        Header.Get req.Header "OCS-APIRequest" = "true" ∧
          Header.Get req.Header "Authorization" =
            "Basic " ++ base64StdEncodeToString (c.username ++ ":" ++ c.password)) := by
  constructor
  · intro c r req hmem
    rw [doRequest_sent_mem c r req hmem]
    exact outgoing_headers c r
  · intro op c lib req hmem
    rcases operation_pipeline op c lib with hnone |
      ⟨ρ, α, f, method, url, b, addHeaders, decode, metaOf, zero, finish, _, _, hcall⟩
    · rw [hnone] at hmem
      cases hmem
    · rw [hcall] at hmem
      simp only [Call.wrap] at hmem
      obtain ⟨r, _, hreq⟩ := pipeline_sent_mem c lib _ _ _ _ _ _ _ _ _ req hmem
      rw [hreq]
      exact outgoing_headers c (addHeaders r)

theorem requests_carry_headers_witness :
    (Operation.call simpleOk.client simpleOk.lib (.CreateGroup "testGroup01")).sent.map
        (fun req => (Header.Get req.Header "OCS-APIRequest",
          Header.Get req.Header "Authorization"))
      = [("true", "Basic dGhlLXVzZXI6dGhlLXNlY3JldC1wYXNzd29yZA==")] := by
  have hsent : (Operation.call simpleOk.client simpleOk.lib (.CreateGroup "testGroup01")).sent
      = [simpleOk.client.outgoing
          (simpleOk.client.addHeadersForBody
            ⟨"POST", "http://example.local/ocs/v1.php/cloud/groups", [],
              some "groupid=testGroup01"⟩ 19)] := rfl
  have hw := requests_carry_headers.2 (.CreateGroup "testGroup01") simpleOk.client simpleOk.lib
    _ (by rw [hsent]; exact List.mem_singleton.mpr rfl)
  rw [hsent, List.map_singleton, hw.1, hw.2]
  rfl


theorem newRequest_ok (lib : Lib) (method url : String) (body : Option String) (r : Request)
    (hr : lib.NewRequest method url body = .ok r) : r = ⟨method, url, [], body⟩ := by
  unfold Lib.NewRequest at hr
  split at hr
  · cases hr
  · cases hr
    rfl

/-- A form operation either stops at the validation of `CreateUser`, or runs the
shared steps with the encoded form values as body and their byte length as
content length. -/
theorem formOp_pipeline_body (c : Client) (lib : Lib) (op : FormOp) :
    (∃ e, op.call c lib = ⟨[], .returned false (some e)⟩) ∨
      ∃ method url,
        op.call c lib = pipeline c lib method url (some (Values.Encode op.values))
          (fun req => c.addHeadersForBody req (byteLen (Values.Encode op.values)))
          lib.UnmarshalSimpleResponse (fun r => r.RequestMeta) false op.failure
          (fun _ => (true, none)) := by
  cases op with
  | CreateUser userData =>
    simp only [FormOp.call, FormOp.failure, FormOp.values, Client.CreateUser]
    rcases userData.Validate with ⟨result, problems⟩
    cases result with
    | false => exact .inl ⟨_, rfl⟩
    | true => exact .inr ⟨_, _, doSimpleRequest_pipeline c lib _ _ _⟩
  | UpdateUserDetail userId attr value =>
    exact .inr ⟨_, _, updateUserDetail_pipeline c lib userId attr value⟩
  | CreateGroup groupId => exact .inr ⟨_, _, doSimpleRequest_pipeline c lib _ _ _⟩
  | AddUserToGroup userId groupId => exact .inr ⟨_, _, doSimpleRequest_pipeline c lib _ _ _⟩
  | RemoveUserFromGroup userId groupId =>
    exact .inr ⟨_, _, doSimpleRequest_pipeline c lib _ _ _⟩
  | PromoteToSubadmin userId groupId =>
    exact .inr ⟨_, _, doSimpleRequest_pipeline c lib _ _ _⟩
  | DemoteFromSubadmin userId groupId =>
    exact .inr ⟨_, _, doSimpleRequest_pipeline c lib _ _ _⟩

/-- A request a form operation sends: built by `http.NewRequest` with the encoded
values as body, then given the body headers and the headers of `doRequest`. -/
theorem formOp_sent_mem (c : Client) (lib : Lib) (op : FormOp) (req : Request)
    (hmem : req ∈ (op.call c lib).sent) :
    ∃ method url, req = c.outgoing (c.addHeadersForBody
      ⟨method, url, [], some (Values.Encode op.values)⟩ (byteLen (Values.Encode op.values))) := by
  rcases formOp_pipeline_body c lib op with ⟨e, hcall⟩ | ⟨method, url, hcall⟩
  · rw [hcall] at hmem
    cases hmem
  · rw [hcall] at hmem
    obtain ⟨r, hr, hreq⟩ := pipeline_sent_mem c lib _ _ _ _ _ _ _ _ _ req hmem
    rw [newRequest_ok lib _ _ _ r hr] at hreq
    exact ⟨method, url, hreq⟩

/-- C17: every request a form operation hands to the transport has the encoded
form values as its body, the header `Content-Type` with the value
"application/x-www-form-urlencoded", and the header `Content-Length` with the
number of bytes of that body in decimal. -/
theorem form_requests_content_headers (op : FormOp) (c : Client) (lib : Lib) (req : Request)
    (hmem : req ∈ (op.call c lib).sent) :
    ∃ text, req.Body = some text ∧ text = Values.Encode op.values ∧
      Header.Get req.Header "Content-Type" = "application/x-www-form-urlencoded" ∧
      Header.Get req.Header "Content-Length" = fmtInt (byteLen text) := by
  obtain ⟨method, url, hreq⟩ := formOp_sent_mem c lib op req hmem
  refine ⟨Values.Encode op.values, ?_, rfl, ?_, ?_⟩
  · rw [hreq]
    rfl
  · rw [hreq, (outgoing_keeps c _).2.2.2 "Content-Type" (by decide) (by decide)]
    simp only [Client.addHeadersForBody]
    rw [header_get_set_other _ _ _ _ (by decide), header_get_set_same]
  · rw [hreq, (outgoing_keeps c _).2.2.2 "Content-Length" (by decide) (by decide)]
    simp only [Client.addHeadersForBody]
    rw [header_get_set_same]

theorem form_requests_content_headers_witness :
    (FormOp.call simpleOk.client simpleOk.lib
        (.UpdateUserDetail "john.doe" "email" "johnny.doe@example.local")).sent.map
        (fun req => (req.Body, Header.Get req.Header "Content-Type",
          Header.Get req.Header "Content-Length"))
      = [(some "key=email&value=johnny.doe%40example.local",
          "application/x-www-form-urlencoded", "42")] := by
  have hsent : (FormOp.call simpleOk.client simpleOk.lib
      (.UpdateUserDetail "john.doe" "email" "johnny.doe@example.local")).sent
      = [simpleOk.client.outgoing
          (simpleOk.client.addHeadersForBody
            ⟨"PUT", "http://example.local/ocs/v1.php/cloud/users/john.doe", [],
              some "key=email&value=johnny.doe%40example.local"⟩ 42)] := rfl
  obtain ⟨text, hbody, htext, htype, hlength⟩ :=
    form_requests_content_headers
      (.UpdateUserDetail "john.doe" "email" "johnny.doe@example.local")
      simpleOk.client simpleOk.lib _ (by rw [hsent]; exact List.mem_singleton.mpr rfl)
  rw [hsent, List.map_singleton, hbody, htype, hlength, htext]
  rfl


/-! ## The form body of the group operations -/

theorem encode_groupid (groupId : String) :
    Values.Encode (Values.Set [] "groupid" groupId) = "groupid=" ++ QueryEscape groupId := by
  have hkey : QueryEscape "groupid" = "groupid" := by decide
  simp [Values.Encode, Values.Set, StringsMap.put, sortKeys, insertKey, encodeKey,
    StringsMap.get, hkey]

/-- The shared steps hand one request to the transport when `http.NewRequest`
accepts the method and the URL and the client has an `http.Client`. -/
theorem pipeline_sends {ρ α : Type} (c : Client) (lib : Lib) (method url : String)
    (body : Option String) (addHeaders : Request → Request) (decode : String → Except Err ρ)
    (metaOf : ρ → Option MetaFragment) (zero : α) (failure : MetaFragment → Err)
    (finish : ρ → α × Option Err) (h : HTTPClient) (hc : c.HTTPClient = some h)
    (hnr : lib.newRequestError method url = none) :
    (pipeline c lib method url body addHeaders decode metaOf zero failure finish).sent =
      [c.outgoing (addHeaders ⟨method, url, [], body⟩)] := by
  have hreq : lib.NewRequest method url body = .ok ⟨method, url, [], body⟩ := by
    simp [Lib.NewRequest, hnr]
  have hs := doRequest_sent c h (addHeaders ⟨method, url, [], body⟩) hc
  simp only [pipeline, hreq]
  split
  · exact hs
  · exact hs
  · split
    · exact hs
    · split
      · exact hs
      · split <;> exact hs

/-- C11: each of `CreateGroup`, `AddUserToGroup`, `RemoveUserFromGroup`,
`PromoteToSubadmin` and `DemoteFromSubadmin` sends the form body "groupid="
followed by the URL-encoded group id, sends exactly one request when the library
accepts it and the client has an `http.Client`, and returns `(true, nil)` when
that request is answered with status 200 and an envelope with status code 100. -/
theorem group_form_body (op : FormOp) (groupId : String) (c : Client) (lib : Lib)
    (hop : op.groupId = some groupId) :
    (∀ req ∈ (op.call c lib).sent, req.Body = some ("groupid=" ++ QueryEscape groupId)) ∧
      (∀ h, c.HTTPClient = some h → (∀ method url, lib.newRequestError method url = none) →
        ∃ req, (op.call c lib).sent = [req]) ∧
      (∀ h req body response m, c.HTTPClient = some h → (op.call c lib).sent = [req] →
        h.Do req = .response 200 (.ok body) →
        lib.UnmarshalSimpleResponse body = .ok response → response.RequestMeta = some m →
        m.StatusCode = 100 → (op.call c lib).outcome = .returned true none) := by
  have hvalues : op.values = Values.Set [] "groupid" groupId := by
    cases op <;> simp [FormOp.groupId] at hop <;> simp [FormOp.values, hop]
  have hcall : ∃ method url,
      op.call c lib = pipeline c lib method url (some (Values.Encode op.values))
        (fun req => c.addHeadersForBody req (byteLen (Values.Encode op.values)))
        lib.UnmarshalSimpleResponse (fun r => r.RequestMeta) false op.failure
        (fun _ => (true, none)) := by
    cases op <;> simp [FormOp.groupId] at hop <;>
      exact ⟨_, _, doSimpleRequest_pipeline c lib _ _ _⟩
  obtain ⟨method, url, hcall⟩ := hcall
  refine ⟨?_, ?_, ?_⟩
  · intro req hmem
    obtain ⟨method2, url2, hreq⟩ := formOp_sent_mem c lib op req hmem
    rw [hreq, hvalues, encode_groupid]
    rfl
  · intro h hc hnr
    rw [hcall]
    exact ⟨_, pipeline_sends c lib _ _ _ _ _ _ _ _ _ h hc (hnr _ _)⟩
  · intro h req body response m hc hsent hdo hdec hm hs
    rw [hcall] at hsent ⊢
    rw [pipeline_outcome c lib _ _ _ _ _ _ _ _ _ h req hc hsent, hdo]
    simp [interpret, hdec, hm, hs, StatusSuccess]

theorem group_form_body_witness :
    (FormOp.call simpleOk.client simpleOk.lib (.CreateGroup "testGroup01")).sent.map
        (fun req => req.Body) = [some "groupid=testGroup01"] ∧
      (FormOp.call simpleOk.client simpleOk.lib (.CreateGroup "testGroup01")).outcome =
        .returned true none := by
  have hw := group_form_body (.CreateGroup "testGroup01") "testGroup01" simpleOk.client
    simpleOk.lib rfl
  obtain ⟨req, hsent⟩ := hw.2.1 _ rfl (fun _ _ => rfl)
  refine ⟨?_, hw.2.2 _ req simpleOk.body ⟨⟨"", "ocs"⟩, some ⟨100, "ok", "", 0, 0⟩⟩
    ⟨100, "ok", "", 0, 0⟩ rfl hsent ?_ rfl rfl rfl⟩
  · rw [hsent, List.map_singleton, hw.1 req (by rw [hsent]; exact List.mem_singleton.mpr rfl)]
    rfl
  · rfl


/-! ## The list field of every list response -/

theorem mem_childrenNamed (name : String) (nodes : List Node) (children : List Node) :
    children ∈ childrenNamed name nodes ↔ Node.element name children ∈ nodes := by
  unfold childrenNamed
  rw [List.mem_filterMap]
  constructor
  · rintro ⟨n, hmem, hn⟩
    cases n with
    | charData t => simp at hn
    | element m kids =>
      by_cases hm : m = name
      · simp only [hm, if_true, Option.some.injEq] at hn
        rw [← hn, ← hm]
        exact hmem
      · simp [hm] at hn
  · intro hmem
    exact ⟨_, hmem, by simp⟩

/-- The list a list operation decodes is the texts at its tag path. -/
theorem listOp_decode_items (op : ListOp) (lib : Lib) (body : String) (root : Root)
    (m : Option MetaFragment) (L : List String) (hroot : lib.xmlRoot body = some root)
    (hdec : op.decode lib body = .ok (m, L)) :
    L = textsAtPath op.path root.children := by
  have key : ∀ (target : String) (path : List String) (hpath : path.head? ≠ some "meta")
      (r : Name × ListFields), lib.unmarshalList target path body = .ok r →
      r.2.items = textsAtPath path root.children := by
    intro target path hpath r hr
    simp only [Lib.unmarshalList, hroot] at hr
    split at hr
    · cases hr
    · cases hfold : root.children.foldlM (ListFields.unmarshalChild path) ⟨none, []⟩ with
      | none => simp [hfold] at hr
      | some fields =>
        simp only [hfold, Except.ok.injEq] at hr
        subst hr
        simpa using listFields_items path hpath root.children ⟨none, []⟩ fields hfold
  cases op <;>
    simp only [ListOp.decode, ListOp.path, Lib.UnmarshalGetUsersResponse,
      Lib.UnmarshalGetGroupsResponse, Lib.UnmarshalUserGroupsResponse,
      Lib.UnmarshalUserSubadminGroupsResponse, Lib.UnmarshalGetGroupMembersResponse,
      Lib.UnmarshalGetGroupSubadminsResponse] at hdec ⊢ <;>
    (generalize hu : lib.unmarshalList _ _ body = u at hdec
     cases u with
     | error e => cases hdec
     | ok r =>
       simp only [Except.map, Except.ok.injEq, Prod.mk.injEq] at hdec
       rw [← hdec.2]
       exact key _ _ (by decide) r hu)

theorem emptyPayload_texts (root : Root) (hempty : emptyPayload root) (op : ListOp) :
    textsAtPath op.path root.children = [] := by
  have hdirect : ∀ kids ∈ childrenNamed "data" root.children,
      childrenNamed "element" kids = [] := by
    intro kids hkids
    rw [mem_childrenNamed] at hkids
    rw [List.eq_nil_iff_forall_not_mem]
    intro entry hentry
    rw [mem_childrenNamed] at hentry
    have := (hempty _ hkids (by simp [Node.isNamed]) _ hentry).1
    simp [Node.isNamed] at this
  have hinner : ∀ (name : String), ∀ kids ∈ childrenNamed "data" root.children,
      ∀ inner ∈ childrenNamed name kids, childrenNamed "element" inner = [] := by
    intro name kids hkids inner hinner
    rw [mem_childrenNamed] at hkids hinner
    rw [List.eq_nil_iff_forall_not_mem]
    intro entry hentry
    rw [mem_childrenNamed] at hentry
    have := (hempty _ hkids (by simp [Node.isNamed]) _ hinner).2 _ hentry
    simp [Node.isNamed] at this
  cases op <;> simp only [ListOp.path, textsAtPath, List.flatMap_eq_nil_iff, List.map_eq_nil_iff]
  · exact fun kids hkids inner hinner2 => hinner "users" kids hkids inner hinner2
  · exact fun kids hkids inner hinner2 => hinner "groups" kids hkids inner hinner2
  · exact fun kids hkids inner hinner2 => hinner "groups" kids hkids inner hinner2
  · exact hdirect
  · exact fun kids hkids inner hinner2 => hinner "users" kids hkids inner hinner2
  · exact hdirect

/-! ## An empty payload -/

/-- C14: a list operation whose request is answered with status 200 and an
envelope with status code 100 and an empty data section returns the empty list and
no error. -/
theorem empty_payload_is_empty_list (op : ListOp) (c : Client) (lib : Lib) (h : HTTPClient)
    (req : Request) (body : String) (root : Root) (m : MetaFragment) (L : List String)
    (hc : c.HTTPClient = some h) (hsent : (op.call c lib).sent = [req])
    (hdo : h.Do req = .response 200 (.ok body)) (hroot : lib.xmlRoot body = some root)
    (hdec : op.decode lib body = .ok (some m, L)) (hs : m.StatusCode = 100)
    (hempty : emptyPayload root) :
    (op.call c lib).outcome = .returned [] none := by
  rw [listOp_outcome op c lib h req body m L hc hsent hdo hdec,
    listOp_decode_items op lib body root (some m) L hroot hdec,
    emptyPayload_texts root hempty op]
  simp [hs]


theorem empty_payload_is_empty_list_witness :
    (ListOp.call simpleOk.client simpleOk.lib .GetUsers).outcome = .returned [] none ∧
      (ListOp.call emptyListing.client emptyListing.lib .GetGroups).outcome =
        .returned [] none ∧
      (ListOp.call emptyListing.client emptyListing.lib (.GetSubadminGroups "john.doe")).outcome
        = .returned [] none :=
  ⟨empty_payload_is_empty_list .GetUsers simpleOk.client simpleOk.lib _ _ simpleOk.body
      simpleOk.document ⟨100, "ok", "", 0, 0⟩ [] rfl rfl rfl rfl rfl rfl
      (by simp [emptyPayload, simpleOk, envelope, Node.isNamed, Node.childNodes]),
   empty_payload_is_empty_list .GetGroups emptyListing.client emptyListing.lib _ _
      emptyListing.body emptyListing.document ⟨100, "ok", "", 0, 0⟩ [] rfl rfl rfl rfl rfl rfl
      (by simp [emptyPayload, emptyListing, envelope, Node.isNamed, Node.childNodes]),
   empty_payload_is_empty_list (.GetSubadminGroups "john.doe") emptyListing.client
      emptyListing.lib _ _ emptyListing.body emptyListing.document ⟨100, "ok", "", 0, 0⟩ []
      rfl rfl rfl rfl rfl rfl
      (by simp [emptyPayload, emptyListing, envelope, Node.isNamed, Node.childNodes])⟩


/-! ## The details of a user (users.go, `GetUserDetails`) -/

set_option maxRecDepth 100000 in
/-- C20, as the code behaves: for the envelope of `TestClient_GetUserDetails` the
call returns a record whose `SubadminGroups` is nil and whose `LastLogin` is
empty, where the test expects `["employees"]` and "1618156321000"; the other
fields hold the values of the test. -/
theorem getUserDetails_test_envelope :
    (Client.GetUserDetails testUserDetails.client testUserDetailsLib "john.doe").outcome =
        .returned (some testUserDetailsDecoded) none ∧
      testUserDetailsDecoded.SubadminGroups = [] ∧ testUserDetailsDecoded.LastLogin = "" :=
  ⟨rfl, rfl, rfl⟩


/-! ## The form body written by `Encode` -/

/-- The step of the loops of `Encode`: an `&` unless the buffer is empty, then the
entry. -/
theorem encodeKey_eq (key : String) (vs : List String) (buf : String) :
    encodeKey (QueryEscape key) vs buf =
      (vs.map fun value => formPair (key, value)).foldl
        (fun buf entry => (if buf.length > 0 then buf ++ "&" else buf) ++ entry) buf := by
  unfold encodeKey
  induction vs generalizing buf with
  | nil => rfl
  | cons v rest ih =>
    simp only [List.foldl_cons, List.map_cons]
    rw [ih]
    simp only [formPair, String.append_assoc]

theorem intercalate_go_eq (entries : List String) (acc : String) (hacc : acc.length > 0) :
    entries.foldl (fun buf entry => (if buf.length > 0 then buf ++ "&" else buf) ++ entry) acc
      = String.intercalate.go acc "&" entries := by
  induction entries generalizing acc with
  | nil => rfl
  | cons e rest ih =>
    simp only [List.foldl_cons, String.intercalate.go, hacc, if_true]
    apply ih
    simp only [String.length_append]
    omega

theorem formPair_length (p : String × String) : (formPair p).length > 0 := by
  simp only [formPair, String.length_append]
  have : "=".length = 1 := rfl
  omega

/-- The fold of the loops of `Encode` over a list of entries is their join by `&`. -/
theorem foldl_join (pairs : List (String × String)) :
    (pairs.map formPair).foldl
        (fun buf entry => (if buf.length > 0 then buf ++ "&" else buf) ++ entry) ""
      = formEncode pairs := by
  cases pairs with
  | nil => rfl
  | cons p rest =>
    simp only [List.map_cons, List.foldl_cons, formEncode, String.intercalate]
    have hempty : ¬ ("".length > 0) := by decide
    simp only [hempty, if_false, String.empty_append]
    exact intercalate_go_eq _ _ (formPair_length p)

/-- The body `Encode` writes is the entries of the values joined by `&`. -/
theorem encode_eq_formEncode (v : Values) : Values.Encode v = formEncode (Values.entries v) := by
  rw [← foldl_join]
  unfold Values.Encode Values.entries
  have hloop : ∀ (keys : List String) (buf : String),
      keys.foldl (fun buf k => encodeKey (QueryEscape k) (StringsMap.get v k) buf) buf =
        ((keys.flatMap fun k => (StringsMap.get v k).map fun value => (k, value)).map
          formPair).foldl
          (fun buf entry => (if buf.length > 0 then buf ++ "&" else buf) ++ entry) buf := by
    intro keys
    induction keys with
    | nil => intro buf; rfl
    | cons k rest ih =>
      intro buf
      simp only [List.foldl_cons, List.flatMap_cons, List.map_append, List.foldl_append]
      rw [ih, encodeKey_eq]
      simp only [List.map_map]
      rfl
  split
  · rename_i hlen
    have hv : v = [] := List.length_eq_zero.mp hlen
    subst hv
    rfl
  · exact hloop _ _


/-! ## The form body of `CreateUser` -/

set_option maxRecDepth 100000 in
theorem sortKeys_createUserKeys :
    ∀ password displayName email groups subadmin quota language : Bool,
      sortKeys (createUserKeys password displayName email groups subadmin quota language) =
        createUserKeysSorted password displayName email groups subadmin quota language := by
  decide

theorem keys_put (m : StringsMap) (key : String) (vs : List String) :
    (StringsMap.put m key vs).map Prod.fst =
      if key ∈ m.map Prod.fst then m.map Prod.fst else m.map Prod.fst ++ [key] := by
  unfold StringsMap.put
  by_cases hany : m.any (fun kv => kv.1 == key) = true
  · have hmem : key ∈ m.map Prod.fst := by
      obtain ⟨kv, hkv, hk⟩ := List.any_eq_true.mp hany
      exact List.mem_map.mpr ⟨kv, hkv, by simpa using hk⟩
    simp only [hany, if_true, hmem, List.map_map]
    apply List.map_congr_left
    intro kv _
    by_cases hk : kv.1 = key <;> simp [hk]
  · have hmem : ¬ key ∈ m.map Prod.fst := by
      intro hmem
      obtain ⟨kv, hkv, hk⟩ := List.mem_map.mp hmem
      exact hany (List.any_eq_true.mpr ⟨kv, hkv, by simp [hk]⟩)
    simp [hany, hmem]

theorem get_absent (m : StringsMap) (key : String) (hkey : ¬ key ∈ m.map Prod.fst) :
    StringsMap.get m key = [] := by
  induction m with
  | nil => rfl
  | cons kv rest ih =>
    have hk : ¬ kv.1 = key := fun h => hkey (by simp [h])
    have hrest : ¬ key ∈ rest.map Prod.fst := fun h => hkey (by simp [h])
    simp [get_cons, hk, ih hrest]

theorem get_foldl_add_same (key : String) (values : List String) (m : Values) :
    StringsMap.get (values.foldl (fun v value => Values.Add v key value) m) key
      = StringsMap.get m key ++ values := by
  induction values generalizing m with
  | nil => simp
  | cons value rest ih =>
    simp only [List.foldl_cons]
    rw [ih, Values.Add, get_put_same, List.append_assoc]
    rfl

theorem get_foldl_add_other (key other : String) (values : List String) (m : Values)
    (hne : other ≠ key) :
    StringsMap.get (values.foldl (fun v value => Values.Add v key value) m) other
      = StringsMap.get m other := by
  induction values generalizing m with
  | nil => rfl
  | cons value rest ih =>
    simp only [List.foldl_cons]
    rw [ih, Values.Add, get_put_other _ _ _ _ hne]

theorem keys_foldl_add (key : String) (values : List String) (m : Values) :
    (values.foldl (fun v value => Values.Add v key value) m).map Prod.fst =
      if values = [] ∨ key ∈ m.map Prod.fst then m.map Prod.fst else m.map Prod.fst ++ [key] := by
  induction values generalizing m with
  | nil => simp
  | cons value rest ih =>
    simp only [List.foldl_cons]
    rw [ih, Values.Add, keys_put]
    by_cases hmem : key ∈ m.map Prod.fst <;> simp [hmem]


theorem hasEntries_first (key value : String) :
    HasEntries (Values.Set [] key value) [key] (fun k => if k = key then [value] else []) := by
  constructor
  · simp [Values.Set, keys_put]
  · intro k
    by_cases hk : k = key
    · simp [hk, Values.Set, get_put_same]
    · simp only [hk, if_false, Values.Set]
      rw [get_put_other _ _ _ _ hk]
      rfl

theorem hasEntries_set_if (v : Values) (keys : List String) (valuesOf : String → List String)
    (c : Prop) [Decidable c] (key value : String) (hv : HasEntries v keys valuesOf)
    (hkey : ¬ key ∈ keys) :
    HasEntries (if c then Values.Set v key value else v) (keys ++ if c then [key] else [])
      (fun k => if k = key then (if c then [value] else []) else valuesOf k) := by
  obtain ⟨hkeys, hget⟩ := hv
  have habsent : ¬ key ∈ v.map Prod.fst := by rw [hkeys]; exact hkey
  by_cases hc : c
  · simp only [hc, if_true]
    constructor
    · rw [Values.Set, keys_put, if_neg habsent, hkeys]
    · intro k
      by_cases hk : k = key
      · simp [hk, Values.Set, get_put_same]
      · simp only [hk, if_false, Values.Set]
        rw [get_put_other _ _ _ _ hk, hget]
  · simp only [hc, if_false, List.append_nil]
    refine ⟨hkeys, ?_⟩
    intro k
    by_cases hk : k = key
    · simp [hk, get_absent v key habsent]
    · simp [hk, hget]

theorem hasEntries_add_if (v : Values) (keys : List String) (valuesOf : String → List String)
    (key : String) (values : List String) (hv : HasEntries v keys valuesOf)
    (hkey : ¬ key ∈ keys) :
    HasEntries
      (if values.length > 0 then values.foldl (fun v value => Values.Add v key value) v else v)
      (keys ++ if values.length > 0 then [key] else [])
      (fun k => if k = key then values else valuesOf k) := by
  obtain ⟨hkeys, hget⟩ := hv
  have habsent : ¬ key ∈ v.map Prod.fst := by rw [hkeys]; exact hkey
  cases values with
  | nil =>
    simp only [List.length_nil, gt_iff_lt, lt_self_iff_false, if_false, List.append_nil]
    refine ⟨hkeys, ?_⟩
    intro k
    by_cases hk : k = key
    · simp [hk, get_absent v key habsent]
    · simp [hk, hget]
  | cons value rest =>
    have hpos : (value :: rest).length > 0 := by simp
    simp only [hpos, if_true]
    constructor
    · rw [keys_foldl_add, hkeys]
      simp [hkey]
    · intro k
      by_cases hk : k = key
      · simp only [hk, if_true]
        rw [get_foldl_add_same, get_absent v key habsent, List.nil_append]
      · simp only [hk, if_false]
        rw [get_foldl_add_other _ _ _ _ hk, hget]

/-- The keys of the `CreateUser` form and the values under each key. -/
theorem createUserBody_entries (userData : UserData) :
    HasEntries (createUserBody userData)
      (createUserKeys (decide (userData.Password ≠ "")) (decide (userData.DisplayName ≠ ""))
        (decide (userData.Email ≠ "")) (decide (userData.GroupIds.length > 0))
        (decide (userData.SubadminGroupIds.length > 0)) (decide (userData.Quota ≠ ""))
        (decide (userData.Language ≠ "")))
      (fun k =>
        if k = "language" then (if userData.Language ≠ "" then [userData.Language] else [])
        else if k = "quota" then (if userData.Quota ≠ "" then [userData.Quota] else [])
        else if k = "subadmin[]" then userData.SubadminGroupIds
        else if k = "groups[]" then userData.GroupIds
        else if k = "email" then (if userData.Email ≠ "" then [userData.Email] else [])
        else if k = "displayName" then
          (if userData.DisplayName ≠ "" then [userData.DisplayName] else [])
        else if k = "password" then (if userData.Password ≠ "" then [userData.Password] else [])
        else if k = "userid" then [userData.UserId]
        else []) := by
  have h1 := hasEntries_first "userid" userData.UserId
  have h2 := hasEntries_set_if _ _ _ (userData.Password ≠ "") "password" userData.Password h1
    (by decide)
  have h3 := hasEntries_set_if _ _ _ (userData.DisplayName ≠ "") "displayName"
    userData.DisplayName h2 (by split <;> decide)
  have h4 := hasEntries_set_if _ _ _ (userData.Email ≠ "") "email" userData.Email h3
    (by split <;> split <;> decide)
  have h5 := hasEntries_add_if _ _ _ "groups[]" userData.GroupIds h4
    (by split <;> split <;> split <;> decide)
  have h6 := hasEntries_add_if _ _ _ "subadmin[]" userData.SubadminGroupIds h5
    (by split <;> split <;> split <;> split <;> decide)
  have h7 := hasEntries_set_if _ _ _ (userData.Quota ≠ "") "quota" userData.Quota h6
    (by split <;> split <;> split <;> split <;> split <;> decide)
  have h8 := hasEntries_set_if _ _ _ (userData.Language ≠ "") "language" userData.Language h7
    (by split <;> split <;> split <;> split <;> split <;> split <;> decide)
  unfold createUserBody
  simp only [createUserKeys, decide_eq_true_eq]
  exact h8


/-- The entries `Encode` writes for the `CreateUser` form are the entries the
specification lists. -/
theorem entries_createUserBody (userData : UserData) :
    Values.entries (createUserBody userData) = createUserPairs userData := by
  obtain ⟨hkeys, hget⟩ := createUserBody_entries userData
  unfold Values.entries
  rw [hkeys, sortKeys_createUserKeys]
  simp only [hget]
  unfold createUserKeysSorted createUserPairs
  have hflat : ∀ (c : Prop) [Decidable c] (key : String) (f : String → List (String × String)),
      (if decide c = true then [key] else []).flatMap f = if c then f key else [] := by
    intro c _ key f
    by_cases hc : c <;> simp [hc]
  have hone : ∀ (c : Prop) [Decidable c] (key value : String),
      (if c then (if c then [value] else []).map (fun v => (key, v)) else [])
        = if c then [(key, value)] else [] := by
    intro c _ key value
    by_cases hc : c <;> simp [hc]
  have hmany : ∀ (values : List String) (key : String),
      (if values.length > 0 then values.map (fun v => (key, v)) else [])
        = values.map fun v => (key, v) := by
    intro values key
    cases values <;> simp
  simp +decide only [List.flatMap_append, hflat, List.flatMap_cons, List.flatMap_nil,
    List.append_nil, if_true, if_false, hone, hmany, List.map_cons, List.map_nil]


theorem createUserPairs_ascending (userData : UserData) :
    ((createUserPairs userData).map Prod.fst).Pairwise
      (fun a b => bytesLE (bytesOf a) (bytesOf b) = true) := by
  have hself : ∀ key : String, bytesLE (bytesOf key) (bytesOf key) = true := by
    intro key
    induction bytesOf key with
    | nil => rfl
    | cons b bs ih => simp [bytesLE, ih]
  have hrep : ∀ (values : List String) (key : String),
      ((values.map fun v => (key, v)).map Prod.fst).Pairwise
        (fun a b => bytesLE (bytesOf a) (bytesOf b) = true) := by
    intro values key
    rw [List.map_map, List.pairwise_map]
    exact List.pairwise_of_forall (fun _ _ => hself key)
  have hmem : ∀ (c : Prop) [Decidable c] (key value a : String),
      a ∈ (if c then [(key, value)] else []).map Prod.fst → a = key := by
    intro c _ key value a ha
    by_cases hc : c <;> simp [hc] at ha
    exact ha
  have hmemrep : ∀ (values : List String) (key a : String),
      a ∈ (values.map fun v => (key, v)).map Prod.fst → a = key := by
    intro values key a ha
    simp only [List.map_map, List.mem_map, Function.comp] at ha
    obtain ⟨_, _, h⟩ := ha
    exact h.symm
  have hopt : ∀ (c : Prop) [Decidable c] (key value : String),
      ((if c then [(key, value)] else []).map Prod.fst).Pairwise
        (fun a b => bytesLE (bytesOf a) (bytesOf b) = true) := by
    intro c _ key value
    by_cases hc : c <;> simp [hc]
  unfold createUserPairs
  simp only [List.map_append, List.pairwise_append, List.mem_append]
  have hle : ∀ (a b first second : String), a = first → b = second →
      bytesLE (bytesOf first) (bytesOf second) = true →
      bytesLE (bytesOf a) (bytesOf b) = true := by
    intro a b first second ha hb hle
    rw [ha, hb]
    exact hle
  refine ⟨⟨⟨⟨⟨⟨⟨hopt _ _ _, hopt _ _ _, ?_⟩, hrep _ _, ?_⟩, hopt _ _ _, ?_⟩, hopt _ _ _, ?_⟩,
    hopt _ _ _, ?_⟩, hrep _ _, ?_⟩, by simp, ?_⟩
  · intro a ha b hb
    exact hle _ _ _ _ (hmem _ _ _ _ ha) (hmem _ _ _ _ hb) (by decide)
  · intro a ha b hb
    rcases ha with ha | ha
    · exact hle _ _ _ _ (hmem _ _ _ _ ha) (hmemrep _ _ _ hb) (by decide)
    · exact hle _ _ _ _ (hmem _ _ _ _ ha) (hmemrep _ _ _ hb) (by decide)
  · intro a ha b hb
    rcases ha with (ha | ha) | ha
    · exact hle _ _ _ _ (hmem _ _ _ _ ha) (hmem _ _ _ _ hb) (by decide)
    · exact hle _ _ _ _ (hmem _ _ _ _ ha) (hmem _ _ _ _ hb) (by decide)
    · exact hle _ _ _ _ (hmemrep _ _ _ ha) (hmem _ _ _ _ hb) (by decide)
  · intro a ha b hb
    rcases ha with ((ha | ha) | ha) | ha
    · exact hle _ _ _ _ (hmem _ _ _ _ ha) (hmem _ _ _ _ hb) (by decide)
    · exact hle _ _ _ _ (hmem _ _ _ _ ha) (hmem _ _ _ _ hb) (by decide)
    · exact hle _ _ _ _ (hmemrep _ _ _ ha) (hmem _ _ _ _ hb) (by decide)
    · exact hle _ _ _ _ (hmem _ _ _ _ ha) (hmem _ _ _ _ hb) (by decide)
  · intro a ha b hb
    rcases ha with (((ha | ha) | ha) | ha) | ha
    · exact hle _ _ _ _ (hmem _ _ _ _ ha) (hmem _ _ _ _ hb) (by decide)
    · exact hle _ _ _ _ (hmem _ _ _ _ ha) (hmem _ _ _ _ hb) (by decide)
    · exact hle _ _ _ _ (hmemrep _ _ _ ha) (hmem _ _ _ _ hb) (by decide)
    · exact hle _ _ _ _ (hmem _ _ _ _ ha) (hmem _ _ _ _ hb) (by decide)
    · exact hle _ _ _ _ (hmem _ _ _ _ ha) (hmem _ _ _ _ hb) (by decide)
  · intro a ha b hb
    rcases ha with ((((ha | ha) | ha) | ha) | ha) | ha
    · exact hle _ _ _ _ (hmem _ _ _ _ ha) (hmemrep _ _ _ hb) (by decide)
    · exact hle _ _ _ _ (hmem _ _ _ _ ha) (hmemrep _ _ _ hb) (by decide)
    · exact hle _ _ _ _ (hmemrep _ _ _ ha) (hmemrep _ _ _ hb) (by decide)
    · exact hle _ _ _ _ (hmem _ _ _ _ ha) (hmemrep _ _ _ hb) (by decide)
    · exact hle _ _ _ _ (hmem _ _ _ _ ha) (hmemrep _ _ _ hb) (by decide)
    · exact hle _ _ _ _ (hmem _ _ _ _ ha) (hmemrep _ _ _ hb) (by decide)
  · intro a ha b hb
    rcases ha with (((((ha | ha) | ha) | ha) | ha) | ha) | ha
    · exact hle _ _ _ _ (hmem _ _ _ _ ha) (by simpa using hb) (by decide)
    · exact hle _ _ _ _ (hmem _ _ _ _ ha) (by simpa using hb) (by decide)
    · exact hle _ _ _ _ (hmemrep _ _ _ ha) (by simpa using hb) (by decide)
    · exact hle _ _ _ _ (hmem _ _ _ _ ha) (by simpa using hb) (by decide)
    · exact hle _ _ _ _ (hmem _ _ _ _ ha) (by simpa using hb) (by decide)
    · exact hle _ _ _ _ (hmem _ _ _ _ ha) (by simpa using hb) (by decide)
    · exact hle _ _ _ _ (hmemrep _ _ _ ha) (by simpa using hb) (by decide)


theorem createUser_valid (c : Client) (lib : Lib) (userData : UserData)
    (hv : userData.Validate.1 = true) :
    c.CreateUser lib userData =
      doSimpleRequest lib c "POST" (c.HostURL ++ "/cloud/users")
        (some (createUserBody userData)) := by
  unfold Client.CreateUser
  rcases hval : userData.Validate with ⟨result, problems⟩
  rw [hval] at hv
  simp only at hv
  subst hv
  rfl

set_option maxRecDepth 100000 in
/-- C18: the body of every request `CreateUser` sends is the `&`-joined list of the
URL-encoded `key=value` entries of the form, with the keys in ascending order and
one `groups[]` or `subadmin[]` entry for each list element in the order of the
list; valid data is sent in one request when the library accepts it and the
client has an `http.Client`; and for the data of the test the body is the text the
test expects. -/
theorem createUser_form_body (userData : UserData) (c : Client) (lib : Lib) :
    (∀ req ∈ (c.CreateUser lib userData).sent,
        req.Body = some (formEncode (createUserPairs userData))) ∧
      ((createUserPairs userData).map Prod.fst).Pairwise
        (fun a b => bytesLE (bytesOf a) (bytesOf b) = true) ∧
      (∀ h, userData.Validate.1 = true → c.HTTPClient = some h →
        (∀ method url, lib.newRequestError method url = none) →
        ∃ req, (c.CreateUser lib userData).sent = [req]) ∧
      formEncode (createUserPairs testUserData) =
        "displayName=John+Doe&email=john.doe%40example.local&groups%5B%5D=employees"
          ++ "&groups%5B%5D=development&language=en&password=johnsPassword&quota=none"
          ++ "&subadmin%5B%5D=employees&subadmin%5B%5D=development"
          ++ "&subadmin%5B%5D=accounting&userid=john.doe" := by
  refine ⟨?_, createUserPairs_ascending userData, ?_, by decide⟩
  · intro req hmem
    obtain ⟨method, url, hreq⟩ := formOp_sent_mem c lib (.CreateUser userData) req hmem
    rw [hreq]
    simp only [FormOp.values, encode_eq_formEncode, entries_createUserBody]
    rfl
  · intro h hv hc hnr
    rw [createUser_valid c lib userData hv, doSimpleRequest_pipeline]
    exact ⟨_, pipeline_sends c lib _ _ _ _ _ _ _ _ _ h hc (hnr _ _)⟩

set_option maxRecDepth 100000 in
theorem createUser_form_body_witness :
    (Client.CreateUser simpleOk.client simpleOk.lib testUserData).sent.map (fun req => req.Body)
      = [some ("displayName=John+Doe&email=john.doe%40example.local&groups%5B%5D=employees"
          ++ "&groups%5B%5D=development&language=en&password=johnsPassword&quota=none"
          ++ "&subadmin%5B%5D=employees&subadmin%5B%5D=development"
          ++ "&subadmin%5B%5D=accounting&userid=john.doe")] := by
  have hw := createUser_form_body testUserData simpleOk.client simpleOk.lib
  obtain ⟨req, hsent⟩ := hw.2.2.1 _ (by decide) rfl (fun _ _ => rfl)
  rw [hsent, List.map_singleton, hw.1 req (by rw [hsent]; exact List.mem_singleton.mpr rfl),
    hw.2.2.2]


/-! ## Reading a form body back -/

theorem utf8Decode_cons (b0 : Nat) (rest : List Nat) :
    utf8Decode (b0 :: rest) =
      if b0 < 0x80 then Char.ofNat b0 :: utf8Decode rest
      else
        match rest with
        | [] => []
        | b1 :: rest1 =>
          if b0 < 0xe0 then Char.ofNat ((b0 - 0xc0) * 64 + (b1 - 0x80)) :: utf8Decode rest1
          else
            match rest1 with
            | [] => []
            | b2 :: rest2 =>
              if b0 < 0xf0 then
                Char.ofNat ((b0 - 0xe0) * 4096 + (b1 - 0x80) * 64 + (b2 - 0x80))
                  :: utf8Decode rest2
              else
                match rest2 with
                | [] => []
                | b3 :: rest3 =>
                  Char.ofNat ((b0 - 0xf0) * 262144 + (b1 - 0x80) * 4096 + (b2 - 0x80) * 64
                    + (b3 - 0x80)) :: utf8Decode rest3 := by
  rw [utf8Decode.eq_def]

theorem char_toNat_lt (c : Char) : c.toNat < 0x110000 := by
  have := c.valid
  simp only [Char.toNat, UInt32.isValidChar, Nat.isValidChar] at *
  omega

/-- Decoding the UTF-8 bytes of a character gives the character back. -/
theorem utf8Decode_encode (c : Char) (rest : List Nat) :
    utf8Decode (utf8EncodeChar c ++ rest) = c :: utf8Decode rest := by
  have hv := char_toNat_lt c
  unfold utf8EncodeChar
  simp only []
  split
  · have h : c.toNat < 0x80 := by omega
    simp only [List.singleton_append, utf8Decode_cons, h, if_true, Char.ofNat_toNat]
  · split
    · have h : ¬ (0xc0 + c.toNat / 64 < 0x80) := by omega
      have h2 : 0xc0 + c.toNat / 64 < 0xe0 := by omega
      have h3 : (0xc0 + c.toNat / 64 - 0xc0) * 64 + (0x80 + c.toNat % 64 - 0x80) = c.toNat := by
        omega
      simp only [List.cons_append, List.nil_append, utf8Decode_cons, h, h2, h3, if_true, if_false,
        Char.ofNat_toNat]
    · split
      · have h : ¬ (0xe0 + c.toNat / 4096 < 0x80) := by omega
        have h1 : ¬ (0xe0 + c.toNat / 4096 < 0xe0) := by omega
        have h2 : 0xe0 + c.toNat / 4096 < 0xf0 := by omega
        have h3 : (0xe0 + c.toNat / 4096 - 0xe0) * 4096 + (0x80 + c.toNat / 64 % 64 - 0x80) * 64
            + (0x80 + c.toNat % 64 - 0x80) = c.toNat := by omega
        simp only [List.cons_append, List.nil_append, utf8Decode_cons, h, h1, h2, h3, if_true,
          if_false, Char.ofNat_toNat]
      · have h : ¬ (0xf0 + c.toNat / 262144 < 0x80) := by omega
        have h1 : ¬ (0xf0 + c.toNat / 262144 < 0xe0) := by omega
        have h2 : ¬ (0xf0 + c.toNat / 262144 < 0xf0) := by omega
        have h3 : (0xf0 + c.toNat / 262144 - 0xf0) * 262144
            + (0x80 + c.toNat / 4096 % 64 - 0x80) * 4096
            + (0x80 + c.toNat / 64 % 64 - 0x80) * 64 + (0x80 + c.toNat % 64 - 0x80)
              = c.toNat := by
          omega
        simp only [List.cons_append, List.nil_append, utf8Decode_cons, h, h1, h2, h3, if_true,
          if_false, Char.ofNat_toNat]

theorem utf8Decode_bytes (chars : List Char) :
    utf8Decode (chars.flatMap utf8EncodeChar) = chars := by
  induction chars with
  | nil => rfl
  | cons c rest ih => rw [List.flatMap_cons, utf8Decode_encode, ih]

theorem utf8EncodeChar_lt (c : Char) : ∀ b ∈ utf8EncodeChar c, b < 256 := by
  have hv := char_toNat_lt c
  intro b hb
  unfold utf8EncodeChar at hb
  simp only [] at hb
  split at hb
  · simp only [List.mem_singleton] at hb
    omega
  · split at hb
    · simp only [List.mem_cons, List.mem_singleton, List.not_mem_nil, or_false] at hb
      omega
    · split at hb
      · simp only [List.mem_cons, List.mem_singleton, List.not_mem_nil, or_false] at hb
        omega
      · simp only [List.mem_cons, List.mem_singleton, List.not_mem_nil, or_false] at hb
        omega

set_option maxRecDepth 100000 in
theorem escape_facts :
    ∀ b < 256,
      (queryUnreserved b = true →
        Char.ofNat b ≠ '%' ∧ Char.ofNat b ≠ '+' ∧ utf8EncodeChar (Char.ofNat b) = [b]) ∧
      hexValue (upperHexDigit (b / 16)) * 16 + hexValue (upperHexDigit (b % 16)) = b ∧
      ∀ c ∈ queryEscapeByte b, c ≠ '&' ∧ c ≠ '=' := by
  decide


theorem queryUnescapeBytes_cons (c : Char) (rest : List Char) :
    queryUnescapeBytes (c :: rest) =
      if c = '%' then
        match rest with
        | high :: low :: rest2 => (hexValue high * 16 + hexValue low) :: queryUnescapeBytes rest2
        | _ => []
      else if c = '+' then 32 :: queryUnescapeBytes rest
      else utf8EncodeChar c ++ queryUnescapeBytes rest := by
  rw [queryUnescapeBytes.eq_def]

/-- Unescaping what `QueryEscape` writes for a byte gives the byte back. -/
theorem unescape_escapeByte (b : Nat) (hb : b < 256) (rest : List Char) :
    queryUnescapeBytes (queryEscapeByte b ++ rest) = b :: queryUnescapeBytes rest := by
  obtain ⟨hplain, hhex, _⟩ := escape_facts b hb
  unfold queryEscapeByte
  split
  · rename_i hun
    obtain ⟨h1, h2, h3⟩ := hplain hun
    simp only [List.singleton_append, queryUnescapeBytes_cons, h1, h2, h3, if_false]
  · split
    · rename_i h32
      have hp : ¬ ('+' = '%') := by decide
      simp only [List.singleton_append, queryUnescapeBytes_cons, hp, if_false, if_true, h32]
    · simp only [List.cons_append, List.nil_append, queryUnescapeBytes_cons, if_true, hhex]

theorem unescape_escape (bytes : List Nat) (hbytes : ∀ b ∈ bytes, b < 256) :
    queryUnescapeBytes (bytes.flatMap queryEscapeByte) = bytes := by
  induction bytes with
  | nil => rfl
  | cons b rest ih =>
    rw [List.flatMap_cons, unescape_escapeByte b (hbytes b (by simp)),
      ih (fun x hx => hbytes x (by simp [hx]))]

theorem bytesOf_lt (s : String) : ∀ b ∈ bytesOf s, b < 256 := by
  intro b hb
  simp only [bytesOf, List.mem_flatMap] at hb
  obtain ⟨c, _, hc⟩ := hb
  exact utf8EncodeChar_lt c b hc

/-- `QueryUnescape` undoes `QueryEscape`. -/
theorem queryUnescape_escape (s : String) : QueryUnescape (QueryEscape s) = s := by
  simp only [QueryUnescape, QueryEscape]
  rw [unescape_escape _ (bytesOf_lt s)]
  simp only [bytesOf, utf8Decode_bytes]

/-- An escaped text holds neither `&` nor `=`. -/
theorem queryEscape_no_separator (s : String) :
    ∀ c ∈ (QueryEscape s).data, c ≠ '&' ∧ c ≠ '=' := by
  intro c hc
  simp only [QueryEscape, List.mem_flatMap] at hc
  obtain ⟨b, hb, hcb⟩ := hc
  exact (escape_facts b (bytesOf_lt s b hb)).2.2 c hcb

theorem splitAll_no_sep (sep : Char) (text : List Char) (htext : sep ∉ text) :
    splitAll sep text = [text] := by
  induction text with
  | nil => rfl
  | cons c rest ih =>
    have hc : ¬ c = sep := fun h => htext (by simp [h])
    have hrest : sep ∉ rest := fun h => htext (by simp [h])
    simp only [splitAll, hc, if_false, ih hrest]

theorem splitAll_append (sep : Char) (first rest : List Char) (hfirst : sep ∉ first) :
    splitAll sep (first ++ sep :: rest) = first :: splitAll sep rest := by
  induction first with
  | nil => simp [splitAll]
  | cons c tail ih =>
    have hc : ¬ c = sep := fun h => hfirst (by simp [h])
    have htail : sep ∉ tail := fun h => hfirst (by simp [h])
    show splitAll sep (c :: (tail ++ sep :: rest)) = _
    rw [splitAll]
    simp only [hc, if_false]
    rw [ih htail]

theorem cutAt_append (sep : Char) (first rest : List Char) (hfirst : sep ∉ first) :
    cutAt sep (first ++ sep :: rest) = (first, rest) := by
  induction first with
  | nil => simp [cutAt]
  | cons c tail ih =>
    have hc : ¬ c = sep := fun h => hfirst (by simp [h])
    have htail : sep ∉ tail := fun h => hfirst (by simp [h])
    show cutAt sep (c :: (tail ++ sep :: rest)) = _
    rw [cutAt]
    simp only [hc, if_false]
    rw [ih htail]


theorem intercalate_go_data (sep acc : String) (entries : List String) :
    (String.intercalate.go acc sep entries).data =
      acc.data ++ entries.flatMap (fun e => sep.data ++ e.data) := by
  induction entries generalizing acc with
  | nil => simp [String.intercalate.go]
  | cons e rest ih =>
    simp only [String.intercalate.go, ih, String.data_append, List.flatMap_cons,
      List.append_assoc]

theorem formPair_data (p : String × String) :
    (formPair p).data = (QueryEscape p.1).data ++ '=' :: (QueryEscape p.2).data := by
  simp only [formPair, String.data_append, List.append_assoc]
  rfl

theorem formPair_no_amp (p : String × String) : '&' ∉ (formPair p).data := by
  rw [formPair_data]
  intro hmem
  rcases List.mem_append.mp hmem with h | h
  · exact (queryEscape_no_separator p.1 _ h).1 rfl
  · rcases List.mem_cons.mp h with h | h
    · exact absurd h (by decide)
    · exact (queryEscape_no_separator p.2 _ h).1 rfl

theorem splitAll_joined (first : List Char) (hfirst : '&' ∉ first)
    (pairs : List (String × String)) :
    splitAll '&' (first ++ pairs.flatMap (fun q => "&".data ++ (formPair q).data))
      = first :: pairs.map (fun q => (formPair q).data) := by
  induction pairs generalizing first with
  | nil => simp [splitAll_no_sep _ _ hfirst]
  | cons q rest ih =>
    have hsep : "&".data = ['&'] := rfl
    simp only [List.flatMap_cons, hsep, List.singleton_append, List.cons_append,
      List.nil_append, List.map_cons]
    rw [splitAll_append _ _ _ hfirst]
    have := ih (formPair q).data (formPair_no_amp q)
    simp only [hsep, List.singleton_append] at this
    rw [this]

/-- The pieces of an encoded form body are its entries. -/
theorem splitAll_formEncode (p : String × String) (pairs : List (String × String)) :
    splitAll '&' (formEncode (p :: pairs)).data = (p :: pairs).map (fun q => (formPair q).data) := by
  simp only [formEncode, List.map_cons, String.intercalate, intercalate_go_data,
    List.flatMap_map]
  exact splitAll_joined _ (formPair_no_amp p) pairs

theorem read_formPair (p : String × String) :
    (if (formPair p).data = [] then none
      else some (QueryUnescape ⟨(cutAt '=' (formPair p).data).1⟩,
        QueryUnescape ⟨(cutAt '=' (formPair p).data).2⟩)) = some p := by
  have hne : ¬ (formPair p).data = [] := by
    rw [formPair_data]
    simp
  have hkey : '=' ∉ (QueryEscape p.1).data :=
    fun h => (queryEscape_no_separator p.1 _ h).2 rfl
  rw [if_neg hne, formPair_data, cutAt_append _ _ _ hkey]
  show some (QueryUnescape (QueryEscape p.1), QueryUnescape (QueryEscape p.2)) = some p
  rw [queryUnescape_escape, queryUnescape_escape]

/-- Reading an encoded form body back gives its entries, in the same order. -/
theorem parseQuery_formEncode (pairs : List (String × String)) :
    parseQuery (formEncode pairs) = pairs := by
  cases pairs with
  | nil => rfl
  | cons p rest =>
    unfold parseQuery
    rw [splitAll_formEncode, List.filterMap_map]
    have hall : ∀ q ∈ p :: rest,
        ((fun part : List Char =>
          if part = [] then none
          else some (QueryUnescape ⟨(cutAt '=' part).1⟩, QueryUnescape ⟨(cutAt '=' part).2⟩)) ∘
          fun q => (formPair q).data) q = some q := by
      intro q _
      exact read_formPair q
    rw [List.filterMap_congr hall]
    simp

/-- The values read back under `groups[]` from a `CreateUser` body are the group
ids of the data. -/
theorem formValues_groups (userData : UserData) :
    formValues (Values.Encode (createUserBody userData)) "groups[]" = userData.GroupIds := by
  rw [encode_eq_formEncode, entries_createUserBody]
  unfold formValues
  rw [parseQuery_formEncode]
  unfold createUserPairs
  have hopt : ∀ (c : Prop) [Decidable c] (key value : String), key ≠ "groups[]" →
      (if c then [(key, value)] else []).filterMap
        (fun p => if p.1 = "groups[]" then some p.2 else none) = [] := by
    intro c _ key value hkey
    by_cases hc : c <;> simp [hc, hkey]
  have hother : ∀ (values : List String) (key : String), key ≠ "groups[]" →
      (values.map fun v => (key, v)).filterMap
        (fun p => if p.1 = "groups[]" then some p.2 else none) = [] := by
    intro values key hkey
    induction values with
    | nil => rfl
    | cons v rest ih => simp [hkey, ih]
  have hsame : ∀ (values : List String),
      (values.map fun v => ("groups[]", v)).filterMap
        (fun p => if p.1 = "groups[]" then some p.2 else none) = values := by
    intro values
    induction values with
    | nil => rfl
    | cons v rest ih => simp [ih]
  simp only [List.filterMap_append, hopt _ _ _ (by decide : "displayName" ≠ "groups[]"),
    hopt _ _ _ (by decide : "email" ≠ "groups[]"),
    hopt _ _ _ (by decide : "language" ≠ "groups[]"),
    hopt _ _ _ (by decide : "password" ≠ "groups[]"),
    hopt _ _ _ (by decide : "quota" ≠ "groups[]"),
    hother _ _ (by decide : "subadmin[]" ≠ "groups[]"), hsame]
  simp


/-! ## Round trip of the group ids -/

/-- C19: the `groups[]` values read back out of the body `CreateUser` sends are the
group ids of the data, in their order; and when `GetUserGroups` is answered with
status 200 and an envelope with status code 100 whose elements at
`data>groups>element` are the values read back, it returns the group ids of the
data. -/
theorem groups_round_trip (userData : UserData) :
    formValues (Values.Encode (createUserBody userData)) "groups[]" = userData.GroupIds ∧
      (∀ (c : Client) (lib : Lib) (req : Request) (text : String),
        req ∈ (c.CreateUser lib userData).sent → req.Body = some text →
        formValues text "groups[]" = userData.GroupIds) ∧
      (∀ (c : Client) (lib : Lib) (userId : String) (h : HTTPClient) (req : Request)
          (body : String) (root : Root) (response : UserGroupsResponse) (m : MetaFragment),
        c.HTTPClient = some h → (c.GetUserGroups lib userId).sent = [req] →
        h.Do req = .response 200 (.ok body) → lib.xmlRoot body = some root →
        lib.UnmarshalUserGroupsResponse body = .ok response → response.RequestMeta = some m →
        m.StatusCode = 100 →
        textsAtPath ["data", "groups", "element"] root.children =
          formValues (Values.Encode (createUserBody userData)) "groups[]" →
        (c.GetUserGroups lib userId).outcome = .returned userData.GroupIds none) := by
  refine ⟨formValues_groups userData, ?_, ?_⟩
  · intro c lib req text hmem hbody
    obtain ⟨method, url, hreq⟩ := formOp_sent_mem c lib (.CreateUser userData) req hmem
    rw [hreq] at hbody
    have htext : text = Values.Encode (createUserBody userData) :=
      (Option.some.inj hbody).symm
    rw [htext]
    exact formValues_groups userData
  · intro c lib userId h req body root response m hc hsent hdo hroot hdec hm hs hecho
    have hdecode : (ListOp.GetUserGroups userId).decode lib body
        = .ok (some m, response.GroupNames) := by
      simp only [ListOp.decode, hdec, Except.map, hm]
    have hout := listOp_outcome (.GetUserGroups userId) c lib h req body m response.GroupNames
      hc hsent hdo hdecode
    have hitems := listOp_decode_items (.GetUserGroups userId) lib body root (some m)
      response.GroupNames hroot hdecode
    simp only [ListOp.call] at hout
    simp only [ListOp.path] at hitems
    rw [hout, hitems, hecho, formValues_groups]
    simp [hs]

theorem groups_round_trip_witness :
    formValues (Values.Encode (createUserBody twoGroupsUser)) "groups[]" = ["a", "b"] ∧
      (Client.GetUserGroups echoListing.client echoListing.lib "john.doe").outcome =
        .returned ["a", "b"] none :=
  ⟨(groups_round_trip twoGroupsUser).1,
   (groups_round_trip twoGroupsUser).2.2 echoListing.client echoListing.lib "john.doe" _ _
      echoListing.body echoListing.document
      ⟨⟨"", "ocs"⟩, some ⟨100, "ok", "", 0, 0⟩, ["a", "b"]⟩ ⟨100, "ok", "", 0, 0⟩
      rfl rfl rfl rfl rfl rfl rfl ((groups_round_trip twoGroupsUser).1.symm)⟩


/-! ## `UpdateUserDetail` (users.go) -/

theorem encode_key_value (attr value : String) :
    Values.Encode (Values.Set (Values.Set [] "key" attr) "value" value) =
      "key=" ++ QueryEscape attr ++ "&value=" ++ QueryEscape value := by
  have hentries : Values.entries (Values.Set (Values.Set [] "key" attr) "value" value)
      = [("key", attr), ("value", value)] := by
    have hsort : sortKeys ["key", "value"] = ["key", "value"] := by decide
    simp [Values.entries, Values.Set, StringsMap.put, hsort, StringsMap.get]
  have hkey : QueryEscape "key" = "key" := by decide
  have hvalue : QueryEscape "value" = "value" := by decide
  rw [encode_eq_formEncode, hentries]
  simp only [formEncode, formPair, List.map_cons, List.map_nil, hkey, hvalue]
  have hamp : ∀ text : String, "&" ++ ("value=" ++ text) = "&value=" ++ text := by
    intro text
    rw [← String.append_assoc]
    rfl
  simp [String.intercalate, String.intercalate.go, String.append_assoc, hamp]

/-- C25: every request `UpdateUserDetail` sends is a PUT to the host URL followed
by `/cloud/users/` and the user id, with the body "key=" ++ the URL-encoded
attribute ++ "&value=" ++ the URL-encoded value; one request is sent when the
library accepts it and the client has an `http.Client`; for the attribute `email`
and the value `johnny.doe@example.local` the body is
"key=email&value=johnny.doe%40example.local"; and when the request is answered with
status 200 and an envelope with status code 100 the call returns `(true, nil)`,
with status code 103 it returns `false` and an error naming 103. -/
theorem updateUserDetail_request_and_result (c : Client) (lib : Lib)
    (userId attr value : String) :
    (∀ req ∈ (c.UpdateUserDetail lib userId attr value).sent,
        req.Method = "PUT" ∧ req.URL = c.HostURL ++ "/cloud/users/" ++ userId ∧
          req.Body = some ("key=" ++ QueryEscape attr ++ "&value=" ++ QueryEscape value)) ∧
      (∀ h, c.HTTPClient = some h →
        lib.newRequestError "PUT" (c.HostURL ++ "/cloud/users/" ++ userId) = none →
        ∃ req, (c.UpdateUserDetail lib userId attr value).sent = [req]) ∧
      ("key=" ++ QueryEscape "email" ++ "&value=" ++ QueryEscape "johnny.doe@example.local"
        = "key=email&value=johnny.doe%40example.local") ∧
      (∀ h req body response m, c.HTTPClient = some h →
        (c.UpdateUserDetail lib userId attr value).sent = [req] →
        h.Do req = .response 200 (.ok body) →
        lib.UnmarshalSimpleResponse body = .ok response → response.RequestMeta = some m →
        (m.StatusCode = 100 →
          (c.UpdateUserDetail lib userId attr value).outcome = .returned true none) ∧
        (m.StatusCode = 103 →
          (c.UpdateUserDetail lib userId attr value).outcome =
            .returned false
              (some (.errorsNew "Api returned a status code 103 indicating failure")))) := by
  refine ⟨?_, ?_, by decide, ?_⟩
  · intro req hmem
    rw [updateUserDetail_pipeline] at hmem
    obtain ⟨r, hr, hreq⟩ := pipeline_sent_mem c lib _ _ _ _ _ _ _ _ _ req hmem
    rw [newRequest_ok lib _ _ _ r hr] at hreq
    rw [hreq, encode_key_value]
    exact ⟨rfl, rfl, rfl⟩
  · intro h hc hnr
    rw [updateUserDetail_pipeline]
    exact ⟨_, pipeline_sends c lib _ _ _ _ _ _ _ _ _ h hc hnr⟩
  · intro h req body response m hc hsent hdo hdec hm
    rw [updateUserDetail_pipeline] at hsent ⊢
    rw [pipeline_outcome c lib _ _ _ _ _ _ _ _ _ h req hc hsent, hdo]
    constructor
    · intro hs
      simp [interpret, hdec, hm, hs, StatusSuccess]
    · intro hs
      simp only [interpret, hdec, hm, hs, StatusSuccess, ne_eq, not_true_eq_false, if_false]
      rfl

set_option maxRecDepth 100000 in
theorem updateUserDetail_request_and_result_witness :
    (Client.UpdateUserDetail simpleOk.client simpleOk.lib "john.doe" "email"
        "johnny.doe@example.local").sent.map (fun req => (req.Method, req.URL, req.Body))
      = [("PUT", "http://example.local/ocs/v1.php/cloud/users/john.doe",
          some "key=email&value=johnny.doe%40example.local")] ∧
      (Client.UpdateUserDetail simpleOk.client simpleOk.lib "john.doe" "email"
        "johnny.doe@example.local").outcome = .returned true none ∧
      (Client.UpdateUserDetail badQuotaValue.client badQuotaValue.lib "john.doe" "quota"
        "lizard").outcome =
        .returned false (some (.errorsNew "Api returned a status code 103 indicating failure")) := by
  have hw := updateUserDetail_request_and_result simpleOk.client simpleOk.lib "john.doe" "email"
    "johnny.doe@example.local"
  have hb := updateUserDetail_request_and_result badQuotaValue.client badQuotaValue.lib
    "john.doe" "quota" "lizard"
  obtain ⟨req, hsent⟩ := hw.2.1 _ rfl rfl
  have hreq := hw.1 req (by rw [hsent]; exact List.mem_singleton.mpr rfl)
  refine ⟨?_, ?_, ?_⟩
  · rw [hsent, List.map_singleton, hreq.1, hreq.2.1, hreq.2.2, hw.2.2.1]
    rfl
  · exact (hw.2.2.2 _ req simpleOk.body ⟨⟨"", "ocs"⟩, some ⟨100, "ok", "", 0, 0⟩⟩
      ⟨100, "ok", "", 0, 0⟩ rfl hsent rfl rfl rfl).1 rfl
  · obtain ⟨req2, hsent2⟩ := hb.2.1 _ rfl rfl
    exact (hb.2.2.2 _ req2 badQuotaValue.body
      ⟨⟨"", "ocs"⟩, some ⟨103, "failure", "Invalid quota value lizard", 0, 0⟩⟩
      ⟨103, "failure", "Invalid quota value lizard", 0, 0⟩ rfl hsent2 rfl rfl rfl).2 rfl


/-! ## The payload path of each list operation -/

theorem mem_textsAtPath_direct (nodes : List Node) (text : String) :
    text ∈ textsAtPath ["data", "element"] nodes ↔
      ∃ kids entry, Node.element "data" kids ∈ nodes ∧ Node.element "element" entry ∈ kids ∧
        charDataOf entry = text := by
  simp only [textsAtPath, List.mem_flatMap, List.mem_map, mem_childrenNamed]
  constructor
  · rintro ⟨kids, hkids, entry, hentry, htext⟩
    exact ⟨kids, entry, hkids, hentry, htext⟩
  · rintro ⟨kids, entry, hkids, hentry, htext⟩
    exact ⟨kids, hkids, entry, hentry, htext⟩

theorem mem_textsAtPath_nested (name : String) (nodes : List Node) (text : String) :
    text ∈ textsAtPath ["data", name, "element"] nodes ↔
      ∃ kids inner entry, Node.element "data" kids ∈ nodes ∧ Node.element name inner ∈ kids ∧
        Node.element "element" entry ∈ inner ∧ charDataOf entry = text := by
  simp only [textsAtPath, List.mem_flatMap, List.mem_map, mem_childrenNamed]
  constructor
  · rintro ⟨kids, hkids, inner, hinner, entry, hentry, htext⟩
    exact ⟨kids, inner, entry, hkids, hinner, hentry, htext⟩
  · rintro ⟨kids, inner, entry, hkids, hinner, hentry, htext⟩
    exact ⟨kids, hkids, inner, hinner, entry, hentry, htext⟩

/-- C26: a list operation whose request is answered with status 200 and an
envelope with status code 100 returns exactly the texts of the elements at its own
path under the root, in document order: `data>element` for `GetGroupSubadmins` and
`GetSubadminGroups`, `data>users>element` for `GetGroupMembers` and `GetUsers`,
`data>groups>element` for `GetGroups` and `GetUserGroups`.  A text is at
`data>element` exactly when it is the text of an `element` lying directly in a
`data` element of the root, and at `data>users>element` exactly when it is the
text of an `element` lying directly in a `users` element of such a `data`
element: an element anywhere else adds nothing to the result. -/
theorem list_payload_paths (op : ListOp) (c : Client) (lib : Lib) (h : HTTPClient)
    (req : Request) (body : String) (root : Root) (m : MetaFragment) (L : List String)
    (hc : c.HTTPClient = some h) (hsent : (op.call c lib).sent = [req])
    (hdo : h.Do req = .response 200 (.ok body)) (hroot : lib.xmlRoot body = some root)
    (hdec : op.decode lib body = .ok (some m, L)) (hs : m.StatusCode = 100) :
    (match op with
    | .GetGroupSubadmins _ | .GetSubadminGroups _ =>
      (op.call c lib).outcome = .returned (textsAtPath ["data", "element"] root.children) none
    | .GetGroupMembers _ | .GetUsers =>
      (op.call c lib).outcome =
        .returned (textsAtPath ["data", "users", "element"] root.children) none
    | .GetGroups | .GetUserGroups _ =>
      (op.call c lib).outcome =
        .returned (textsAtPath ["data", "groups", "element"] root.children) none) ∧
      (∀ text, text ∈ textsAtPath ["data", "element"] root.children ↔
        ∃ kids entry, Node.element "data" kids ∈ root.children ∧
          Node.element "element" entry ∈ kids ∧ charDataOf entry = text) ∧
      (∀ text, text ∈ textsAtPath ["data", "users", "element"] root.children ↔
        ∃ kids inner entry, Node.element "data" kids ∈ root.children ∧
          Node.element "users" inner ∈ kids ∧ Node.element "element" entry ∈ inner ∧
          charDataOf entry = text) := by
  refine ⟨?_, mem_textsAtPath_direct _, mem_textsAtPath_nested "users" _⟩
  have hout : (op.call c lib).outcome = .returned (textsAtPath op.path root.children) none := by
    rw [listOp_outcome op c lib h req body m L hc hsent hdo hdec,
      listOp_decode_items op lib body root (some m) L hroot hdec]
    simp [hs]
  cases op <;> exact hout

set_option maxRecDepth 100000 in
theorem list_payload_paths_witness :
    (Client.GetSubadminGroups mixedPaths.client mixedPaths.lib "john.doe").outcome =
        .returned ["direct"] none ∧
      (Client.GetGroupSubadmins mixedPaths.client mixedPaths.lib "admin").outcome =
        .returned ["direct"] none ∧
      (Client.GetUsers mixedPaths.client mixedPaths.lib).outcome =
        .returned ["john.doe", "jane.doe"] none ∧
      (Client.GetGroupMembers mixedPaths.client mixedPaths.lib "admin").outcome =
        .returned ["john.doe", "jane.doe"] none :=
  ⟨(list_payload_paths (.GetSubadminGroups "john.doe") mixedPaths.client mixedPaths.lib _ _
      mixedPaths.body mixedPaths.document ⟨100, "ok", "", 0, 0⟩ ["direct"]
      rfl rfl rfl rfl rfl rfl).1,
   (list_payload_paths (.GetGroupSubadmins "admin") mixedPaths.client mixedPaths.lib _ _
      mixedPaths.body mixedPaths.document ⟨100, "ok", "", 0, 0⟩ ["direct"]
      rfl rfl rfl rfl rfl rfl).1,
   (list_payload_paths .GetUsers mixedPaths.client mixedPaths.lib _ _
      mixedPaths.body mixedPaths.document ⟨100, "ok", "", 0, 0⟩ ["john.doe", "jane.doe"]
      rfl rfl rfl rfl rfl rfl).1,
   (list_payload_paths (.GetGroupMembers "admin") mixedPaths.client mixedPaths.lib _ _
      mixedPaths.body mixedPaths.document ⟨100, "ok", "", 0, 0⟩ ["john.doe", "jane.doe"]
      rfl rfl rfl rfl rfl rfl).1⟩


/-! ## Identifiers in the request path -/

/-- The requests the shared steps hand to the transport depend only on the
request that was built. -/
theorem pipeline_sent {ρ α : Type} (c : Client) (lib : Lib) (method url : String)
    (body : Option String) (addHeaders : Request → Request) (decode : String → Except Err ρ)
    (metaOf : ρ → Option MetaFragment) (zero : α) (failure : MetaFragment → Err)
    (finish : ρ → α × Option Err) :
    (pipeline c lib method url body addHeaders decode metaOf zero failure finish).sent =
      match lib.NewRequest method url body with
      | .error _ => []
      | .ok req => (c.doRequest (addHeaders req)).sent := by
  unfold pipeline
  cases lib.NewRequest method url body with
  | error e => rfl
  | ok r =>
    simp only
    split
    · rfl
    · rfl
    · split
      · rfl
      · split
        · rfl
        · split <;> rfl

/-- A request the shared steps send has the method and the URL given to
`http.NewRequest`, when adding the body headers changes neither. -/
theorem pipeline_sent_wire {ρ α : Type} (c : Client) (lib : Lib) (method url : String)
    (body : Option String) (addHeaders : Request → Request) (decode : String → Except Err ρ)
    (metaOf : ρ → Option MetaFragment) (zero : α) (failure : MetaFragment → Err)
    (finish : ρ → α × Option Err) (req : Request)
    (hkeep : ∀ r, (addHeaders r).Method = r.Method ∧ (addHeaders r).URL = r.URL)
    (hmem : req ∈
      (pipeline c lib method url body addHeaders decode metaOf zero failure finish).sent) :
    req.Method = method ∧ req.URL = url := by
  obtain ⟨r, hr, hreq⟩ := pipeline_sent_mem c lib _ _ _ _ _ _ _ _ _ req hmem
  have hr2 := newRequest_ok lib _ _ _ r hr
  rw [hreq, (outgoing_keeps c _).1, (outgoing_keeps c _).2.1, (hkeep r).1, (hkeep r).2, hr2]
  exact ⟨rfl, rfl⟩

/-- C28: the user id is put into the URL as it is, so `GetUserDetails` with the id
`u ++ "/groups"` hands the transport the same requests as `GetUserGroups` with the
id `u`, and with `u ++ "/subadmins"` the same as `GetSubadminGroups` with `u`: a
GET to the host URL followed by `/cloud/users/`, `u` and `/groups` or
`/subadmins`; that request is sent when the library accepts it and the client has
an `http.Client`. -/
theorem identifiers_interpolated_verbatim (c : Client) (lib : Lib) (u : String) :
    (c.GetUserDetails lib (u ++ "/groups")).sent = (c.GetUserGroups lib u).sent ∧
      (c.GetUserDetails lib (u ++ "/subadmins")).sent = (c.GetSubadminGroups lib u).sent ∧
      (∀ req ∈ (c.GetUserDetails lib (u ++ "/groups")).sent,
        req.Method = "GET" ∧ req.URL = c.HostURL ++ "/cloud/users/" ++ u ++ "/groups") ∧
      (∀ req ∈ (c.GetUserDetails lib (u ++ "/subadmins")).sent,
        req.Method = "GET" ∧ req.URL = c.HostURL ++ "/cloud/users/" ++ u ++ "/subadmins") ∧
      (∀ h suffix, c.HTTPClient = some h →
        lib.newRequestError "GET" (c.HostURL ++ "/cloud/users/" ++ (u ++ suffix)) = none →
        ∃ req, (c.GetUserDetails lib (u ++ suffix)).sent = [req]) := by
  have hgroups : c.HostURL ++ "/cloud/users/" ++ (u ++ "/groups")
      = c.HostURL ++ "/cloud/users/" ++ u ++ "/groups" := by
    simp only [String.append_assoc]
  have hsub : c.HostURL ++ "/cloud/users/" ++ (u ++ "/subadmins")
      = c.HostURL ++ "/cloud/users/" ++ u ++ "/subadmins" := by
    simp only [String.append_assoc]
  have h1 : (c.GetUserDetails lib (u ++ "/groups")).sent = (c.GetUserGroups lib u).sent := by
    rw [getUserDetails_pipeline, pipeline_sent, hgroups]
    have := listOp_pipeline c lib (.GetUserGroups u)
    simp only [ListOp.call, ListOp.url] at this
    rw [this, pipeline_sent]
  have h2 : (c.GetUserDetails lib (u ++ "/subadmins")).sent = (c.GetSubadminGroups lib u).sent := by
    rw [getUserDetails_pipeline, pipeline_sent, hsub]
    have := listOp_pipeline c lib (.GetSubadminGroups u)
    simp only [ListOp.call, ListOp.url] at this
    rw [this, pipeline_sent]
  refine ⟨h1, h2, ?_, ?_, ?_⟩
  · intro req hmem
    rw [getUserDetails_pipeline] at hmem
    rw [← hgroups]
    exact pipeline_sent_wire c lib _ _ _ _ _ _ _ _ _ req (fun _ => ⟨rfl, rfl⟩) hmem
  · intro req hmem
    rw [getUserDetails_pipeline] at hmem
    rw [← hsub]
    exact pipeline_sent_wire c lib _ _ _ _ _ _ _ _ _ req (fun _ => ⟨rfl, rfl⟩) hmem
  · intro h suffix hc hnr
    rw [getUserDetails_pipeline]
    exact ⟨_, pipeline_sends c lib _ _ _ _ _ _ _ _ _ h hc hnr⟩

theorem identifiers_interpolated_verbatim_witness :
    (Client.GetUserDetails simpleOk.client simpleOk.lib "john.doe/groups").sent.map
        (fun req => (req.Method, req.URL))
      = [("GET", "http://example.local/ocs/v1.php/cloud/users/john.doe/groups")] ∧
    (Client.GetUserGroups simpleOk.client simpleOk.lib "john.doe").sent.map
        (fun req => (req.Method, req.URL))
      = [("GET", "http://example.local/ocs/v1.php/cloud/users/john.doe/groups")] := by
  have hw := identifiers_interpolated_verbatim simpleOk.client simpleOk.lib "john.doe"
  obtain ⟨req, hsent⟩ := hw.2.2.2.2 _ "/groups" rfl rfl
  have hsent2 : (Client.GetUserDetails simpleOk.client simpleOk.lib "john.doe/groups").sent
      = [req] := hsent
  have hreq := hw.2.2.1 req (by rw [hsent]; exact List.mem_singleton.mpr rfl)
  have hsame : (Client.GetUserGroups simpleOk.client simpleOk.lib "john.doe").sent = [req] := by
    rw [← hw.1]
    exact hsent
  rw [hsent2, hsame, List.map_singleton, hreq.1, hreq.2]
  exact ⟨rfl, rfl⟩


/-! ## The status check of `GetGroup` comes before its scan -/

theorem apiFailure_ne_notFound (code : Int) (groupId : String) :
    apiFailure code ≠ .errorsNew ("No group with the id " ++ groupId ++ " was found") := by
  intro h
  simp only [apiFailure, Err.errorsNew.injEq] at h
  have := congrArg (fun s => s.data.head?) h
  simp [String.data_append] at this

/-- C30: when the request of `GetGroup` is answered with status 200 and an envelope
whose status code `s` is not 100, the call returns the empty string and the error
"Api returned a status code s indicating failure", whatever the decoded group names
are: it returns neither `(groupId, nil)` nor the not-found error, also when the
names contain `groupId`. -/
theorem getGroup_status_before_scan (c : Client) (lib : Lib) (groupId : String) (h : HTTPClient)
    (req : Request) (body : String) (response : GetGroupsResponse) (m : MetaFragment)
    (hc : c.HTTPClient = some h) (hsent : (c.GetGroup lib groupId).sent = [req])
    (hdo : h.Do req = .response 200 (.ok body))
    (hdec : lib.UnmarshalGetGroupsResponse body = .ok response)
    (hm : response.RequestMeta = some m) (hs : m.StatusCode ≠ 100) :
    (c.GetGroup lib groupId).outcome =
        .returned ""
          (some (.errorsNew
            ("Api returned a status code " ++ fmtInt m.StatusCode ++ " indicating failure"))) ∧
      (c.GetGroup lib groupId).outcome ≠ .returned groupId none ∧
      (c.GetGroup lib groupId).outcome ≠
        .returned "" (some (.errorsNew ("No group with the id " ++ groupId ++ " was found"))) := by
  have hout : (c.GetGroup lib groupId).outcome = .returned "" (some (apiFailure m.StatusCode)) := by
    rw [getGroup_pipeline] at hsent ⊢
    rw [pipeline_outcome c lib _ _ _ _ _ _ _ _ _ h req hc hsent, hdo]
    simp [interpret, hdec, hm, hs, StatusSuccess]
  refine ⟨hout, ?_, ?_⟩
  · rw [hout]
    intro hr
    cases hr
  · rw [hout]
    intro hr
    simp only [Outcome.returned.injEq, Option.some.injEq, true_and] at hr
    exact apiFailure_ne_notFound _ _ hr

theorem getGroup_status_before_scan_witness :
    failedSearch.lib.UnmarshalGetGroupsResponse failedSearch.body =
        .ok ⟨⟨"", "ocs"⟩, some ⟨998, "failure", "", 0, 0⟩, ["admin"]⟩ ∧
      (Client.GetGroup failedSearch.client failedSearch.lib "admin").outcome =
        .returned "" (some (.errorsNew "Api returned a status code 998 indicating failure")) :=
  ⟨rfl,
   (getGroup_status_before_scan failedSearch.client failedSearch.lib "admin" _ _
      failedSearch.body ⟨⟨"", "ocs"⟩, some ⟨998, "failure", "", 0, 0⟩, ["admin"]⟩
      ⟨998, "failure", "", 0, 0⟩ rfl rfl rfl rfl rfl (by decide)).1⟩


/-! ## Method and path of every operation -/

/-- Every operation other than the five without a form body, with arguments that
validate, is the shared steps run with its method, its URL, its decoder and its
failure text; the body headers leave method and URL as they are, and a result
that comes with an error is the zero value. -/
theorem operation_wire (op : Operation) (c : Client) (lib : Lib) (hbody : op.bodyless = false)
    (hvalid : op.validates = true) :
    ∃ (ρ α : Type) (f : α → Value) (body : Option String) (addHeaders : Request → Request)
      (decode : String → Except Err ρ) (metaOf : ρ → Option MetaFragment) (zero : α)
      (finish : ρ → α × Option Err),
      (f zero).isZero = true ∧
        (∀ r, (addHeaders r).Method = r.Method ∧ (addHeaders r).URL = r.URL) ∧
        (∀ b, (decode b).map metaOf = op.decodeMeta lib b) ∧
        (∀ r, (finish r).2 ≠ none → (f (finish r).1).isZero = true) ∧
        op.call c lib =
          (pipeline c lib op.method (c.HostURL ++ op.path) body addHeaders decode metaOf zero
            op.failure finish).wrap f := by
  have mapMap : ∀ {ρ : Type} (x : Except Err ρ) (g : ρ → Option MetaFragment × List String)
      (k : ρ → Option MetaFragment), (∀ r, (g r).1 = k r) →
      (x.map g).map Prod.fst = x.map k := by
    intro ρ x g k hk
    cases x with
    | error e => rfl
    | ok r => simp [Except.map, hk]
  have listKey : ∀ lop : ListOp, op.call c lib = (lop.call c lib).wrap .names →
      op.method = "GET" → lop.url c = c.HostURL ++ op.path → op.viaSimpleRequest = false →
      (∀ b, (lop.decode lib b).map Prod.fst = op.decodeMeta lib b) →
      ∃ (ρ α : Type) (f : α → Value) (body : Option String) (addHeaders : Request → Request)
        (decode : String → Except Err ρ) (metaOf : ρ → Option MetaFragment) (zero : α)
        (finish : ρ → α × Option Err),
        (f zero).isZero = true ∧
          (∀ r, (addHeaders r).Method = r.Method ∧ (addHeaders r).URL = r.URL) ∧
          (∀ b, (decode b).map metaOf = op.decodeMeta lib b) ∧
          (∀ r, (finish r).2 ≠ none → (f (finish r).1).isZero = true) ∧
          op.call c lib =
            (pipeline c lib op.method (c.HostURL ++ op.path) body addHeaders decode metaOf zero
              op.failure finish).wrap f := by
    intro lop hcall hmethod hurl hvia hmeta
    have hfail : op.failure = fun m => apiFailure m.StatusCode := by
      funext m
      simp [Operation.failure, hvia]
    rw [listOp_pipeline, hurl, ← hmethod, ← hfail] at hcall
    refine ⟨_, _, Value.names, _, _, _, _, _, _, ?_, ?_, hmeta, ?_, hcall⟩
    · rfl
    · exact fun _ => ⟨rfl, rfl⟩
    · intro r hr
      exact absurd rfl hr
  have simpleKey : ∀ (method endpoint : String) (values : Values),
      op.call c lib = (doSimpleRequest lib c method endpoint (some values)).wrap .success →
      op.method = method → endpoint = c.HostURL ++ op.path → op.viaSimpleRequest = true →
      (∀ b, (lib.UnmarshalSimpleResponse b).map (fun r => r.RequestMeta)
        = op.decodeMeta lib b) →
      ∃ (ρ α : Type) (f : α → Value) (body : Option String) (addHeaders : Request → Request)
        (decode : String → Except Err ρ) (metaOf : ρ → Option MetaFragment) (zero : α)
        (finish : ρ → α × Option Err),
        (f zero).isZero = true ∧
          (∀ r, (addHeaders r).Method = r.Method ∧ (addHeaders r).URL = r.URL) ∧
          (∀ b, (decode b).map metaOf = op.decodeMeta lib b) ∧
          (∀ r, (finish r).2 ≠ none → (f (finish r).1).isZero = true) ∧
          op.call c lib =
            (pipeline c lib op.method (c.HostURL ++ op.path) body addHeaders decode metaOf zero
              op.failure finish).wrap f := by
    intro method endpoint values hcall hmethod hurl hvia hmeta
    have hfail : op.failure = simpleFailure := by
      funext m
      simp [Operation.failure, hvia]
    rw [doSimpleRequest_pipeline, hurl, ← hmethod, ← hfail] at hcall
    refine ⟨_, _, Value.success, _, _, _, _, _, _, ?_, ?_, hmeta, ?_, hcall⟩
    · rfl
    · exact fun _ => ⟨rfl, rfl⟩
    · intro r hr
      exact absurd rfl hr
  cases op with
  | GetUsers => exact listKey .GetUsers rfl rfl rfl rfl fun b => mapMap _ _ _ fun _ => rfl
  | GetGroups => exact listKey .GetGroups rfl rfl rfl rfl fun b => mapMap _ _ _ fun _ => rfl
  | GetUserGroups userId =>
    exact listKey (.GetUserGroups userId) rfl rfl
      (by simp only [ListOp.url, Operation.path, String.append_assoc]) rfl
      fun b => mapMap _ _ _ fun _ => rfl
  | GetSubadminGroups userId =>
    exact listKey (.GetSubadminGroups userId) rfl rfl
      (by simp only [ListOp.url, Operation.path, String.append_assoc]) rfl
      fun b => mapMap _ _ _ fun _ => rfl
  | GetGroupMembers groupId =>
    exact listKey (.GetGroupMembers groupId) rfl rfl
      (by simp only [ListOp.url, Operation.path, String.append_assoc]) rfl
      fun b => mapMap _ _ _ fun _ => rfl
  | GetGroupSubadmins groupId =>
    exact listKey (.GetGroupSubadmins groupId) rfl rfl
      (by simp only [ListOp.url, Operation.path, String.append_assoc]) rfl
      fun b => mapMap _ _ _ fun _ => rfl
  | GetGroup groupId =>
    have hcall := congrArg (Call.wrap Value.group) (getGroup_pipeline c lib groupId)
    rw [show c.HostURL ++ "/cloud/groups?search=" ++ groupId
      = c.HostURL ++ Operation.path (.GetGroup groupId) by
        simp only [Operation.path, String.append_assoc]] at hcall
    refine ⟨_, _, _, _, _, _, _, _, _, ?_, ?_, fun _ => rfl, ?_, hcall⟩
    · rfl
    · exact fun _ => ⟨rfl, rfl⟩
    · intro r hr
      simp only [findGroup] at hr ⊢
      split at hr
      · exact absurd rfl hr
      · rfl
  | GetUserDetails userId =>
    have hcall := congrArg (Call.wrap Value.details) (getUserDetails_pipeline c lib userId)
    rw [show c.HostURL ++ "/cloud/users/" ++ userId
      = c.HostURL ++ Operation.path (.GetUserDetails userId) by
        simp only [Operation.path, String.append_assoc]] at hcall
    refine ⟨_, _, _, _, _, _, _, _, _, ?_, ?_, fun _ => rfl, ?_, hcall⟩
    · rfl
    · exact fun _ => ⟨rfl, rfl⟩
    · intro r hr
      exact absurd rfl hr
  | UpdateUserDetail userId attr value =>
    have hcall := congrArg (Call.wrap Value.success)
      (updateUserDetail_pipeline c lib userId attr value)
    rw [show c.HostURL ++ "/cloud/users/" ++ userId
      = c.HostURL ++ Operation.path (.UpdateUserDetail userId attr value) by
        simp only [Operation.path, String.append_assoc]] at hcall
    refine ⟨_, _, _, _, _, _, _, _, _, ?_, ?_, fun _ => rfl, ?_, hcall⟩
    · rfl
    · exact fun _ => ⟨rfl, rfl⟩
    · intro r hr
      exact absurd rfl hr
  | CreateGroup groupId => exact simpleKey _ _ _ rfl rfl rfl rfl fun _ => rfl
  | AddUserToGroup userId groupId =>
    exact simpleKey _ _ _ rfl rfl (by simp only [Operation.path, String.append_assoc]) rfl
      fun _ => rfl
  | RemoveUserFromGroup userId groupId =>
    exact simpleKey _ _ _ rfl rfl (by simp only [Operation.path, String.append_assoc]) rfl
      fun _ => rfl
  | PromoteToSubadmin userId groupId =>
    exact simpleKey _ _ _ rfl rfl (by simp only [Operation.path, String.append_assoc]) rfl
      fun _ => rfl
  | DemoteFromSubadmin userId groupId =>
    exact simpleKey _ _ _ rfl rfl (by simp only [Operation.path, String.append_assoc]) rfl
      fun _ => rfl
  | CreateUser userData =>
    apply simpleKey "POST" (c.HostURL ++ "/cloud/users") (createUserBody userData) _ rfl rfl rfl
      fun _ => rfl
    simp only [Operation.call, createUser_valid c lib userData hvalid]
  | DisableUser userId => cases hbody
  | EnableUser userId => cases hbody
  | DeleteUser userId => cases hbody
  | ResendWelcomeMail userId => cases hbody
  | DeleteGroup groupId => cases hbody

/-- An operation without a form body, or with data that does not validate, hands
nothing to the transport. -/
theorem operation_sends_nothing (op : Operation) (c : Client) (lib : Lib)
    (h : op.bodyless = true ∨ op.validates = false) : (op.call c lib).sent = [] := by
  cases op with
  | CreateUser userData =>
    rcases h with h | h
    · cases h
    · simp only [Operation.call, Call.wrap, createUser_invalid c lib userData h]
  | DisableUser userId => rfl
  | EnableUser userId => rfl
  | DeleteUser userId => rfl
  | ResendWelcomeMail userId => rfl
  | DeleteGroup groupId => rfl
  | _ => rcases h with h | h <;> cases h

/-- C24, as the code behaves: a client built by `NewClient` has the base URL
`host ++ "/ocs/v1.php"`; every request an operation hands to the transport has the
method of the operation and the base URL followed by the path of the operation;
an operation with a form body or a nil body reader whose arguments validate sends
one such request when the library accepts it and the client has an `http.Client`.
`DisableUser`, `EnableUser`, `DeleteUser`, `ResendWelcomeMail` and `DeleteGroup`
build no request at all: for every client and library they hand nothing to the
transport and end in a nil dereference, so no PUT to `/enable` or `/disable`, no
POST to `/welcome` and no DELETE of a user or a group is ever sent. -/
theorem operations_use_wire_protocol (op : Operation) (c : Client) (lib : Lib) :
    (∀ transport host username password,
        (NewClient transport host username password).HostURL = host ++ "/ocs/v1.php") ∧
      (∀ req ∈ (op.call c lib).sent,
        req.Method = op.method ∧ req.URL = c.HostURL ++ op.path) ∧
      (∀ h, c.HTTPClient = some h → op.bodyless = false → op.validates = true →
        lib.newRequestError op.method (c.HostURL ++ op.path) = none →
        ∃ req, (op.call c lib).sent = [req]) ∧
      (op.bodyless = true →
        (op.call c lib).sent = [] ∧ (op.call c lib).outcome = .panicked .nilDereference) := by
  refine ⟨fun _ _ _ _ => rfl, ?_, ?_, ?_⟩
  · intro req hmem
    by_cases hbody : op.bodyless = false
    · by_cases hvalid : op.validates = true
      · obtain ⟨ρ, α, f, body, addHeaders, decode, metaOf, zero, finish, _, hkeep, _, _, hcall⟩ :=
          operation_wire op c lib hbody hvalid
        rw [hcall] at hmem
        simp only [Call.wrap] at hmem
        exact pipeline_sent_wire c lib _ _ _ _ _ _ _ _ _ req hkeep hmem
      · rw [operation_sends_nothing op c lib (.inr (by simpa using hvalid))] at hmem
        cases hmem
    · rw [operation_sends_nothing op c lib (.inl (by simpa using hbody))] at hmem
      cases hmem
  · intro h hc hbody hvalid hnr
    obtain ⟨ρ, α, f, body, addHeaders, decode, metaOf, zero, finish, _, hkeep, _, _, hcall⟩ :=
      operation_wire op c lib hbody hvalid
    rw [hcall]
    simp only [Call.wrap]
    exact ⟨_, pipeline_sends c lib _ _ _ _ _ _ _ _ _ h hc hnr⟩
  · intro hbody
    cases op <;> simp [Operation.bodyless] at hbody <;> exact ⟨rfl, rfl⟩

theorem operations_use_wire_protocol_witness :
    (Operation.call simpleOk.client simpleOk.lib
        (.RemoveUserFromGroup "john.doe" "employees")).sent.map
        (fun req => (req.Method, req.URL))
      = [("DELETE", "http://example.local/ocs/v1.php/cloud/users/john.doe/groups")] ∧
      (Operation.call simpleOk.client simpleOk.lib (.EnableUser "john.doe")).sent = [] ∧
      (Operation.call simpleOk.client simpleOk.lib (.EnableUser "john.doe")).outcome =
        .panicked .nilDereference := by
  have hw := operations_use_wire_protocol (.RemoveUserFromGroup "john.doe" "employees")
    simpleOk.client simpleOk.lib
  obtain ⟨req, hsent⟩ := hw.2.2.1 _ rfl rfl rfl rfl
  have hreq := hw.2.1 req (by rw [hsent]; exact List.mem_singleton.mpr rfl)
  refine ⟨?_, (operations_use_wire_protocol (.EnableUser "john.doe") simpleOk.client
    simpleOk.lib).2.2.2 rfl⟩
  rw [hsent, List.map_singleton, hreq.1, hreq.2]
  rfl


/-! ## The keys of the `CreateUser` form -/

theorem createUserPairs_keys (userData : UserData) (key : String) :
    key ∈ (createUserPairs userData).map Prod.fst ↔
      key = "userid" ∨ (key = "password" ∧ userData.Password ≠ "") ∨
        (key = "displayName" ∧ userData.DisplayName ≠ "") ∨
        (key = "email" ∧ userData.Email ≠ "") ∨ (key = "quota" ∧ userData.Quota ≠ "") ∨
        (key = "language" ∧ userData.Language ≠ "") ∨
        (key = "groups[]" ∧ userData.GroupIds ≠ []) ∨
        (key = "subadmin[]" ∧ userData.SubadminGroupIds ≠ []) := by
  have hopt : ∀ (c : Prop) [Decidable c] (name value : String),
      key ∈ (if c then [(name, value)] else []).map Prod.fst ↔ key = name ∧ c := by
    intro c _ name value
    by_cases hc : c <;> simp [hc]
  have hrep : ∀ (values : List String) (name : String),
      key ∈ (values.map fun v => (name, v)).map Prod.fst ↔ key = name ∧ values ≠ [] := by
    intro values name
    cases values with
    | nil => simp
    | cons v rest =>
      simp only [List.map_map, List.mem_map, Function.comp, ne_eq, reduceCtorEq,
        not_false_eq_true, and_true]
      constructor
      · rintro ⟨_, _, h⟩
        exact h.symm
      · intro h
        exact ⟨v, List.mem_cons_self _ _, h.symm⟩
  unfold createUserPairs
  simp only [List.map_append, List.mem_append, hopt, hrep, List.map_cons, List.map_nil,
    List.mem_singleton]
  tauto

theorem createUserPairs_userid (userData : UserData) :
    (createUserPairs userData).filterMap (fun p => if p.1 = "userid" then some p.2 else none)
      = [userData.UserId] := by
  have hopt : ∀ (c : Prop) [Decidable c] (name value : String), name ≠ "userid" →
      (if c then [(name, value)] else []).filterMap
        (fun p => if p.1 = "userid" then some p.2 else none) = [] := by
    intro c _ name value hname
    by_cases hc : c <;> simp [hc, hname]
  have hrep : ∀ (values : List String) (name : String), name ≠ "userid" →
      (values.map fun v => (name, v)).filterMap
        (fun p => if p.1 = "userid" then some p.2 else none) = [] := by
    intro values name hname
    induction values with
    | nil => rfl
    | cons v rest ih => simp [hname]
  unfold createUserPairs
  simp only [List.filterMap_append, hopt _ _ _ (by decide : "displayName" ≠ "userid"),
    hopt _ _ _ (by decide : "email" ≠ "userid"), hopt _ _ _ (by decide : "language" ≠ "userid"),
    hopt _ _ _ (by decide : "password" ≠ "userid"), hopt _ _ _ (by decide : "quota" ≠ "userid"),
    hrep _ _ (by decide : "groups[]" ≠ "userid"), hrep _ _ (by decide : "subadmin[]" ≠ "userid"),
    List.nil_append]
  simp

/-- C27: the body of every request `CreateUser` sends, read back as a form, holds
under `userid` the one value `UserId`, and its keys are `userid` and exactly those
of `password`, `displayName`, `email`, `quota`, `language`, `groups[]` and
`subadmin[]` whose field is not empty; valid data is sent in one request when the
library accepts it and the client has an `http.Client`. -/
theorem createUser_form_keys (userData : UserData) (c : Client) (lib : Lib) :
    (∀ req ∈ (c.CreateUser lib userData).sent,
        ∃ text, req.Body = some text ∧ formValues text "userid" = [userData.UserId] ∧
          ∀ key, key ∈ (parseQuery text).map Prod.fst ↔
            key = "userid" ∨ (key = "password" ∧ userData.Password ≠ "") ∨
              (key = "displayName" ∧ userData.DisplayName ≠ "") ∨
              (key = "email" ∧ userData.Email ≠ "") ∨ (key = "quota" ∧ userData.Quota ≠ "") ∨
              (key = "language" ∧ userData.Language ≠ "") ∨
              (key = "groups[]" ∧ userData.GroupIds ≠ []) ∨
              (key = "subadmin[]" ∧ userData.SubadminGroupIds ≠ [])) ∧
      (∀ h, userData.Validate.1 = true → c.HTTPClient = some h →
        lib.newRequestError "POST" (c.HostURL ++ "/cloud/users") = none →
        ∃ req, (c.CreateUser lib userData).sent = [req]) := by
  constructor
  · intro req hmem
    obtain ⟨method, url, hreq⟩ := formOp_sent_mem c lib (.CreateUser userData) req hmem
    have hread : parseQuery (Values.Encode (createUserBody userData))
        = createUserPairs userData := by
      rw [encode_eq_formEncode, entries_createUserBody, parseQuery_formEncode]
    refine ⟨Values.Encode (createUserBody userData), ?_, ?_, ?_⟩
    · rw [hreq]
      rfl
    · rw [formValues, hread]
      exact createUserPairs_userid userData
    · intro key
      rw [hread]
      exact createUserPairs_keys userData key
  · intro h hv hc hnr
    rw [createUser_valid c lib userData hv, doSimpleRequest_pipeline]
    exact ⟨_, pipeline_sends c lib _ _ _ _ _ _ _ _ _ h hc hnr⟩

set_option maxRecDepth 100000 in
theorem createUser_form_keys_witness :
    ∃ req text,
      (Client.CreateUser simpleOk.client simpleOk.lib mailOnlyUserData).sent = [req] ∧
        req.Body = some text ∧ formValues text "userid" = ["john.doe"] ∧
        ∀ key, key ∈ (parseQuery text).map Prod.fst ↔ key = "userid" ∨ key = "email" := by
  have hw := createUser_form_keys mailOnlyUserData simpleOk.client simpleOk.lib
  obtain ⟨req, hsent⟩ := hw.2 _ (by decide) rfl rfl
  obtain ⟨text, hbody, huser, hkeys⟩ :=
    hw.1 req (by rw [hsent]; exact List.mem_singleton.mpr rfl)
  refine ⟨req, text, hsent, hbody, huser, ?_⟩
  intro key
  rw [hkeys key]
  simp [mailOnlyUserData]


/-! ## Folds with a step that can fail -/

theorem foldlM_invariant {σ β : Type} (f : σ → β → Option σ) (P : σ → Prop) (l : List β)
    (hstep : ∀ x ∈ l, ∀ s s2, P s → f s x = some s2 → P s2) :
    ∀ s r, P s → l.foldlM f s = some r → P r := by
  induction l with
  | nil =>
    intro s r hs hr
    simp only [List.foldlM_nil, pure, Option.some.injEq] at hr
    rw [← hr]
    exact hs
  | cons x xs ih =>
    intro s r hs hr
    simp only [List.foldlM_cons, bind, Option.bind_eq_some] at hr
    obtain ⟨mid, hmid, hrest⟩ := hr
    exact ih (fun y hy => hstep y (List.mem_cons_of_mem _ hy)) mid r
      (hstep x (List.mem_cons_self _ _) s mid hs hmid) hrest

theorem foldlM_some_of_steps {σ β : Type} (f : σ → β → Option σ) (l : List β)
    (hstep : ∀ x ∈ l, ∀ s, ∃ s2, f s x = some s2) : ∀ s, ∃ r, l.foldlM f s = some r := by
  induction l with
  | nil => exact fun s => ⟨s, rfl⟩
  | cons x xs ih =>
    intro s
    obtain ⟨mid, hmid⟩ := hstep x (List.mem_cons_self _ _) s
    obtain ⟨r, hr⟩ := ih (fun y hy => hstep y (List.mem_cons_of_mem _ hy)) mid
    exact ⟨r, by simp only [List.foldlM_cons, bind, hmid, Option.some_bind, hr]⟩

/-! ## The meta record of a decoded document -/

theorem copyInt_empty : copyInt "" = some 0 := rfl

/-- A property of the meta record that the zero record has and that decoding the
children of each `meta` element keeps holds of the meta record of a decoded list
response. -/
theorem listFields_meta_invariant (P : MetaFragment → Prop) (path : List String)
    (nodes : List Node) (hzero : P MetaFragment.zero)
    (hstep : ∀ kids, Node.element "meta" kids ∈ nodes → ∀ m0 m, P m0 →
      kids.foldlM MetaFragment.unmarshalChild m0 = some m → P m) :
    ∀ init r, (∀ m, init.RequestMeta = some m → P m) →
      nodes.foldlM (ListFields.unmarshalChild path) init = some r →
      ∀ m, r.RequestMeta = some m → P m := by
  apply foldlM_invariant (ListFields.unmarshalChild path)
    (fun r => ∀ m, r.RequestMeta = some m → P m) nodes
  intro x hx s s2 hs hs2
  cases x with
  | charData t =>
    simp only [ListFields.unmarshalChild, Option.some.injEq] at hs2
    rw [← hs2]
    exact hs
  | element name children =>
    simp only [ListFields.unmarshalChild] at hs2
    by_cases hname : name = "meta"
    · simp only [hname, if_true, unmarshalMeta, Option.map_map, Option.map_eq_some',
        Function.comp] at hs2
      obtain ⟨m1, hfold, hs2⟩ := hs2
      rw [← hs2]
      intro m hm
      simp only [Option.some.injEq] at hm
      rw [← hm]
      refine hstep children (by rw [← hname]; exact hx) _ m1 ?_ hfold
      cases hmeta : s.RequestMeta with
      | none => exact hzero
      | some m0 => exact hs m0 hmeta
    · simp only [hname, if_false, Option.some.injEq] at hs2
      rw [← hs2]
      exact hs

theorem ite_some_cases {α : Type} (c : Prop) [Decidable c] (a b : Option α) (P : α → Prop)
    (ha : ∀ x, a = some x → P x) (hb : ∀ x, b = some x → P x) :
    ∀ x, (if c then a else b) = some x → P x := by
  intro x hx
  by_cases hc : c
  · rw [if_pos hc] at hx
    exact ha x hx
  · rw [if_neg hc] at hx
    exact hb x hx

theorem some_cases {α : Type} (a : α) (P : α → Prop) (ha : P a) :
    ∀ x, some a = some x → P x := by
  intro x hx
  cases hx
  exact ha

theorem map_cases {α β : Type} (f : β → α) (o : Option β) (P : α → Prop) (hf : ∀ v, P (f v)) :
    ∀ x, o.map f = some x → P x := by
  intro x hx
  simp only [Option.map_eq_some'] at hx
  obtain ⟨v, _, hv⟩ := hx
  rw [← hv]
  exact hf v

theorem unmarshalDataChild_keeps_meta (lib : Lib) (r : UserDetailsResponse) (n : Node) :
    ∀ r2, UserDetailsResponse.unmarshalDataChild lib r n = some r2 →
      r2.RequestMeta = r.RequestMeta := by
  cases n with
  | charData t => exact some_cases _ _ rfl
  | element name children =>
    simp only [UserDetailsResponse.unmarshalDataChild]
    repeat' first
      | exact some_cases _ _ rfl
      | exact map_cases _ _ _ (fun _ => rfl)
      | refine ite_some_cases _ _ _
          (fun x : UserDetailsResponse => x.RequestMeta = r.RequestMeta) ?_ ?_

/-- The same for the meta record of a decoded `UserDetailsResponse`. -/
theorem userDetails_meta_invariant (lib : Lib) (P : MetaFragment → Prop) (nodes : List Node)
    (hzero : P MetaFragment.zero)
    (hstep : ∀ kids, Node.element "meta" kids ∈ nodes → ∀ m0 m, P m0 →
      kids.foldlM MetaFragment.unmarshalChild m0 = some m → P m) :
    ∀ init r, (∀ m, init.RequestMeta = some m → P m) →
      nodes.foldlM (UserDetailsResponse.unmarshalChild lib) init = some r →
      ∀ m, r.RequestMeta = some m → P m := by
  apply foldlM_invariant (UserDetailsResponse.unmarshalChild lib)
    (fun r => ∀ m, r.RequestMeta = some m → P m) nodes
  intro x hx s s2 hs hs2
  cases x with
  | charData t =>
    simp only [UserDetailsResponse.unmarshalChild, Option.some.injEq] at hs2
    rw [← hs2]
    exact hs
  | element name children =>
    simp only [UserDetailsResponse.unmarshalChild] at hs2
    by_cases hname : name = "meta"
    · simp only [hname, if_true, unmarshalMeta, Option.map_map, Option.map_eq_some',
        Function.comp] at hs2
      obtain ⟨m1, hfold, hs2⟩ := hs2
      rw [← hs2]
      intro m hm
      simp only [Option.some.injEq] at hm
      rw [← hm]
      refine hstep children (by rw [← hname]; exact hx) _ m1 ?_ hfold
      cases hmeta : s.RequestMeta with
      | none => exact hzero
      | some m0 => exact hs m0 hmeta
    · simp only [hname, if_false] at hs2
      by_cases hdata : name = "data"
      · simp only [hdata, if_true] at hs2
        have hkeep : s2.RequestMeta = s.RequestMeta :=
          foldlM_invariant (UserDetailsResponse.unmarshalDataChild lib)
            (fun r => r.RequestMeta = s.RequestMeta) children
            (fun y _ a b ha hb => by
              show b.RequestMeta = s.RequestMeta
              rw [unmarshalDataChild_keeps_meta lib a y b hb]
              exact ha)
            s s2 rfl hs2
        intro m hm
        exact hs m (by rw [← hkeep]; exact hm)
      · simp only [hdata, if_false] at hs2
        by_cases hsub : name = "subadmin"
        · rw [if_pos hsub] at hs2
          cases hs2
          exact hs
        · rw [if_neg hsub] at hs2
          cases hs2
          exact hs

/-- The meta record an operation decodes has every property that the zero record
has and that decoding the children of each `meta` element of the document keeps. -/
theorem decodeMeta_invariant (op : Operation) (lib : Lib) (body : String) (root : Root)
    (P : MetaFragment → Prop) (hroot : lib.xmlRoot body = some root)
    (hzero : P MetaFragment.zero)
    (hstep : ∀ kids, Node.element "meta" kids ∈ root.children → ∀ m0 m, P m0 →
      kids.foldlM MetaFragment.unmarshalChild m0 = some m → P m)
    (m : MetaFragment) (hdec : op.decodeMeta lib body = .ok (some m)) : P m := by
  have listKey : ∀ (target : String) (path : List String) (r : Name × ListFields),
      lib.unmarshalList target path body = .ok r → r.2.RequestMeta = some m → P m := by
    intro target path r hr hm
    simp only [Lib.unmarshalList, hroot] at hr
    split at hr
    · cases hr
    · cases hfold : root.children.foldlM (ListFields.unmarshalChild path) ⟨none, []⟩ with
      | none => simp [hfold] at hr
      | some fields =>
        simp only [hfold, Except.ok.injEq] at hr
        rw [← hr] at hm
        exact listFields_meta_invariant P path root.children hzero hstep ⟨none, []⟩ fields
          (fun _ h => by cases h) hfold m hm
  have detailsKey : ∀ r, lib.UnmarshalUserDetailsResponse body = .ok r →
      r.RequestMeta = some m → P m := by
    intro r hr hm
    simp only [Lib.UnmarshalUserDetailsResponse, hroot] at hr
    split at hr
    · cases hr
    · cases hfold : root.children.foldlM (UserDetailsResponse.unmarshalChild lib)
          { UserDetailsResponse.zero with XMLName := root.Name } with
      | none => simp [hfold] at hr
      | some fields =>
        simp only [hfold, Except.ok.injEq] at hr
        rw [← hr] at hm
        exact userDetails_meta_invariant lib P root.children hzero hstep _ fields
          (fun _ h => by cases h) hfold m hm
  cases op with
  | GetUserDetails userId =>
    simp only [Operation.decodeMeta] at hdec
    cases hu : lib.UnmarshalUserDetailsResponse body with
    | error e => simp [hu, Except.map] at hdec
    | ok r =>
      simp only [hu, Except.map, Except.ok.injEq] at hdec
      exact detailsKey r hu hdec
  | _ =>
    simp only [Operation.decodeMeta, Lib.UnmarshalGetUsersResponse,
      Lib.UnmarshalGetGroupsResponse, Lib.UnmarshalUserGroupsResponse,
      Lib.UnmarshalUserSubadminGroupsResponse, Lib.UnmarshalGetGroupMembersResponse,
      Lib.UnmarshalGetGroupSubadminsResponse, Lib.UnmarshalSimpleResponse] at hdec
    generalize hu : lib.unmarshalList _ _ body = u at hdec
    cases u with
    | error e => cases hdec
    | ok r =>
      simp only [Except.map, Except.ok.injEq] at hdec
      exact listKey _ _ r hu hdec

theorem operation_bodyless_call (op : Operation) (c : Client) (lib : Lib)
    (h : op.bodyless = true) : op.call c lib = ⟨[], .panicked .nilDereference⟩ := by
  cases op <;> simp [Operation.bodyless] at h <;> rfl

/-- An error of the interpreted answer comes with the zero value or with the
value the last step of the operation returns next to it. -/
theorem interpret_error {ρ α : Type} (decode : String → Except Err ρ)
    (metaOf : ρ → Option MetaFragment) (zero : α) (failure : MetaFragment → Err)
    (finish : ρ → α × Option Err) (r : DoResult) (v : α) (e : Err)
    (hr : interpret decode metaOf zero failure finish r = .returned v (some e)) :
    v = zero ∨ ∃ response, v = (finish response).1 ∧ (finish response).2 = some e := by
  unfold interpret at hr
  split at hr
  · cases hr
    exact .inl rfl
  · cases hr
    exact .inl rfl
  · split at hr
    · cases hr
      exact .inl rfl
    · split at hr
      · cases hr
        exact .inl rfl
      · rename_i response _
        split at hr
        · cases hr
        · split at hr
          · cases hr
            exact .inl rfl
          · simp only [Outcome.returned.injEq] at hr
            exact .inr ⟨response, hr.1.symm, hr.2⟩

/-- The ways an operation can go: a nil dereference before anything is sent, an
error with the zero value before anything is sent, or one request whose answer is
interpreted. -/
theorem operation_outcome_cases (op : Operation) (c : Client) (lib : Lib) :
    op.call c lib = ⟨[], .panicked .nilDereference⟩ ∨
      (∃ v e, v.isZero = true ∧ op.call c lib = ⟨[], .returned v (some e)⟩) ∨
      ∃ (h : HTTPClient) (req : Request) (ρ α : Type) (f : α → Value)
        (decode : String → Except Err ρ) (metaOf : ρ → Option MetaFragment) (zero : α)
        (finish : ρ → α × Option Err),
        c.HTTPClient = some h ∧ (f zero).isZero = true ∧
          (∀ b, (decode b).map metaOf = op.decodeMeta lib b) ∧
          (∀ r, (finish r).2 ≠ none → (f (finish r).1).isZero = true) ∧
          op.call c lib =
            Call.wrap f ⟨[req], interpret decode metaOf zero op.failure finish (h.Do req)⟩ := by
  by_cases hbody : op.bodyless = true
  · exact .inl (operation_bodyless_call op c lib hbody)
  · by_cases hvalid : op.validates = true
    · obtain ⟨ρ, α, f, body, addHeaders, decode, metaOf, zero, finish, hz, _, hmeta, hfinish,
        hcall⟩ := operation_wire op c lib (by simpa using hbody) hvalid
      rcases pipeline_cases c lib op.method (c.HostURL ++ op.path) body addHeaders decode metaOf
          zero op.failure finish with ⟨e, hp⟩ | ⟨_, hp⟩ | ⟨h, req, hc, hsent, hout⟩
      · right
        left
        rw [hcall, hp]
        exact ⟨f zero, e, hz, rfl⟩
      · left
        rw [hcall, hp]
        rfl
      · right
        right
        refine ⟨h, req, ρ, α, f, decode, metaOf, zero, finish, hc, hz, hmeta, hfinish, ?_⟩
        rw [hcall]
        simp only [Call.wrap, hsent, hout]
    · right
      left
      cases op with
      | CreateUser userData =>
        have hv : userData.Validate.1 = false := by simpa [Operation.validates] using hvalid
        exact ⟨.success false, .errorsNew (stringsJoin userData.Validate.2 "\n"), rfl,
          by simp only [Operation.call, Call.wrap, createUser_invalid c lib userData hv]⟩
      | _ => exact absurd rfl hvalid

/-- C23: an operation never returns an error next to a value other than the zero
value of its result type, and it hands at most one request to the transport.  It
stops at the first step that fails: when `http.NewRequest` rejects the request,
nothing is sent and its error is returned; when the request was sent, an error of
the transport, an error reading the body, a status other than 200, an error of
the decoder and a status code other than 100 are each returned with the zero
value, in this order of precedence. -/
theorem no_partial_results (op : Operation) (c : Client) (lib : Lib) :
    (∀ v e, (op.call c lib).outcome = .returned v (some e) → v.isZero = true) ∧
      (op.call c lib).sent.length ≤ 1 ∧
      (∀ msg, op.bodyless = false → op.validates = true →
        lib.newRequestError op.method (c.HostURL ++ op.path) = some msg →
        (op.call c lib).sent = [] ∧
          ∃ v, v.isZero = true ∧
            (op.call c lib).outcome = .returned v (some (.library .newRequest msg))) ∧
      (∀ h req, c.HTTPClient = some h → (op.call c lib).sent = [req] →
        (∀ msg, h.Do req = .error msg →
          ∃ v, v.isZero = true ∧
            (op.call c lib).outcome = .returned v (some (.library .clientDo msg))) ∧
        (∀ n msg, h.Do req = .response n (.error msg) →
          ∃ v, v.isZero = true ∧
            (op.call c lib).outcome = .returned v (some (.library .readAll msg))) ∧
        (∀ n body, h.Do req = .response n (.ok body) → n ≠ 200 →
          ∃ v, v.isZero = true ∧
            (op.call c lib).outcome =
              .returned v (some (.fmtErrorf ("status: " ++ fmtInt n ++ ", body: " ++ body)))) ∧
        (∀ body e, h.Do req = .response 200 (.ok body) → op.decodeMeta lib body = .error e →
          ∃ v, v.isZero = true ∧ (op.call c lib).outcome = .returned v (some e)) ∧
        (∀ body m, h.Do req = .response 200 (.ok body) →
          op.decodeMeta lib body = .ok (some m) → m.StatusCode ≠ 100 →
          ∃ v, v.isZero = true ∧
            (op.call c lib).outcome = .returned v (some (op.failure m)))) := by
  refine ⟨?_, ?_, ?_, ?_⟩
  · intro v e hr
    rcases operation_outcome_cases op c lib with hp | ⟨v0, e0, hz, hp⟩ |
      ⟨h, req, ρ, α, f, decode, metaOf, zero, finish, _, hz, _, hfinish, hcall⟩
    · rw [hp] at hr
      cases hr
    · rw [hp] at hr
      cases hr
      exact hz
    · rw [hcall] at hr
      simp only [Call.wrap] at hr
      cases hi : interpret decode metaOf zero op.failure finish (h.Do req) with
      | panicked p =>
        rw [hi] at hr
        cases hr
      | returned v0 e0 =>
        rw [hi] at hr
        simp only [Outcome.returned.injEq] at hr
        rw [hr.2] at hi
        rw [← hr.1]
        rcases interpret_error _ _ _ _ _ _ v0 e hi with hv | ⟨response, hv, he⟩
        · rw [hv]
          exact hz
        · rw [hv]
          exact hfinish response (by rw [he]; exact Option.some_ne_none e)
  · rcases operation_outcome_cases op c lib with hp | ⟨v0, e0, hz, hp⟩ |
      ⟨h, req, ρ, α, f, decode, metaOf, zero, finish, _, _, _, _, hcall⟩
    · rw [hp]
      exact Nat.zero_le _
    · rw [hp]
      exact Nat.zero_le _
    · rw [hcall]
      exact Nat.le_refl _
  · intro msg hbody hvalid hnr
    obtain ⟨ρ, α, f, body, addHeaders, decode, metaOf, zero, finish, hz, _, _, _, hcall⟩ :=
      operation_wire op c lib hbody hvalid
    have hp : pipeline c lib op.method (c.HostURL ++ op.path) body addHeaders decode metaOf zero
        op.failure finish = ⟨[], .returned zero (some (.library .newRequest msg))⟩ := by
      simp only [pipeline, Lib.NewRequest, hnr]
    rw [hcall, hp]
    exact ⟨rfl, f zero, hz, rfl⟩
  · intro h2 req2 hc2 hsent2
    rcases operation_outcome_cases op c lib with hp | ⟨v0, e0, hz, hp⟩ |
      ⟨h, req, ρ, α, f, decode, metaOf, zero, finish, hc, hz, hmeta, _, hcall⟩
    · rw [hp] at hsent2
      cases hsent2
    · rw [hp] at hsent2
      cases hsent2
    · have hh : h2 = h := by
        rw [hc] at hc2
        exact (Option.some.inj hc2).symm
      have hreq : req2 = req := by
        rw [hcall] at hsent2
        exact (List.head_eq_of_cons_eq hsent2).symm
      subst hh hreq
      rw [hcall]
      simp only [Call.wrap]
      refine ⟨?_, ?_, ?_, ?_, ?_⟩
      · intro msg hdo
        rw [hdo]
        exact ⟨f zero, hz, rfl⟩
      · intro n msg hdo
        rw [hdo]
        exact ⟨f zero, hz, rfl⟩
      · intro n body hdo hn
        rw [hdo]
        refine ⟨f zero, hz, ?_⟩
        simp only [interpret, hn, ne_eq, not_false_eq_true, if_true]
      · intro body e hdo hdec
        rw [hdo]
        refine ⟨f zero, hz, ?_⟩
        rw [← hmeta] at hdec
        cases hd : decode body with
        | error e2 =>
          rw [hd] at hdec
          simp only [Except.map, Except.error.injEq] at hdec
          simp only [interpret, ne_eq, not_true_eq_false, if_false, hd, hdec]
        | ok r =>
          rw [hd] at hdec
          cases hdec
      · intro body m hdo hdec hs
        rw [hdo]
        refine ⟨f zero, hz, ?_⟩
        rw [← hmeta] at hdec
        cases hd : decode body with
        | error e2 =>
          rw [hd] at hdec
          cases hdec
        | ok r =>
          rw [hd] at hdec
          simp only [Except.map, Except.ok.injEq] at hdec
          simp [interpret, hd, hdec, hs, StatusSuccess]

theorem no_partial_results_witness :
    (Operation.call simpleOk.client rejectingLib (.GetUserDetails "john.doe")).sent = [] ∧
      (∃ v, v.isZero = true ∧
        (Operation.call simpleOk.client rejectingLib (.GetUserDetails "john.doe")).outcome =
          .returned v (some (.library .newRequest "net/http: invalid method"))) ∧
      ∃ v, v.isZero = true ∧
        (Operation.call unknownUser.client unknownUser.lib (.GetGroup "admin")).outcome =
          .returned v (some (.errorsNew "Api returned a status code 998 indicating failure")) :=
  ⟨((no_partial_results (.GetUserDetails "john.doe") simpleOk.client rejectingLib).2.2.1
      "net/http: invalid method" rfl rfl rfl).1,
   ((no_partial_results (.GetUserDetails "john.doe") simpleOk.client rejectingLib).2.2.1
      "net/http: invalid method" rfl rfl rfl).2,
   ((no_partial_results (.GetGroup "admin") unknownUser.client unknownUser.lib).2.2.2
      _ _ rfl rfl).2.2.2.2 unknownUser.body ⟨998, "failure", "", 0, 0⟩ rfl rfl (by decide)⟩


/-! ## Fields that are absent or empty -/

theorem copyInt_converts (text : String) (h : intConverts text) : ∃ v, copyInt text = some v := by
  unfold copyInt
  by_cases hlen : byteLen text = 0
  · exact ⟨0, by rw [if_pos hlen]⟩
  · rcases h with hempty | ⟨v, hv⟩
    · rw [hempty] at hlen
      exact absurd rfl hlen
    · exact ⟨v, by rw [if_neg hlen, hv]⟩

theorem copyBool_converts (text : String) (h : boolConverts text) :
    ∃ v, copyBool text = some v := by
  unfold copyBool
  by_cases hlen : byteLen text = 0
  · exact ⟨false, by rw [if_pos hlen]⟩
  · rcases h with hempty | ⟨v, hv⟩
    · rw [hempty] at hlen
      exact absurd rfl hlen
    · exact ⟨v, by rw [if_neg hlen, hv]⟩

theorem copyFloat32_converts (lib : Lib) (text : String) (h : lib.floatConverts text) :
    ∃ v, lib.copyFloat32 text = some v := by
  unfold Lib.copyFloat32
  by_cases hlen : byteLen text = 0
  · exact ⟨⟨0⟩, by rw [if_pos hlen]⟩
  · rcases h with hempty | ⟨v, hv⟩
    · rw [hempty] at hlen
      exact absurd rfl hlen
    · exact ⟨v, by rw [if_neg hlen, hv]⟩

theorem ite_some {α : Type} (c : Prop) [Decidable c] (a b : Option α)
    (ha : c → ∃ x, a = some x) (hb : ¬ c → ∃ x, b = some x) :
    ∃ x, (if c then a else b) = some x := by
  by_cases hc : c
  · rw [if_pos hc]
    exact ha hc
  · rw [if_neg hc]
    exact hb hc

theorem map_some {α β : Type} (f : β → α) (o : Option β) (h : ∃ v, o = some v) :
    ∃ x, o.map f = some x := by
  obtain ⟨v, hv⟩ := h
  exact ⟨f v, by rw [hv]; rfl⟩

/-- Decoding the children of a `meta` element succeeds when every integer field
among them converts. -/
theorem unmarshalMeta_some (kids : List Node)
    (hconv : ∀ name cs, Node.element name cs ∈ kids →
      name = "statuscode" ∨ name = "totalitems" ∨ name = "itemsperpage" →
      intConverts (charDataOf cs))
    (RequestMeta : Option MetaFragment) : ∃ m, unmarshalMeta RequestMeta kids = some m := by
  have hfold := foldlM_some_of_steps MetaFragment.unmarshalChild kids (by
    intro x hx s
    cases x with
    | charData t => exact ⟨s, rfl⟩
    | element name cs =>
      simp only [MetaFragment.unmarshalChild]
      refine ite_some _ _ _ (fun hname => map_some _ _
        (copyInt_converts _ (hconv name cs hx (.inl hname)))) (fun _ => ?_)
      refine ite_some _ _ _ (fun _ => ⟨_, rfl⟩) (fun _ => ?_)
      refine ite_some _ _ _ (fun _ => ⟨_, rfl⟩) (fun _ => ?_)
      refine ite_some _ _ _ (fun hname => map_some _ _
        (copyInt_converts _ (hconv name cs hx (.inr (.inl hname))))) (fun _ => ?_)
      refine ite_some _ _ _ (fun hname => map_some _ _
        (copyInt_converts _ (hconv name cs hx (.inr (.inr hname))))) (fun _ => ?_)
      exact ⟨_, rfl⟩) (RequestMeta.getD MetaFragment.zero)
  obtain ⟨m, hm⟩ := hfold
  exact ⟨some m, by simp only [unmarshalMeta, hm, Option.map_some']⟩

/-- The list responses and `SimpleResponse` decode every document with the root
`ocs` whose meta sections convert. -/
theorem unmarshalList_ok (lib : Lib) (target : String) (path : List String) (body : String)
    (root : Root) (hroot : lib.xmlRoot body = some root) (hocs : root.Name.Local = "ocs")
    (hmeta : metaConverts root) : ∃ r, lib.unmarshalList target path body = .ok r := by
  obtain ⟨fields, hfields⟩ := foldlM_some_of_steps (ListFields.unmarshalChild path)
    root.children (by
      intro x hx s
      cases x with
      | charData t => exact ⟨s, rfl⟩
      | element name kids =>
        simp only [ListFields.unmarshalChild]
        refine ite_some _ _ _ (fun hname => map_some _ _
          (unmarshalMeta_some kids (fun n cs hcs hn => hmeta kids n cs (by rw [← hname]; exact hx)
            hcs hn) _)) (fun _ => ⟨_, rfl⟩)) ⟨none, []⟩
  exact ⟨(root.Name, fields), by
    simp only [Lib.unmarshalList, hroot, hocs, ne_eq, not_true_eq_false, if_false, hfields]⟩

theorem meta_message_empty (kids : List Node)
    (hempty : ∀ cs, Node.element "message" cs ∈ kids → charDataOf cs = "")
    (m0 m : MetaFragment) (h0 : m0.Message = "")
    (hfold : kids.foldlM MetaFragment.unmarshalChild m0 = some m) : m.Message = "" := by
  refine foldlM_invariant MetaFragment.unmarshalChild (fun m => m.Message = "") kids ?_
    m0 m h0 hfold
  intro x hx s s2 hs hs2
  cases x with
  | charData t =>
    simp only [MetaFragment.unmarshalChild, Option.some.injEq] at hs2
    rw [← hs2]
    exact hs
  | element name children =>
    simp only [MetaFragment.unmarshalChild] at hs2
    split_ifs at hs2 with h1 h2 h3
    · simp only [Option.map_eq_some'] at hs2
      obtain ⟨v, _, hv⟩ := hs2
      rw [← hv]
      exact hs
    · simp only [Option.some.injEq] at hs2
      rw [← hs2]
      exact hs
    · rw [h3] at hx
      simp only [Option.some.injEq] at hs2
      rw [← hs2]
      exact hempty children hx
    all_goals first
      | (simp only [Option.some.injEq] at hs2
         rw [← hs2]
         exact hs)
      | (simp only [Option.map_eq_some'] at hs2
         obtain ⟨v, _, hv⟩ := hs2
         rw [← hv]
         exact hs)

theorem meta_totalItems_zero (kids : List Node)
    (hempty : ∀ cs, Node.element "totalitems" cs ∈ kids → charDataOf cs = "")
    (m0 m : MetaFragment) (h0 : m0.TotalItems = 0)
    (hfold : kids.foldlM MetaFragment.unmarshalChild m0 = some m) : m.TotalItems = 0 := by
  refine foldlM_invariant MetaFragment.unmarshalChild (fun m => m.TotalItems = 0) kids ?_
    m0 m h0 hfold
  intro x hx s s2 hs hs2
  cases x with
  | charData t =>
    simp only [MetaFragment.unmarshalChild, Option.some.injEq] at hs2
    rw [← hs2]
    exact hs
  | element name children =>
    simp only [MetaFragment.unmarshalChild] at hs2
    split_ifs at hs2 with h1 h2 h3 h4
    · simp only [Option.map_eq_some'] at hs2
      obtain ⟨v, _, hv⟩ := hs2
      rw [← hv]
      exact hs
    · simp only [Option.some.injEq] at hs2
      rw [← hs2]
      exact hs
    · simp only [Option.some.injEq] at hs2
      rw [← hs2]
      exact hs
    · rw [h4] at hx
      rw [hempty children hx, copyInt_empty] at hs2
      simp only [Option.map_some', Option.some.injEq] at hs2
      rw [← hs2]
    all_goals first
      | (simp only [Option.some.injEq] at hs2
         rw [← hs2]
         exact hs)
      | (simp only [Option.map_eq_some'] at hs2
         obtain ⟨v, _, hv⟩ := hs2
         rw [← hv]
         exact hs)

theorem meta_itemsPerPage_zero (kids : List Node)
    (hempty : ∀ cs, Node.element "itemsperpage" cs ∈ kids → charDataOf cs = "")
    (m0 m : MetaFragment) (h0 : m0.ItemsPerPage = 0)
    (hfold : kids.foldlM MetaFragment.unmarshalChild m0 = some m) : m.ItemsPerPage = 0 := by
  refine foldlM_invariant MetaFragment.unmarshalChild (fun m => m.ItemsPerPage = 0) kids ?_
    m0 m h0 hfold
  intro x hx s s2 hs hs2
  cases x with
  | charData t =>
    simp only [MetaFragment.unmarshalChild, Option.some.injEq] at hs2
    rw [← hs2]
    exact hs
  | element name children =>
    simp only [MetaFragment.unmarshalChild] at hs2
    split_ifs at hs2 with h1 h2 h3 h4 h5
    · simp only [Option.map_eq_some'] at hs2
      obtain ⟨v, _, hv⟩ := hs2
      rw [← hv]
      exact hs
    · simp only [Option.some.injEq] at hs2
      rw [← hs2]
      exact hs
    · simp only [Option.some.injEq] at hs2
      rw [← hs2]
      exact hs
    · simp only [Option.map_eq_some'] at hs2
      obtain ⟨v, _, hv⟩ := hs2
      rw [← hv]
      exact hs
    · rw [h5] at hx
      rw [hempty children hx, copyInt_empty] at hs2
      simp only [Option.map_some', Option.some.injEq] at hs2
      rw [← hs2]
    · simp only [Option.some.injEq] at hs2
      rw [← hs2]
      exact hs

theorem quota_fold_some (lib : Lib) (children : List Node)
    (hconv : ∀ name cs, Node.element name cs ∈ children →
      (name = "free" ∨ name = "used" ∨ name = "total" → intConverts (charDataOf cs)) ∧
        (name = "relative" → lib.floatConverts (charDataOf cs)))
    (q : UserQuota) : ∃ q2, children.foldlM (UserQuota.unmarshalChild lib) q = some q2 := by
  refine foldlM_some_of_steps (UserQuota.unmarshalChild lib) children ?_ q
  intro x hx s
  cases x with
  | charData t => exact ⟨s, rfl⟩
  | element name cs =>
    simp only [UserQuota.unmarshalChild]
    refine ite_some _ _ _ (fun hname => map_some _ _
      (copyInt_converts _ ((hconv name cs hx).1 (.inl hname)))) (fun _ => ?_)
    refine ite_some _ _ _ (fun hname => map_some _ _
      (copyInt_converts _ ((hconv name cs hx).1 (.inr (.inl hname))))) (fun _ => ?_)
    refine ite_some _ _ _ (fun hname => map_some _ _
      (copyInt_converts _ ((hconv name cs hx).1 (.inr (.inr hname))))) (fun _ => ?_)
    refine ite_some _ _ _ (fun hname => map_some _ _
      (copyFloat32_converts lib _ ((hconv name cs hx).2 hname))) (fun _ => ?_)
    exact ite_some _ _ _ (fun _ => ⟨_, rfl⟩) (fun _ => ⟨_, rfl⟩)

theorem capabilities_fold_some (children : List Node)
    (hconv : ∀ name cs, Node.element name cs ∈ children →
      name = "setDisplayName" ∨ name = "setPassword" → boolConverts (charDataOf cs))
    (b : UserDetailsBackendCapabilities) :
    ∃ b2, children.foldlM UserDetailsBackendCapabilities.unmarshalChild b = some b2 := by
  refine foldlM_some_of_steps UserDetailsBackendCapabilities.unmarshalChild children ?_ b
  intro x hx s
  cases x with
  | charData t => exact ⟨s, rfl⟩
  | element name cs =>
    simp only [UserDetailsBackendCapabilities.unmarshalChild]
    refine ite_some _ _ _ (fun hname => map_some _ _
      (copyBool_converts _ (hconv name cs hx (.inl hname)))) (fun _ => ?_)
    exact ite_some _ _ _ (fun hname => map_some _ _
      (copyBool_converts _ (hconv name cs hx (.inr hname)))) (fun _ => ⟨_, rfl⟩)

/-- `UserDetailsResponse` decodes every document with the root `ocs` whose meta and
data sections convert. -/
theorem unmarshalUserDetails_ok (lib : Lib) (body : String) (root : Root)
    (hroot : lib.xmlRoot body = some root) (hocs : root.Name.Local = "ocs")
    (hmeta : metaConverts root) (hdata : lib.dataConverts root) :
    ∃ r, lib.UnmarshalUserDetailsResponse body = .ok r := by
  have hchild : ∀ kids, Node.element "data" kids ∈ root.children → ∀ x ∈ kids, ∀ s,
      ∃ s2, UserDetailsResponse.unmarshalDataChild lib s x = some s2 := by
    intro kids hkids x hx s
    obtain ⟨henabled, hquota, hcaps⟩ := hdata kids hkids
    cases x with
    | charData t => exact ⟨s, rfl⟩
    | element name cs =>
      simp only [UserDetailsResponse.unmarshalDataChild]
      refine ite_some _ _ _ (fun hname => map_some _ _
        (copyBool_converts _ (henabled cs (by rw [← hname]; exact hx)))) (fun _ => ?_)
      refine ite_some _ _ _ (fun _ => ⟨_, rfl⟩) (fun _ => ?_)
      refine ite_some _ _ _ (fun _ => ⟨_, rfl⟩) (fun _ => ?_)
      refine ite_some _ _ _ (fun _ => ⟨_, rfl⟩) (fun _ => ?_)
      refine ite_some _ _ _ (fun _ => ⟨_, rfl⟩) (fun _ => ?_)
      refine ite_some _ _ _ (fun hname => map_some _ _
        (quota_fold_some lib cs
          (fun n ds hds => hquota cs n ds (by rw [← hname]; exact hx) hds) _)) (fun _ => ?_)
      refine ite_some _ _ _ (fun _ => ⟨_, rfl⟩) (fun _ => ?_)
      refine ite_some _ _ _ (fun _ => ⟨_, rfl⟩) (fun _ => ?_)
      refine ite_some _ _ _ (fun _ => ⟨_, rfl⟩) (fun _ => ?_)
      refine ite_some _ _ _ (fun _ => ⟨_, rfl⟩) (fun _ => ?_)
      refine ite_some _ _ _ (fun _ => ⟨_, rfl⟩) (fun _ => ?_)
      refine ite_some _ _ _ (fun _ => ⟨_, rfl⟩) (fun _ => ?_)
      refine ite_some _ _ _ (fun _ => ⟨_, rfl⟩) (fun _ => ?_)
      refine ite_some _ _ _ (fun _ => ⟨_, rfl⟩) (fun _ => ?_)
      refine ite_some _ _ _ (fun _ => ⟨_, rfl⟩) (fun _ => ?_)
      exact ite_some _ _ _ (fun hname => map_some _ _
        (capabilities_fold_some cs
          (fun n ds hds hn => hcaps cs n ds (by rw [← hname]; exact hx) hds hn) _))
        (fun _ => ⟨_, rfl⟩)
  obtain ⟨r, hr⟩ := foldlM_some_of_steps (UserDetailsResponse.unmarshalChild lib)
    root.children (by
      intro x hx s
      cases x with
      | charData t => exact ⟨s, rfl⟩
      | element name kids =>
        simp only [UserDetailsResponse.unmarshalChild]
        refine ite_some _ _ _ (fun hname => map_some _ _
          (unmarshalMeta_some kids (fun n cs hcs hn => hmeta kids n cs (by rw [← hname]; exact hx)
            hcs hn) _)) (fun _ => ?_)
        refine ite_some _ _ _ (fun hname => foldlM_some_of_steps _ kids
          (hchild kids (by rw [← hname]; exact hx)) s) (fun _ => ?_)
        exact ite_some _ _ _ (fun _ => ⟨_, rfl⟩) (fun _ => ⟨_, rfl⟩))
    { UserDetailsResponse.zero with XMLName := root.Name }
  exact ⟨r, by
    simp only [Lib.UnmarshalUserDetailsResponse, hroot, hocs, ne_eq, not_true_eq_false, if_false,
      hr]⟩

theorem ite_neg_cases {α : Type} (c : Prop) [Decidable c] (a b : Option α) (P : α → Prop)
    (hc : ¬ c) (hb : ∀ x, b = some x → P x) : ∀ x, (if c then a else b) = some x → P x := by
  intro x hx
  rw [if_neg hc] at hx
  exact hb x hx

theorem unmarshalDataChild_keeps_quota (lib : Lib) (r : UserDetailsResponse) (name : String)
    (children : List Node) (hname : ¬ name = "quota") :
    ∀ r2, UserDetailsResponse.unmarshalDataChild lib r (.element name children) = some r2 →
      r2.Quota = r.Quota := by
  simp only [UserDetailsResponse.unmarshalDataChild]
  repeat' first
    | exact some_cases _ _ rfl
    | exact map_cases _ _ _ (fun _ => rfl)
    | refine ite_neg_cases _ _ _ _ hname ?_
    | refine ite_some_cases _ _ _ (fun x : UserDetailsResponse => x.Quota = r.Quota) ?_ ?_

/-- A document without a `quota` element in its data sections decodes to a
record whose `Quota` is nil. -/
theorem unmarshalUserDetails_no_quota (lib : Lib) (body : String) (root : Root)
    (hroot : lib.xmlRoot body = some root)
    (habsent : ∀ kids cs, Node.element "data" kids ∈ root.children →
      Node.element "quota" cs ∉ kids)
    (r : UserDetailsResponse) (hr : lib.UnmarshalUserDetailsResponse body = .ok r) :
    r.Quota = none := by
  simp only [Lib.UnmarshalUserDetailsResponse, hroot] at hr
  split at hr
  · cases hr
  · cases hfold : root.children.foldlM (UserDetailsResponse.unmarshalChild lib)
        { UserDetailsResponse.zero with XMLName := root.Name } with
    | none => simp [hfold] at hr
    | some fields =>
      simp only [hfold, Except.ok.injEq] at hr
      rw [← hr]
      refine foldlM_invariant (UserDetailsResponse.unmarshalChild lib) (fun r => r.Quota = none)
        root.children ?_ _ fields rfl hfold
      intro x hx s s2 hs hs2
      cases x with
      | charData t =>
        simp only [UserDetailsResponse.unmarshalChild, Option.some.injEq] at hs2
        rw [← hs2]
        exact hs
      | element name kids =>
        simp only [UserDetailsResponse.unmarshalChild] at hs2
        by_cases hmeta : name = "meta"
        · rw [if_pos hmeta] at hs2
          simp only [Option.map_eq_some'] at hs2
          obtain ⟨m, _, hm⟩ := hs2
          rw [← hm]
          exact hs
        · rw [if_neg hmeta] at hs2
          by_cases hdata : name = "data"
          · rw [if_pos hdata] at hs2
            have hkeep : s2.Quota = s.Quota :=
              foldlM_invariant (UserDetailsResponse.unmarshalDataChild lib)
                (fun r => r.Quota = s.Quota) kids
                (fun y hy a b ha hb => by
                  show b.Quota = s.Quota
                  cases y with
                  | charData t =>
                    simp only [UserDetailsResponse.unmarshalDataChild, Option.some.injEq] at hb
                    rw [← hb]
                    exact ha
                  | element n cs =>
                    have hn : ¬ n = "quota" := by
                      intro hq
                      rw [hq] at hy
                      exact habsent kids cs (by rw [← hdata]; exact hx) hy
                    rw [unmarshalDataChild_keeps_quota lib a n cs hn b hb]
                    exact ha)
                s s2 rfl hs2
            show s2.Quota = none
            rw [hkeep]
            exact hs
          · rw [if_neg hdata] at hs2
            by_cases hsub : name = "subadmin"
            · rw [if_pos hsub] at hs2
              cases hs2
              exact hs
            · rw [if_neg hsub] at hs2
              cases hs2
              exact hs

theorem decodeMeta_ok (op : Operation) (lib : Lib) (body : String) (root : Root)
    (hroot : lib.xmlRoot body = some root) (hocs : root.Name.Local = "ocs")
    (hmeta : metaConverts root)
    (hdata : ∀ userId, op = .GetUserDetails userId → lib.dataConverts root) :
    ∃ RequestMeta, op.decodeMeta lib body = .ok RequestMeta := by
  have listKey : ∀ (target : String) (path : List String) (g : Name × ListFields →
      Option MetaFragment), ∃ RequestMeta,
      (lib.unmarshalList target path body).map g = .ok RequestMeta := by
    intro target path g
    obtain ⟨r, hr⟩ := unmarshalList_ok lib target path body root hroot hocs hmeta
    exact ⟨g r, by rw [hr]; rfl⟩
  have mapMap : ∀ {ρ σ τ : Type} (x : Except Err ρ) (g : ρ → σ) (k : σ → τ),
      (x.map g).map k = x.map (fun r => k (g r)) := by
    intro ρ σ τ x g k
    cases x <;> rfl
  cases op with
  | GetUserDetails userId =>
    obtain ⟨r, hr⟩ := unmarshalUserDetails_ok lib body root hroot hocs hmeta (hdata userId rfl)
    exact ⟨r.RequestMeta, by simp only [Operation.decodeMeta, hr]; rfl⟩
  | _ =>
    simp only [Operation.decodeMeta, Lib.UnmarshalGetUsersResponse,
      Lib.UnmarshalGetGroupsResponse, Lib.UnmarshalUserGroupsResponse,
      Lib.UnmarshalUserSubadminGroupsResponse, Lib.UnmarshalGetGroupMembersResponse,
      Lib.UnmarshalGetGroupSubadminsResponse, Lib.UnmarshalSimpleResponse, mapMap]
    exact listKey _ _ _

theorem listOp_decode_ok (lop : ListOp) (lib : Lib) (body : String) (root : Root)
    (hroot : lib.xmlRoot body = some root) (hocs : root.Name.Local = "ocs")
    (hmeta : metaConverts root) : ∃ m L, lop.decode lib body = .ok (m, L) := by
  have listKey : ∀ (target : String) (path : List String) (g : Name × ListFields →
      Option MetaFragment × List String), ∃ m L,
      (lib.unmarshalList target path body).map g = .ok (m, L) := by
    intro target path g
    obtain ⟨r, hr⟩ := unmarshalList_ok lib target path body root hroot hocs hmeta
    exact ⟨(g r).1, (g r).2, by rw [hr]; rfl⟩
  have mapMap : ∀ {ρ σ τ : Type} (x : Except Err ρ) (g : ρ → σ) (k : σ → τ),
      (x.map g).map k = x.map (fun r => k (g r)) := by
    intro ρ σ τ x g k
    cases x <;> rfl
  cases lop <;>
    simp only [ListOp.decode, Lib.UnmarshalGetUsersResponse, Lib.UnmarshalGetGroupsResponse,
      Lib.UnmarshalUserGroupsResponse, Lib.UnmarshalUserSubadminGroupsResponse,
      Lib.UnmarshalGetGroupMembersResponse, Lib.UnmarshalGetGroupSubadminsResponse, mapMap] <;>
    exact listKey _ _ _

/-- C21: a well-formed envelope, that is a document with the root `ocs` in which
every integer field present in a meta section is empty or an integer, is decoded
without error into the response of every operation (for the user details, when
the boolean and numeric fields present in the data section convert).  In the
decoded meta record the message is "" when every `message` element is absent or
empty, and `TotalItems` and `ItemsPerPage` are 0 when every `totalitems`, every
`itemsperpage` element is absent or empty; a list operation decodes a data
section without entries to the nil list; and a document without `quota` element
in its data section decodes to user details whose `Quota` is nil. -/
theorem absent_fields_decode_to_zero (lib : Lib) (body : String) (root : Root)
    (hroot : lib.xmlRoot body = some root) (hocs : root.Name.Local = "ocs")
    (hmeta : metaConverts root) :
    (∀ op : Operation, (∀ userId, op = .GetUserDetails userId → lib.dataConverts root) →
        ∃ RequestMeta, op.decodeMeta lib body = .ok RequestMeta) ∧
      (∀ (op : Operation) (m : MetaFragment), op.decodeMeta lib body = .ok (some m) →
        (metaFieldEmpty "message" root → m.Message = "") ∧
          (metaFieldEmpty "totalitems" root → m.TotalItems = 0) ∧
          (metaFieldEmpty "itemsperpage" root → m.ItemsPerPage = 0)) ∧
      (∀ lop : ListOp, ∃ m L, lop.decode lib body = .ok (m, L) ∧ (emptyPayload root → L = [])) ∧
      (lib.dataConverts root →
        ∃ r, lib.UnmarshalUserDetailsResponse body = .ok r ∧
          ((∀ kids cs, Node.element "data" kids ∈ root.children →
            Node.element "quota" cs ∉ kids) → r.Quota = none)) := by
  refine ⟨?_, ?_, ?_, ?_⟩
  · intro op hdata
    exact decodeMeta_ok op lib body root hroot hocs hmeta hdata
  · intro op m hdec
    refine ⟨?_, ?_, ?_⟩
    · intro hempty
      exact decodeMeta_invariant op lib body root (fun m => m.Message = "") hroot rfl
        (fun kids hkids m0 m1 h0 hfold =>
          meta_message_empty kids (fun cs hcs => hempty kids cs hkids hcs) m0 m1 h0 hfold)
        m hdec
    · intro hempty
      exact decodeMeta_invariant op lib body root (fun m => m.TotalItems = 0) hroot rfl
        (fun kids hkids m0 m1 h0 hfold =>
          meta_totalItems_zero kids (fun cs hcs => hempty kids cs hkids hcs) m0 m1 h0 hfold)
        m hdec
    · intro hempty
      exact decodeMeta_invariant op lib body root (fun m => m.ItemsPerPage = 0) hroot rfl
        (fun kids hkids m0 m1 h0 hfold =>
          meta_itemsPerPage_zero kids (fun cs hcs => hempty kids cs hkids hcs) m0 m1 h0 hfold)
        m hdec
  · intro lop
    obtain ⟨m, L, hdec⟩ := listOp_decode_ok lop lib body root hroot hocs hmeta
    refine ⟨m, L, hdec, ?_⟩
    intro hempty
    rw [listOp_decode_items lop lib body root m L hroot hdec, emptyPayload_texts root hempty lop]
  · intro hdata
    obtain ⟨r, hr⟩ := unmarshalUserDetails_ok lib body root hroot hocs hmeta hdata
    exact ⟨r, hr, fun habsent => unmarshalUserDetails_no_quota lib body root hroot habsent r hr⟩

theorem sparseEnvelope_meta (kids : List Node)
    (hkids : Node.element "meta" kids ∈ sparseEnvelope.document.children) :
    kids = [.element "status" [.charData "ok"], .element "statuscode" [.charData "100"],
      .element "message" [], .element "totalitems" []] := by
  simp only [sparseEnvelope, List.mem_cons, Node.element.injEq, true_and, String.reduceEq,
    false_and, List.not_mem_nil, or_false] at hkids
  exact hkids

theorem absent_fields_decode_to_zero_witness :
    sparseEnvelope.lib.UnmarshalGetUsersResponse sparseEnvelope.body =
        .ok ⟨⟨"", "ocs"⟩, some ⟨100, "ok", "", 0, 0⟩, []⟩ ∧
      (∃ r, sparseEnvelope.lib.UnmarshalUserDetailsResponse sparseEnvelope.body = .ok r ∧
        r.Quota = none) := by
  have hmeta : metaConverts sparseEnvelope.document := by
    intro kids name cs hkids hcs hname
    rw [sparseEnvelope_meta kids hkids] at hcs
    simp only [List.mem_cons, Node.element.injEq, List.not_mem_nil, or_false] at hcs
    rcases hcs with h | h | h | h
    · rcases hname with hn | hn | hn <;> rw [hn] at h <;> exact absurd h.1 (by decide)
    · rw [h.2]
      exact .inr ⟨100, by decide⟩
    · rcases hname with hn | hn | hn <;> rw [hn] at h <;> exact absurd h.1 (by decide)
    · rw [h.2]
      exact .inl rfl
  have hw := absent_fields_decode_to_zero sparseEnvelope.lib sparseEnvelope.body
    sparseEnvelope.document rfl rfl hmeta
  refine ⟨rfl, ?_⟩
  obtain ⟨r, hr, hquota⟩ := hw.2.2.2 (by
    intro kids hkids
    have hk : kids = [] := by
      simp only [sparseEnvelope, List.mem_cons, Node.element.injEq, String.reduceEq, false_and,
        true_and, List.not_mem_nil, or_false, false_or] at hkids
      exact hkids
    rw [hk]
    refine ⟨?_, ?_, ?_⟩
    · intro cs hcs
      cases hcs
    · intro quota name cs hq
      cases hq
    · intro caps name cs hcaps
      cases hcaps)
  refine ⟨r, hr, hquota ?_⟩
  intro kids cs hkids hcs
  have hk : kids = [] := by
    simp only [sparseEnvelope, List.mem_cons, Node.element.injEq, String.reduceEq, false_and,
      true_and, List.not_mem_nil, or_false, false_or] at hkids
    exact hkids
  rw [hk] at hcs
  cases hcs


/-! ## Statuses other than 200, operation by operation -/

/-- C8, as the code behaves: when the answer to a request has a status `n` other
than 200 and the body `b`, whatever `b` holds, `doRequest` returns nil bytes and an
error with the text "status: n, body: b", and an operation whose request is
answered so returns the zero value of its result type and that error.  An
operation with a form body or a nil body reader whose arguments validate sends
its request when the library accepts it and the client has an `http.Client`.
`DisableUser`, `EnableUser`, `DeleteUser`, `ResendWelcomeMail` and `DeleteGroup`
hand nothing to the transport and end in a nil dereference whatever the server
would answer: against a server that answers 401 they return no error. -/
theorem non200_error_except_bodyless :
    (∀ (c : Client) (h : HTTPClient) (req sentReq : Request) (n : Int) (b : String),
        c.HTTPClient = some h → (c.doRequest req).sent = [sentReq] →
        h.Do sentReq = .response n (.ok b) → n ≠ 200 →
        ∃ e, (c.doRequest req).outcome = .returned none (some e) ∧
          e.Error = "status: " ++ fmtInt n ++ ", body: " ++ b) ∧
      (∀ (op : Operation) (c : Client) (lib : Lib) (h : HTTPClient) (sentReq : Request)
          (n : Int) (b : String),
        c.HTTPClient = some h → (op.call c lib).sent = [sentReq] →
        h.Do sentReq = .response n (.ok b) → n ≠ 200 →
        ∃ v e, (op.call c lib).outcome = .returned v (some e) ∧ v.isZero = true ∧
          e.Error = "status: " ++ fmtInt n ++ ", body: " ++ b) ∧
      (∀ (op : Operation) (c : Client) (lib : Lib) (h : HTTPClient),
        c.HTTPClient = some h → op.bodyless = false → op.validates = true →
        lib.newRequestError op.method (c.HostURL ++ op.path) = none →
        ∃ req, (op.call c lib).sent = [req]) ∧
      (∀ (op : Operation) (c : Client) (lib : Lib), op.bodyless = true →
        op.call c lib = ⟨[], .panicked .nilDereference⟩) := by
  refine ⟨?_, ?_, ?_, ?_⟩
  · intro c h req sentReq n b hc hsent hdo hn
    rw [doRequest_sent c h req hc] at hsent
    have hreq : sentReq = c.outgoing req := (List.head_eq_of_cons_eq hsent).symm
    subst hreq
    refine ⟨.fmtErrorf ("status: " ++ fmtInt n ++ ", body: " ++ b), ?_, rfl⟩
    rw [doRequest_outcome c h req hc, hdo]
    simp only [hn, ne_eq, not_false_eq_true, if_true]
  · intro op c lib h2 req2 n b hc2 hsent2 hdo hn
    rcases operation_outcome_cases op c lib with hp | ⟨v0, e0, hz, hp⟩ |
      ⟨h, req, ρ, α, f, decode, metaOf, zero, finish, hc, hz, _, _, hcall⟩
    · rw [hp] at hsent2
      cases hsent2
    · rw [hp] at hsent2
      cases hsent2
    · have hh : h2 = h := by
        rw [hc] at hc2
        exact (Option.some.inj hc2).symm
      have hreq : req2 = req := by
        rw [hcall] at hsent2
        exact (List.head_eq_of_cons_eq hsent2).symm
      subst hh hreq
      rw [hcall]
      simp only [Call.wrap, hdo]
      refine ⟨f zero, .fmtErrorf ("status: " ++ fmtInt n ++ ", body: " ++ b), ?_, hz, rfl⟩
      simp only [interpret, hn, ne_eq, not_false_eq_true, if_true]
  · intro op c lib h hc hbody hvalid hnr
    obtain ⟨ρ, α, f, body, addHeaders, decode, metaOf, zero, finish, _, _, _, _, hcall⟩ :=
      operation_wire op c lib hbody hvalid
    rw [hcall]
    simp only [Call.wrap]
    exact ⟨_, pipeline_sends c lib _ _ _ _ _ _ _ _ _ h hc hnr⟩
  · intro op c lib hbody
    exact operation_bodyless_call op c lib hbody

theorem non200_error_except_bodyless_witness :
    (∃ v e,
      (Operation.call unauthorized.client unauthorized.lib (.GetUserDetails "john.doe")).outcome
          = .returned v (some e) ∧
        v.isZero = true ∧ e.Error = "status: 401, body: " ++ unauthorized.body) ∧
      Operation.call unauthorized.client unauthorized.lib (.DeleteUser "john.doe") =
        ⟨[], .panicked .nilDereference⟩ ∧
      Operation.call unauthorized.client unauthorized.lib (.DisableUser "john.doe") =
        ⟨[], .panicked .nilDereference⟩ := by
  obtain ⟨req, hsent⟩ := non200_error_except_bodyless.2.2.1 (.GetUserDetails "john.doe")
    unauthorized.client unauthorized.lib _ rfl rfl rfl rfl
  exact ⟨non200_error_except_bodyless.2.1 (.GetUserDetails "john.doe") unauthorized.client
      unauthorized.lib _ req 401 unauthorized.body rfl hsent rfl (by decide),
    non200_error_except_bodyless.2.2.2 (.DeleteUser "john.doe") unauthorized.client
      unauthorized.lib rfl,
    non200_error_except_bodyless.2.2.2 (.DisableUser "john.doe") unauthorized.client
      unauthorized.lib rfl⟩

end nextcloudClient
